import Mathlib

/-!
# libindicate listener: discovery and aggregation engine

A shallow embedding of `src/libindicate/listener.c`.

* GLib containers are lists: a `GList` of `proxy_t *` is a list of heap
  addresses, a `GHashTable` is an association list whose order stands for the
  (unspecified) iteration order of the table.
* `proxy_t` objects live in a heap (`State.heap`); `g_new0` appends a cell,
  `g_free` empties it, addresses are never reused.
* Every function returns the new state together with the list of effects it
  performed, in program order: signal emissions to the application,
  `g_warning` diagnostics, remote calls begun and remote signals connected.
* A handler that is given the address of a released cell has undefined
  behaviour in C; here it leaves the state alone and records the effect
  `use_after_free`. A list search that compares a released cell records the
  same effect and goes on to the next element.
* `guint` ids are natural numbers; the code never does arithmetic on them.
-/

namespace Indicate

/-! ## Data model -/

/-- Address of a heap allocated `proxy_t`. -/
abbrev Ptr := Nat

/-- The two bus connections `priv->session_bus` and `priv->system_bus`. -/
inductive DBusGConnection where
  | session_bus
  | system_bus
deriving DecidableEq, Repr

/-- The two proxies of the bus daemon, `priv->dbus_proxy_session` and
`priv->dbus_proxy_system`. -/
inductive DaemonProxy where
  | dbus_proxy_session
  | dbus_proxy_system
deriving DecidableEq, Repr

/-- A remote handle as made by `dbus_g_proxy_new_for_name`. -/
structure DBusGProxy where
  connection : DBusGConnection
  name : String
  path : String
  iface : String
deriving DecidableEq, Repr

/-- Interest kinds. The enum is declared in a header that is not among the
sources at hand; its members are the cases of `interest_to_string`. -/
inductive IndicateInterests where
  | INDICATE_INTEREST_SERVER_DISPLAY
  | INDICATE_INTEREST_SERVER_SIGNAL
  | INDICATE_INTEREST_INDICATOR_DISPLAY
  | INDICATE_INTEREST_INDICATOR_SIGNAL
  | INDICATE_INTEREST_INDICATOR_COUNT
deriving DecidableEq, Repr

/-- The array `gboolean interests[INDICATE_INTEREST_LAST]`, one cell per kind. -/
structure InterestFlags where
  server_display : Bool
  server_signal : Bool
  indicator_display : Bool
  indicator_signal : Bool
  indicator_count : Bool
deriving DecidableEq, Repr

/-- Read of `interests[interest]`. -/
def InterestFlags.get (f : InterestFlags) : IndicateInterests → Bool
  | .INDICATE_INTEREST_SERVER_DISPLAY => f.server_display
  | .INDICATE_INTEREST_SERVER_SIGNAL => f.server_signal
  | .INDICATE_INTEREST_INDICATOR_DISPLAY => f.indicator_display
  | .INDICATE_INTEREST_INDICATOR_SIGNAL => f.indicator_signal
  | .INDICATE_INTEREST_INDICATOR_COUNT => f.indicator_count

/-- Write of `interests[interest] = v`. -/
def InterestFlags.set (f : InterestFlags) (i : IndicateInterests) (v : Bool) : InterestFlags :=
  match i with
  | .INDICATE_INTEREST_SERVER_DISPLAY => { f with server_display := v }
  | .INDICATE_INTEREST_SERVER_SIGNAL => { f with server_signal := v }
  | .INDICATE_INTEREST_INDICATOR_DISPLAY => { f with indicator_display := v }
  | .INDICATE_INTEREST_INDICATOR_SIGNAL => { f with indicator_signal := v }
  | .INDICATE_INTEREST_INDICATOR_COUNT => { f with indicator_count := v }

/-- The flags of a zero-filled (`g_new0`) server struct. -/
def InterestFlags.zero : InterestFlags :=
  ⟨false, false, false, false, false⟩

/-- The struct `_IndicateListenerServer`. -/
structure IndicateListenerServer where
  name : String
  proxy : Option DBusGProxy
  connection : DBusGConnection
  interests : InterestFlags
deriving DecidableEq, Repr

/-- Inner hash table of a type bucket (`g_direct_hash` keys, every value is
`TRUE`): the ids it holds. -/
abbrev IdTable := List Nat

/-- Outer hash table `proxyt->indicators` (`g_str_hash` keys): type string to
bucket. -/
abbrev IndicatorTable := List (String × IdTable)

/-- The struct `proxy_t`. The `listener` back pointer is left out: there is one
listener, the state itself. -/
structure proxy_t where
  proxy : Option DBusGProxy
  property_proxy : Option DBusGProxy
  connection : DBusGConnection
  name : String
  type : Option String
  indicators : Option IndicatorTable
  server : IndicateListenerServer
deriving DecidableEq, Repr

/-- The struct `proxy_todo_t`. -/
structure proxy_todo_t where
  bus : DBusGConnection
  name : String
  startup : Bool
deriving DecidableEq, Repr

/-- The struct `_IndicateListenerPrivate` (bus handles are the constants of
`DBusGConnection` and `DaemonProxy`). -/
structure IndicateListenerPrivate where
  proxies_working : List Ptr
  proxies_possible : List Ptr
  proxy_todo : List proxy_todo_t
  todo_idle : Nat
deriving DecidableEq, Repr

/-- Listener state: the private struct and the heap of `proxy_t` cells. -/
structure State where
  priv : IndicateListenerPrivate
  heap : List (Option proxy_t)
deriving DecidableEq, Repr

/-- The five application signals with the arguments passed to `g_signal_emit`.
Four emissions pass the address `&proxyt->server`, which is the address of the
owning `proxy_t` here; the emission in `proxy_indicator_modified` passes the
struct `proxyt->server` itself. Every call ends with an extra argument `TRUE`
that no signal signature declares; it is left out. -/
inductive Signal where
  | INDICATOR_ADDED (server : Ptr) (id : Nat) (type : String)
  | INDICATOR_REMOVED (server : Ptr) (id : Nat) (type : String)
  | INDICATOR_MODIFIED (server : IndicateListenerServer) (id : Nat) (type : String)
      (property : String)
  | SERVER_ADDED (server : Ptr) (type : Option String)
  | SERVER_REMOVED (server : Ptr) (type : Option String)
deriving DecidableEq, Repr

/-- Remote method calls begun by the listener. -/
inductive RemoteCall where
  | Get (iface : String) (property_name : String)
  | GetIndicatorList
  | GetIndicatorProperty (id : Nat) (property : String)
  | ShowInterest (interest : String)
  | RemoveInterest (interest : String)
deriving DecidableEq, Repr

/-- Observable effects of the listener. The last one marks a read of a
`proxy_t` cell that has been freed: the C code has undefined behaviour there,
the model records the fact and leaves the state alone. -/
inductive Effect where
  | g_signal_emit (s : Signal)
  | g_warning (format : String)
  | begin_call (proxy : Option DBusGProxy) (call : RemoteCall)
  | connect_signal (proxy : Option DBusGProxy) (signal : String)
  | use_after_free (p : Ptr)
deriving DecidableEq, Repr

/-! ## GLib primitives -/

/-- Lookup in the outer table. -/
def g_hash_table_lookup : IndicatorTable → String → Option IdTable
  | [], _ => none
  | (k, v) :: rest, key => if k = key then some v else g_hash_table_lookup rest key

/-- Stores `v` as the bucket of `key`: the inner table of an existing key is
updated in place, a new key gets a new entry. -/
def g_hash_table_insert : IndicatorTable → String → IdTable → IndicatorTable
  | [], key, v => [(key, v)]
  | (k, w) :: rest, key, v =>
    if k = key then (k, v) :: rest else (k, w) :: g_hash_table_insert rest key v

/-- Membership test `g_hash_table_lookup(indicators, (gpointer)id)` on a bucket. -/
def id_lookup (ids : IdTable) (id : Nat) : Bool :=
  ids.contains id

/-- Insertion `g_hash_table_insert(indicators, (gpointer)id, TRUE)` of an id
into a bucket. -/
def id_insert (ids : IdTable) (id : Nat) : IdTable :=
  if ids.contains id then ids else ids ++ [id]

/-- Removal `g_hash_table_remove(indicators, (gpointer)id)` from a bucket. -/
def id_remove (ids : IdTable) (id : Nat) : IdTable :=
  ids.erase id

/-- The keys of the outer table, `g_hash_table_get_keys`. -/
def g_hash_table_get_keys (t : IndicatorTable) : List String :=
  t.map Prod.fst

/-- Lexicographic order of two strings by character code, the order of
`strcmp` on their UTF-8 bytes. -/
def chars_lt : List Char → List Char → Bool
  | [], [] => false
  | [], _ :: _ => true
  | _ :: _, [] => false
  | a :: as, b :: bs =>
    if a.toNat < b.toNat then true
    else if b.toNat < a.toNat then false
    else chars_lt as bs

/-- String comparison `g_strcmp0` on non-null strings: zero exactly on equal
strings, negative or positive by the order of the strings otherwise. -/
def g_strcmp0 (a b : String) : Int :=
  if a = b then 0 else if chars_lt a.data b.data then -1 else 1

/-! ## Heap -/

/-- Dereference of a `proxy_t *`; `none` for a freed or never allocated cell. -/
def deref (st : State) (p : Ptr) : Option proxy_t :=
  st.heap[p]?.join

/-- In-place update of the cell at `p`. -/
def store (st : State) (p : Ptr) (v : proxy_t) : State :=
  { st with heap := st.heap.set p (some v) }

/-- Release `g_free(proxy_data)`. -/
def g_free (st : State) (p : Ptr) : State :=
  { st with heap := st.heap.set p none }

/-- Allocation `g_new0(proxy_t, 1)` followed by the field assignments: the new
cell gets the next address. -/
def g_new (st : State) (v : proxy_t) : Ptr × State :=
  (st.heap.length, { st with heap := st.heap ++ [some v] })

/-! ## Peer identity and list search -/

/-- Comparison function `proxy_t_equal`: the result of `g_strcmp0` on the names
when the connections are the same, `1` otherwise. -/
def proxy_t_equal (a b : proxy_t) : Int :=
  if a.connection = b.connection then g_strcmp0 a.name b.name else 1

/-- The stack variable `searchitem`: only `connection` and `name` are set, the
other fields are never read. -/
def searchitem (connection : DBusGConnection) (name : String) : proxy_t :=
  { proxy := none, property_proxy := none, connection := connection, name := name,
    type := none, indicators := none,
    server := { name := name, proxy := none, connection := connection,
                interests := InterestFlags.zero } }

/-- Search `g_list_find_custom(list, item, proxy_t_equal)`: the first element
that compares equal (result 0) to `item`, together with the reads of released
cells the search made on its way. The comparison of an element whose cell has
been freed reads freed memory in C; here that read is recorded as
`use_after_free` and the element counts as not equal. -/
def g_list_find_custom (st : State) : List Ptr → proxy_t → Option Ptr × List Effect
  | [], _ => (none, [])
  | p :: rest, item =>
    match deref st p with
    | some a =>
      if proxy_t_equal a item = 0 then (some p, []) else g_list_find_custom st rest item
    | none =>
      ((g_list_find_custom st rest item).1,
       Effect.use_after_free p :: (g_list_find_custom st rest item).2)

/-- Removal `g_list_remove(list, data)`: drops the first element equal to the
pointer `data`. -/
def g_list_remove (list : List Ptr) (data : Ptr) : List Ptr :=
  list.erase data

/-! ## Teardown -/

/-- Per bucket callback `proxy_struct_destroy_indicators`: one
`INDICATOR_REMOVED` emission per key of the bucket, then the bucket is
emptied. Returns the emptied bucket and the emissions. -/
def proxy_struct_destroy_indicators (type : String) (indicators : IdTable) (data : Ptr) :
    IdTable × List Effect :=
  ([], indicators.map fun id => Effect.g_signal_emit (Signal.INDICATOR_REMOVED data id type))

/-- The emissions of `proxy_struct_destroy` for a peer record: nothing when
`indicators` is NULL, otherwise the emissions of every bucket followed by
`SERVER_REMOVED` with the declared type. -/
def destroy_effects (data : Ptr) (proxy_data : proxy_t) : List Effect :=
  match proxy_data.indicators with
  | none => []
  | some indicators =>
    (indicators.flatMap fun e => (proxy_struct_destroy_indicators e.1 e.2 data).2)
      ++ [Effect.g_signal_emit (Signal.SERVER_REMOVED data proxy_data.type)]

/-- Teardown `proxy_struct_destroy`: emissions, release of the remote handles
(not observable here), release of the cell. -/
def proxy_struct_destroy (data : Ptr) (st : State) : State × List Effect :=
  match deref st data with
  | none => (st, [Effect.use_after_free data])
  | some proxy_data => (g_free st data, destroy_effects data proxy_data)

/-! ## Promotion and the indicator mirror -/

/-- Promotion `proxy_server_added`, also the handler of the remote signal
`ServerShow`. -/
def proxy_server_added (type : Option String) (p : Ptr) (st : State) : State × List Effect :=
  match deref st p with
  | none => (st, [Effect.use_after_free p])
  | some proxyt =>
    match proxyt.indicators with
    | some _ => (st, [])
    | none =>
      let proxyt_item := g_list_find_custom st st.priv.proxies_possible proxyt
      let possible :=
        match proxyt_item.1 with
        | some item => g_list_remove st.priv.proxies_possible item
        | none => st.priv.proxies_possible
      let working := p :: st.priv.proxies_working
      let newtype := match type with
        | some t => some t
        | none => proxyt.type
      let st1 : State :=
        { st with priv := { st.priv with proxies_possible := possible,
                                         proxies_working := working } }
      (store st1 p { proxyt with indicators := some [], type := newtype },
       proxyt_item.2
        ++ [Effect.connect_signal proxyt.proxy "IndicatorAdded",
            Effect.connect_signal proxyt.proxy "IndicatorRemoved",
            Effect.connect_signal proxyt.proxy "IndicatorModified",
            Effect.g_signal_emit (Signal.SERVER_ADDED p newtype)])

/-- Add path `proxy_indicator_added`, handler of the remote signal
`IndicatorAdded` and target of `proxy_get_indicator_type`. -/
def proxy_indicator_added (id : Nat) (type : String) (p : Ptr) (st : State) :
    State × List Effect :=
  match deref st p with
  | none => (st, [Effect.use_after_free p])
  | some proxyt0 =>
    let r := if proxyt0.indicators.isNone then proxy_server_added none p st else (st, [])
    match deref r.1 p with
    | none => r
    | some proxyt =>
      match proxyt.indicators with
      | none => r
      | some table =>
        let table1 :=
          match g_hash_table_lookup table type with
          | some _ => table
          | none => g_hash_table_insert table type []
        let indicators := (g_hash_table_lookup table1 type).getD []
        if id_lookup indicators id then
          (store r.1 p { proxyt with indicators := some table1 }, r.2)
        else
          let table2 := g_hash_table_insert table1 type (id_insert indicators id)
          (store r.1 p { proxyt with indicators := some table2 },
           r.2 ++ [Effect.g_signal_emit (Signal.INDICATOR_ADDED p id type)])

/-- Remove path `proxy_indicator_removed`, handler of the remote signal
`IndicatorRemoved`. -/
def proxy_indicator_removed (id : Nat) (type : String) (p : Ptr) (st : State) :
    State × List Effect :=
  match deref st p with
  | none => (st, [Effect.use_after_free p])
  | some proxyt =>
    match proxyt.indicators with
    | none =>
      (st, [Effect.g_warning
        "Oddly we had an indicator removed from an interface that we didn't think had indicators."])
    | some table =>
      match g_hash_table_lookup table type with
      | none =>
        (st, [Effect.g_warning
          "Can not remove indicator %d of type '%s' as there are no indicators of that type on %s."])
      | some indicators =>
        if !id_lookup indicators id then
          (st, [Effect.g_warning "No indicator %d of type '%s' on '%s'."])
        else
          let table1 := g_hash_table_insert table type (id_remove indicators id)
          (store st p { proxyt with indicators := some table1 },
           [Effect.g_signal_emit (Signal.INDICATOR_REMOVED p id type)])

/-- The loop of `proxy_indicator_modified` over the key list: the first key
whose bucket holds `id`. -/
def modified_scan (table : IndicatorTable) (id : Nat) : List String → Option String
  | [] => none
  | type :: rest =>
    match g_hash_table_lookup table type with
    | none => modified_scan table id rest
    | some indicators =>
      if id_lookup indicators id then some type else modified_scan table id rest

/-- Modify path `proxy_indicator_modified`, handler of the remote signal
`IndicatorModified`. The emission passes `proxyt->server`, the struct, where the
other emissions pass its address. -/
def proxy_indicator_modified (id : Nat) (property : String) (p : Ptr) (st : State) :
    State × List Effect :=
  match deref st p with
  | none => (st, [Effect.use_after_free p])
  | some proxyt =>
    match proxyt.indicators with
    | none =>
      (st, [Effect.g_warning
        "Oddly we had an indicator modified from an interface that we didn't think had indicators."])
    | some table =>
      match modified_scan table id (g_hash_table_get_keys table) with
      | none =>
        (st, [Effect.g_warning
          "Can not modify indicator %d with property '%s' as there are no indicators with that id on %s."])
      | some type =>
        (st, [Effect.g_signal_emit (Signal.INDICATOR_MODIFIED proxyt.server id type property)])

/-! ## Probe queue and bus peer directory -/

/-- The bus a daemon proxy belongs to, as selected at the head of
`dbus_owner_change` and `todo_list_add`. -/
def bus_of (proxy : DaemonProxy) : DBusGConnection :=
  if proxy = DaemonProxy.dbus_proxy_system then DBusGConnection.system_bus
  else DBusGConnection.session_bus

/-- The source id returned by `g_idle_add`; the code only compares it with 0. -/
def g_idle_add : Nat := 1

/-- Enqueue `todo_list_add`. -/
def todo_list_add (name : Option String) (proxy : DaemonProxy) (startup : Bool) (st : State) :
    State :=
  match name with
  | none => st
  | some n =>
    if n.data.head? ≠ some ':' then st
    else
      let todo : proxy_todo_t := { name := n, bus := bus_of proxy, startup := startup }
      let priv1 : IndicateListenerPrivate :=
        { st.priv with proxy_todo := st.priv.proxy_todo ++ [todo] }
      let priv2 : IndicateListenerPrivate :=
        if priv1.todo_idle = 0 then { priv1 with todo_idle := g_idle_add } else priv1
      { st with priv := priv2 }

/-- Reply handler `build_todo_list_cb` of the startup enumeration. -/
def build_todo_list_cb (proxy : DaemonProxy) (names : List String) (error : Bool) (st : State) :
    State × List Effect :=
  if error then (st, [Effect.g_warning "Unable to get names: %s"])
  else (names.foldl (fun acc n => todo_list_add (some n) proxy true acc) st, [])

/-- Property read `get_server_property` on the peer owning the server struct at
`server`. The property proxy is created on first use. -/
def get_server_property (server : Ptr) (property_name : String) (st : State) :
    State × List Effect :=
  match deref st server with
  | none => (st, [Effect.use_after_free server])
  | some owner =>
    let item := searchitem owner.server.connection owner.server.name
    let in_possible := g_list_find_custom st st.priv.proxies_possible item
    let proxyitem : Option Ptr × List Effect :=
      match in_possible.1 with
      | some q => (some q, in_possible.2)
      | none =>
        ((g_list_find_custom st st.priv.proxies_working item).1,
         in_possible.2 ++ (g_list_find_custom st st.priv.proxies_working item).2)
    match proxyitem.1 with
    | none =>
      (st, proxyitem.2 ++ [Effect.g_warning "Can not find a proxy for the server at all."])
    | some q =>
      match deref st q with
      | none => (st, proxyitem.2 ++ [Effect.use_after_free q])
      | some proxyt =>
        let property_proxy :=
          match proxyt.property_proxy with
          | some h => some h
          | none => some { connection := proxyt.connection, name := proxyt.name,
                           path := "/org/freedesktop/indicate",
                           iface := "org.freedesktop.DBus.Properties" }
        (store st q { proxyt with property_proxy := property_proxy },
         proxyitem.2
          ++ [Effect.begin_call property_proxy
                (RemoteCall.Get "org.freedesktop.indicator" property_name)])

/-- Wrapper `indicate_listener_server_get_type`. -/
def indicate_listener_server_get_type (server : Ptr) (st : State) : State × List Effect :=
  get_server_property server "type" st

/-- Wrapper `indicate_listener_server_get_desktop`. -/
def indicate_listener_server_get_desktop (server : Ptr) (st : State) : State × List Effect :=
  get_server_property server "desktop" st

/-- Drain step `todo_idle`. The flag `created` tells whether
`dbus_g_proxy_new_for_name` returned a handle. The first component is the
return value: `true` keeps the idle source installed. The listener pointer is
the state itself, so the branch for a NULL listener is not there. -/
def todo_idle (created : Bool) (st : State) : Bool × State × List Effect :=
  match st.priv.proxy_todo.getLast? with
  | none => (false, { st with priv := { st.priv with todo_idle := 0 } }, [])
  | some todo =>
    let handle : Option DBusGProxy :=
      if created then
        some { connection := todo.bus, name := todo.name,
               path := "/org/freedesktop/indicate", iface := "org.freedesktop.indicator" }
      else none
    let proxyt : proxy_t :=
      { proxy := handle, property_proxy := none, connection := todo.bus, name := todo.name,
        type := none, indicators := none,
        server := { name := todo.name, proxy := handle, connection := todo.bus,
                    interests := InterestFlags.zero } }
    let a := g_new st proxyt
    let st2 : State :=
      { a.2 with priv := { a.2.priv with proxy_todo := a.2.priv.proxy_todo.dropLast } }
    match handle with
    | none => (true, st2, [Effect.g_warning "Unable to create proxy for %s"])
    | some _ =>
      let st3 : State :=
        { st2 with priv := { st2.priv with proxies_possible := a.1 :: st2.priv.proxies_possible } }
      let r := indicate_listener_server_get_type a.1 st3
      (true, r.1, Effect.connect_signal handle "ServerShow" :: r.2)

/-- The first block of the name-lost branch of `dbus_owner_change`: the first
entry of `proxies_working` equal to the search item is destroyed and removed
from the list. -/
def owner_lost_working (item : proxy_t) (st : State) : State × List Effect :=
  match (g_list_find_custom st st.priv.proxies_working item).1 with
  | some d =>
    let r := proxy_struct_destroy d st
    ({ r.1 with priv := { r.1.priv with
          proxies_working := g_list_remove r.1.priv.proxies_working d } },
     (g_list_find_custom st st.priv.proxies_working item).2 ++ r.2)
  | none => (st, (g_list_find_custom st st.priv.proxies_working item).2)

/-- The second block of the name-lost branch of `dbus_owner_change`: the same
on `proxies_possible`. -/
def owner_lost_possible (item : proxy_t) (st : State) : State × List Effect :=
  match (g_list_find_custom st st.priv.proxies_possible item).1 with
  | some d =>
    let r := proxy_struct_destroy d st
    ({ r.1 with priv := { r.1.priv with
          proxies_possible := g_list_remove r.1.priv.proxies_possible d } },
     (g_list_find_custom st st.priv.proxies_possible item).2 ++ r.2)
  | none => (st, (g_list_find_custom st st.priv.proxies_possible item).2)

/-- Name lifecycle handler `dbus_owner_change`. -/
def dbus_owner_change (proxy : DaemonProxy) (name : String) (prev new : Option String)
    (st : State) : State × List Effect :=
  let bus := bus_of proxy
  let st1 := if prev = some "" then todo_list_add (some name) proxy false st else st
  if new = some "" then
    let item := searchitem bus name
    let r1 := owner_lost_working item st1
    let r2 := owner_lost_possible item r1.1
    (r2.1, r1.2 ++ r2.2)
  else (st1, [])

/-! ## Peer classifier -/

/-- Classification callback `get_type_cb`; `data` is the probed `proxy_t`. -/
def get_type_cb (type : Option String) (data : Ptr) (st : State) : State × List Effect :=
  match type with
  | none => (st, [])
  | some t =>
    match deref st data with
    | none => (st, [Effect.use_after_free data])
    | some proxyt =>
      let r := proxy_server_added (some t) data st
      (r.1, r.2 ++ [Effect.begin_call proxyt.proxy RemoteCall.GetIndicatorList])

/-- What the transport hands to `property_cb`. -/
inductive PropertyReply where
  | error
  | not_a_string
  | string (propstr : String)
deriving DecidableEq, Repr

/-- Reply handler `property_cb` of a server property read; `cb` is the stored
callback already applied to its user data. -/
def property_cb (reply : PropertyReply) (cb : Option String → State → State × List Effect)
    (st : State) : State × List Effect :=
  match reply with
  | PropertyReply.error => (st, [])
  | PropertyReply.not_a_string => (st, [Effect.g_warning "Property returned is not a string!"])
  | PropertyReply.string propstr => cb (some propstr) st

/-- Reply handler `proxy_get_indicator_list` of the bulk fetch: one per-id
"type" property fetch for every returned id. -/
def proxy_get_indicator_list (indicators : List Nat) (error : Bool) (data : Ptr) (st : State) :
    State × List Effect :=
  if error then (st, [])
  else
    match deref st data with
    | none => (st, [Effect.use_after_free data])
    | some proxyt =>
      (st, indicators.map fun id =>
        Effect.begin_call proxyt.proxy (RemoteCall.GetIndicatorProperty id "type"))

/-- Reply handler `proxy_get_indicator_type` of a per-id type fetch; `id` and
`proxyt` are the fields of the `indicator_type_t` user data. -/
def proxy_get_indicator_type (type : String) (error : Bool) (id : Nat) (proxyt : Ptr)
    (st : State) : State × List Effect :=
  if error then (st, [Effect.g_warning "Get Indicator Type returned error: %s"])
  else proxy_indicator_added id type proxyt st

/-! ## Interest flags -/

/-- The macro of the same name is defined in `interests-priv.h`, which is not
among the sources at hand; its name stands for its value. -/
def INDICATE_INTEREST_STRING_SERVER_DISPLAY : String := "INDICATE_INTEREST_STRING_SERVER_DISPLAY"

/-- The macro of the same name is defined in `interests-priv.h`, which is not
among the sources at hand; its name stands for its value. -/
def INDICATE_INTEREST_STRING_SERVER_SIGNAL : String := "INDICATE_INTEREST_STRING_SERVER_SIGNAL"

/-- The macro of the same name is defined in `interests-priv.h`, which is not
among the sources at hand; its name stands for its value. -/
def INDICATE_INTEREST_STRING_INDICATOR_DISPLAY : String :=
  "INDICATE_INTEREST_STRING_INDICATOR_DISPLAY"

/-- The macro of the same name is defined in `interests-priv.h`, which is not
among the sources at hand; its name stands for its value. -/
def INDICATE_INTEREST_STRING_INDICATOR_SIGNAL : String :=
  "INDICATE_INTEREST_STRING_INDICATOR_SIGNAL"

/-- The macro of the same name is defined in `interests-priv.h`, which is not
among the sources at hand; its name stands for its value. -/
def INDICATE_INTEREST_STRING_INDICATOR_COUNT : String :=
  "INDICATE_INTEREST_STRING_INDICATOR_COUNT"

/-- Wire name `interest_to_string` of an interest kind. -/
def interest_to_string : IndicateInterests → String
  | .INDICATE_INTEREST_SERVER_DISPLAY => INDICATE_INTEREST_STRING_SERVER_DISPLAY
  | .INDICATE_INTEREST_SERVER_SIGNAL => INDICATE_INTEREST_STRING_SERVER_SIGNAL
  | .INDICATE_INTEREST_INDICATOR_DISPLAY => INDICATE_INTEREST_STRING_INDICATOR_DISPLAY
  | .INDICATE_INTEREST_INDICATOR_SIGNAL => INDICATE_INTEREST_STRING_INDICATOR_SIGNAL
  | .INDICATE_INTEREST_INDICATOR_COUNT => INDICATE_INTEREST_STRING_INDICATOR_COUNT

/-- Facade call `indicate_listener_server_show_interest` on a server struct. -/
def indicate_listener_server_show_interest (server : IndicateListenerServer)
    (interest : IndicateInterests) : IndicateListenerServer × List Effect :=
  if !server.interests.get interest then
    ({ server with interests := server.interests.set interest true },
     [Effect.begin_call server.proxy (RemoteCall.ShowInterest (interest_to_string interest))])
  else (server, [])

/-- Facade call `indicate_listener_server_remove_interest` on a server struct. -/
def indicate_listener_server_remove_interest (server : IndicateListenerServer)
    (interest : IndicateInterests) : IndicateListenerServer × List Effect :=
  if server.interests.get interest then
    ({ server with interests := server.interests.set interest false },
     [Effect.begin_call server.proxy (RemoteCall.RemoveInterest (interest_to_string interest))])
  else (server, [])

/-- Facade call `indicate_listener_server_check_interest`. -/
def indicate_listener_server_check_interest (server : IndicateListenerServer)
    (interest : IndicateInterests) : Bool :=
  server.interests.get interest

/-- Reply handler `interest_cb` of a ShowInterest or RemoveInterest call: a
diagnostic on error, the server struct is not touched. -/
def interest_cb (error : Bool) (server : IndicateListenerServer) :
    IndicateListenerServer × List Effect :=
  (server, if error then [Effect.g_warning "Unable to configure interest."] else [])

/-! ## The listener as a transition system -/

/-- State left by `indicate_listener_init`: both peer lists empty, an empty
probe queue, no idle source. -/
def indicate_listener_init : State :=
  { priv := { proxies_working := [], proxies_possible := [], proxy_todo := [], todo_idle := 0 },
    heap := [] }

/-- What the transport and the main loop can deliver to the listener. Peer
callbacks carry the `proxy_t` they were registered with. -/
inductive Event where
  | NameOwnerChanged (proxy : DaemonProxy) (name : String) (prev new : Option String)
  | ListNames_reply (proxy : DaemonProxy) (names : List String) (error : Bool)
  | idle (created : Bool)
  | type_reply (p : Ptr) (reply : PropertyReply)
  | ServerShow (p : Ptr) (type : String)
  | GetIndicatorList_reply (p : Ptr) (indicators : List Nat) (error : Bool)
  | indicator_type_reply (p : Ptr) (id : Nat) (type : String) (error : Bool)
  | IndicatorAdded (p : Ptr) (id : Nat) (type : String)
  | IndicatorRemoved (p : Ptr) (id : Nat) (type : String)
  | IndicatorModified (p : Ptr) (id : Nat) (property : String)
deriving DecidableEq, Repr

/-- Dispatch of one event to its handler. The idle source only runs while it is
installed (`todo_idle` not 0). -/
def step (st : State) : Event → State × List Effect
  | Event.NameOwnerChanged proxy name prev new => dbus_owner_change proxy name prev new st
  | Event.ListNames_reply proxy names error => build_todo_list_cb proxy names error st
  | Event.idle created =>
    if st.priv.todo_idle = 0 then (st, []) else (todo_idle created st).2
  | Event.type_reply p reply => property_cb reply (fun type => get_type_cb type p) st
  | Event.ServerShow p type => proxy_server_added (some type) p st
  | Event.GetIndicatorList_reply p indicators error => proxy_get_indicator_list indicators error p st
  | Event.indicator_type_reply p id type error => proxy_get_indicator_type type error id p st
  | Event.IndicatorAdded p id type => proxy_indicator_added id type p st
  | Event.IndicatorRemoved p id type => proxy_indicator_removed id type p st
  | Event.IndicatorModified p id property => proxy_indicator_modified id property p st

/-- Delivery of a sequence of events, effects concatenated in order. -/
def run (st : State) : List Event → State × List Effect
  | [] => (st, [])
  | e :: rest =>
    let r := step st e
    let r2 := run r.1 rest
    (r2.1, r.2 ++ r2.2)

/-- The application signals among a list of effects. -/
def emitted : List Effect → List Signal
  | [] => []
  | Effect.g_signal_emit s :: rest => s :: emitted rest
  | _ :: rest => emitted rest

/-- The diagnostics among a list of effects. -/
def warnings : List Effect → List String
  | [] => []
  | Effect.g_warning m :: rest => m :: warnings rest
  | _ :: rest => warnings rest

/-- Whether the pair (type, id) is tracked by an indicator table. -/
def tracked (table : IndicatorTable) (type : String) (id : Nat) : Bool :=
  match g_hash_table_lookup table type with
  | some indicators => id_lookup indicators id
  | none => false

/-- Hash table shape of an indicator table: no key occurs twice in the outer
table, no id occurs twice in a bucket. -/
def table_wf (table : IndicatorTable) : Prop :=
  (g_hash_table_get_keys table).Nodup ∧ ∀ e ∈ table, e.2.Nodup

/-! ## Auxiliary notions used in the statements -/

/-- The removal signals of a teardown, bucket by bucket. -/
def removal_signals (p : Ptr) (table : IndicatorTable) : List Signal :=
  table.flatMap fun e => e.2.map fun id => Signal.INDICATOR_REMOVED p id e.1

/-- Whether an event is an indicator add or an indicator remove of peer `p`. -/
def is_add_or_remove (p : Ptr) : Event → Bool
  | Event.IndicatorAdded q _ _ => decide (q = p)
  | Event.IndicatorRemoved q _ _ => decide (q = p)
  | _ => false

/-- A remote handle of the sample peer ":1.7" on the session bus. -/
def sample_handle : DBusGProxy :=
  { connection := DBusGConnection.session_bus, name := ":1.7",
    path := "/org/freedesktop/indicate", iface := "org.freedesktop.indicator" }

/-- A sample peer record: ":1.7" on the session bus with declared type "im" and
the given indicator table. -/
def sample_peer (indicators : Option IndicatorTable) : proxy_t :=
  { proxy := some sample_handle, property_proxy := none,
    connection := DBusGConnection.session_bus, name := ":1.7",
    type := some "im", indicators := indicators,
    server := { name := ":1.7", proxy := some sample_handle,
                connection := DBusGConnection.session_bus,
                interests := InterestFlags.zero } }

/-- A sample listener state whose only peer, at address 0, is confirmed and has
the given indicator table. -/
def sample_confirmed (table : IndicatorTable) : State :=
  { priv := { proxies_working := [0], proxies_possible := [], proxy_todo := [], todo_idle := 0 },
    heap := [some (sample_peer (some table))] }

/-- A sample listener state whose only peer, at address 0, is a candidate. -/
def sample_candidate : State :=
  { priv := { proxies_working := [], proxies_possible := [0], proxy_todo := [], todo_idle := 0 },
    heap := [some (sample_peer none)] }

/-- A facade call on the interest flags of one peer. -/
inductive InterestCall where
  | show_interest (interest : IndicateInterests)
  | remove_interest (interest : IndicateInterests)
deriving DecidableEq, Repr

/-- The kind a call is about. -/
def InterestCall.kind : InterestCall → IndicateInterests
  | InterestCall.show_interest k => k
  | InterestCall.remove_interest k => k

/-- The flag value a call requests. -/
def InterestCall.value : InterestCall → Bool
  | InterestCall.show_interest _ => true
  | InterestCall.remove_interest _ => false

/-- Execution of one facade call. -/
def InterestCall.exec (server : IndicateListenerServer) :
    InterestCall → IndicateListenerServer × List Effect
  | InterestCall.show_interest k => indicate_listener_server_show_interest server k
  | InterestCall.remove_interest k => indicate_listener_server_remove_interest server k

/-- Execution of a sequence of facade calls, effects in order. -/
def exec_calls (server : IndicateListenerServer) :
    List InterestCall → IndicateListenerServer × List Effect
  | [] => (server, [])
  | c :: rest =>
    let r := c.exec server
    let r2 := exec_calls r.1 rest
    (r2.1, r.2 ++ r2.2)

/-- The value requested by the most recent call for kind `k`, `start` if there
is none. -/
def requested (k : IndicateInterests) (start : Bool) : List InterestCall → Bool
  | [] => start
  | c :: rest => requested k (if c.kind = k then c.value else start) rest

/-- The number of calls of a sequence that changed the value of a flag. -/
def flag_changes (server : IndicateListenerServer) : List InterestCall → Nat
  | [] => 0
  | c :: rest =>
    (if (c.exec server).1.interests = server.interests then 0 else 1)
      + flag_changes (c.exec server).1 rest

/-- Whether an effect is a remote ShowInterest or RemoveInterest call. -/
def is_interest_call : Effect → Bool
  | Effect.begin_call _ (RemoteCall.ShowInterest _) => true
  | Effect.begin_call _ (RemoteCall.RemoveInterest _) => true
  | _ => false

/-- Whether an event promotes peer `p` when it is still a candidate: a
successful classification result, a ServerShow signal, an indicator add or a
successful per-id type fetch. -/
def is_promoting (p : Ptr) : Event → Bool
  | Event.type_reply q (PropertyReply.string _) => decide (q = p)
  | Event.ServerShow q _ => decide (q = p)
  | Event.IndicatorAdded q _ _ => decide (q = p)
  | Event.indicator_type_reply q _ _ false => decide (q = p)
  | _ => false

/-- Whether a signal is `SERVER_ADDED`. -/
def is_server_added : Signal → Bool
  | Signal.SERVER_ADDED _ _ => true
  | _ => false

/-- The first half of the end-to-end scenario: peer `P1` joins, its probe task
is drained, the classification returns "im", the indicator list is 5 and 7, and
both per-id type fetches return "message". The peer gets address 0. -/
def scenario_join (proxy : DaemonProxy) (P1 : String) : List Event :=
  [Event.NameOwnerChanged proxy P1 (some "") (some P1),
   Event.idle true,
   Event.type_reply 0 (PropertyReply.string "im"),
   Event.GetIndicatorList_reply 0 [5, 7] false,
   Event.indicator_type_reply 0 5 "message" false,
   Event.indicator_type_reply 0 7 "message" false]

/-- The second half of the scenario: `P1` loses its owner. -/
def scenario_leave (proxy : DaemonProxy) (P1 : String) : Event :=
  Event.NameOwnerChanged proxy P1 (some P1) (some "")

/-- The call that a reply event answers, read from the record the reply is
addressed to: the "type" property read on its properties handle, the bulk fetch
or a per-id type fetch on its peer handle. `none` for an event that is not the
reply to a call on a peer and for a reply addressed to a released record. -/
def Event.answers (st : State) : Event → Option Effect
  | Event.type_reply p _ =>
    (deref st p).map fun x =>
      Effect.begin_call x.property_proxy (RemoteCall.Get "org.freedesktop.indicator" "type")
  | Event.GetIndicatorList_reply p _ _ =>
    (deref st p).map fun x => Effect.begin_call x.proxy RemoteCall.GetIndicatorList
  | Event.indicator_type_reply p id _ _ =>
    (deref st p).map fun x =>
      Effect.begin_call x.proxy (RemoteCall.GetIndicatorProperty id "type")
  | _ => none

/-- Whether an event is the reply to a call on a peer. -/
def Event.is_reply : Event → Bool
  | Event.type_reply _ _ => true
  | Event.GetIndicatorList_reply _ _ _ => true
  | Event.indicator_type_reply _ _ _ _ => true
  | _ => false

/-- Whether the events can arrive in this order from a transport that only
answers calls and a main loop that only runs installed sources: every reply
answers a call that an earlier handler began and that no earlier reply has
answered, and the idle handler runs only while its source is installed.
`unanswered` holds the effects so far, answered calls taken out. -/
def causal_run (st : State) (unanswered : List Effect) : List Event → Bool
  | [] => true
  | e :: rest =>
    if e.is_reply then
      match e.answers st with
      | some call =>
        unanswered.contains call
          && causal_run (step st e).1 (unanswered.erase call ++ (step st e).2) rest
      | none => false
    else
      (match e with
        | Event.idle _ => st.priv.todo_idle != 0
        | _ => true)
        && causal_run (step st e).1 (unanswered ++ (step st e).2) rest

/-- The peer handle `dbus_g_proxy_new_for_name` creates for the peer of the
scenario in `todo_idle`. -/
def scenario_handle (proxy : DaemonProxy) (P1 : String) : DBusGProxy :=
  { connection := bus_of proxy, name := P1, path := "/org/freedesktop/indicate",
    iface := "org.freedesktop.indicator" }

/-- The properties handle `get_server_property` creates for the peer of the
scenario. -/
def scenario_properties (proxy : DaemonProxy) (P1 : String) : DBusGProxy :=
  { connection := bus_of proxy, name := P1, path := "/org/freedesktop/indicate",
    iface := "org.freedesktop.DBus.Properties" }

/-- The `proxy_t` a peer callback is addressed to; `none` for bus level events. -/
def Event.target : Event → Option Ptr
  | Event.NameOwnerChanged _ _ _ _ => none
  | Event.ListNames_reply _ _ _ => none
  | Event.idle _ => none
  | Event.type_reply p _ => some p
  | Event.ServerShow p _ => some p
  | Event.GetIndicatorList_reply p _ _ => some p
  | Event.indicator_type_reply p _ _ _ => some p
  | Event.IndicatorAdded p _ _ => some p
  | Event.IndicatorRemoved p _ _ => some p
  | Event.IndicatorModified p _ _ => some p

/-- The peer reference a signal carries; `INDICATOR_MODIFIED` carries a struct
and no reference. -/
def Signal.server_ref : Signal → Option Ptr
  | Signal.INDICATOR_ADDED p _ _ => some p
  | Signal.INDICATOR_REMOVED p _ _ => some p
  | Signal.INDICATOR_MODIFIED _ _ _ _ => none
  | Signal.SERVER_ADDED p _ => some p
  | Signal.SERVER_REMOVED p _ => some p

/-- The cell at `p` has been allocated and, as long as it is not released, its
index is NULL: the peer is an unconfirmed candidate or gone. -/
def quiet (p : Ptr) (st : State) : Prop :=
  p < st.heap.length ∧ ∀ x, deref st p = some x → x.indicators = none

/-- The identity (scope, name) of the peer record at `p`, when the cell is live. -/
def peer_key (st : State) (p : Ptr) : Option (DBusGConnection × String) :=
  (deref st p).map fun x => (x.connection, x.name)

/-- The identities of the entries of the candidate set followed by those of the
confirmed set. -/
def directory_keys (st : State) : List (DBusGConnection × String) :=
  (st.priv.proxies_possible ++ st.priv.proxies_working).filterMap (peer_key st)

/-- The directory invariant: no (scope, name) has two entries in the union of
`proxies_possible` and `proxies_working`. -/
def directory_invariant (st : State) : Prop :=
  (directory_keys st).Nodup

/-- The identities of the queued probe tasks. -/
def todo_keys (st : State) : List (DBusGConnection × String) :=
  st.priv.proxy_todo.map fun t => (t.bus, t.name)

/-- The identities that are queued for probing or tracked in a peer set. -/
def known_keys (st : State) : List (DBusGConnection × String) :=
  todo_keys st ++ directory_keys st

/-- Whether a name passes the filter of `todo_list_add`. -/
def is_peer_name (name : String) : Bool :=
  decide (name.data.head? = some ':')

/-- Deliveries without a duplicate submission: a name-acquired notification
or an enumeration entry that passes the name filter names an identity that is
neither queued nor tracked (and an enumeration lists it once), and a peer
callback is addressed to an entry of one of the two peer sets. -/
def admissible (st : State) : Event → Bool
  | Event.NameOwnerChanged proxy name prev _ =>
    !(decide (prev = some "") && is_peer_name name)
      || decide ((bus_of proxy, name) ∉ known_keys st)
  | Event.ListNames_reply proxy names error =>
    error
      || (decide ((names.filter is_peer_name).Nodup)
          && names.all fun n => !is_peer_name n || decide ((bus_of proxy, n) ∉ known_keys st))
  | Event.idle _ => true
  | Event.type_reply p _ => decide (p ∈ st.priv.proxies_possible ++ st.priv.proxies_working)
  | Event.ServerShow p _ => decide (p ∈ st.priv.proxies_possible ++ st.priv.proxies_working)
  | Event.GetIndicatorList_reply p _ _ =>
    decide (p ∈ st.priv.proxies_possible ++ st.priv.proxies_working)
  | Event.indicator_type_reply p _ _ _ =>
    decide (p ∈ st.priv.proxies_possible ++ st.priv.proxies_working)
  | Event.IndicatorAdded p _ _ => decide (p ∈ st.priv.proxies_possible ++ st.priv.proxies_working)
  | Event.IndicatorRemoved p _ _ =>
    decide (p ∈ st.priv.proxies_possible ++ st.priv.proxies_working)
  | Event.IndicatorModified p _ _ =>
    decide (p ∈ st.priv.proxies_possible ++ st.priv.proxies_working)

/-- Every event of a sequence is admissible in the state it is delivered in. -/
def admissible_run (st : State) : List Event → Bool
  | [] => true
  | e :: rest => admissible st e && admissible_run (step st e).1 rest

/-- Shape of the directory that deliveries without duplicate submission keep:
no identity is queued or tracked twice, every candidate entry is a live cell
without index, every confirmed entry is a live cell with an index. -/
def directory_wf (st : State) : Prop :=
  (known_keys st).Nodup
  ∧ (∀ p ∈ st.priv.proxies_possible, ∃ x, deref st p = some x ∧ x.indicators = none)
  ∧ (∀ p ∈ st.priv.proxies_working, ∃ x t, deref st p = some x ∧ x.indicators = some t)

/-- A startup enumeration racing a live join: the name ":1.7" is reported by
the name-acquired notification and by the enumeration reply, and both probe
tasks are drained. -/
def duplicate_probe_trace : List Event :=
  [Event.NameOwnerChanged DaemonProxy.dbus_proxy_session ":1.7" (some "") (some ":1.7"),
   Event.ListNames_reply DaemonProxy.dbus_proxy_session ["org.freedesktop.DBus", ":1.7"] false,
   Event.idle true,
   Event.idle true]

/-- The main loop running the idle source: `todo_idle` is called again as long
as it returns `true`. The result is the number of calls made and the state
left; `none` when `fuel` calls were not enough. `created k` is the outcome of
`dbus_g_proxy_new_for_name` in call number `k`. -/
def drain : Nat → (Nat → Bool) → State → Option (Nat × State)
  | 0, _, _ => none
  | fuel + 1, created, st =>
    let r := todo_idle (created 0) st
    if r.1 then
      (drain fuel (fun k => created (k + 1)) r.2.1).map fun c => (c.1 + 1, c.2)
    else some (1, r.2.1)

/-- Replay of one emitted application signal on a set of (type, id) pairs:
insert on `INDICATOR_ADDED`, delete on `INDICATOR_REMOVED`. -/
def replay_signal (s : List (String × Nat)) : Signal → List (String × Nat)
  | Signal.INDICATOR_ADDED _ id type => if (type, id) ∈ s then s else (type, id) :: s
  | Signal.INDICATOR_REMOVED _ id type => s.filter fun e => decide (e ≠ (type, id))
  | _ => s

/-- Replay of a sequence of emitted signals, from the set `s`. -/
def replay (s : List (String × Nat)) : List Signal → List (String × Nat)
  | [] => s
  | e :: rest => replay (replay_signal s e) rest

/-- Whether a signal is consistent with the set of tracked pairs `s`: an add
is for a pair that is not in it, a remove and a modify are for a pair in it. -/
def signal_legal (s : List (String × Nat)) : Signal → Bool
  | Signal.INDICATOR_ADDED _ id type => decide ((type, id) ∉ s)
  | Signal.INDICATOR_REMOVED _ id type => decide ((type, id) ∈ s)
  | Signal.INDICATOR_MODIFIED _ id type _ => decide ((type, id) ∈ s)
  | _ => true

/-- Whether every signal of a sequence is consistent with the set replayed up
to it: no duplicate add, no orphan remove, no orphan modify. -/
def replay_legal (s : List (String × Nat)) : List Signal → Bool
  | [] => true
  | e :: rest => signal_legal s e && replay_legal (replay_signal s e) rest

/-- Whether an event is an indicator add, remove or modify of peer `p`. -/
def is_index_event (p : Ptr) : Event → Bool
  | Event.IndicatorAdded q _ _ => decide (q = p)
  | Event.IndicatorRemoved q _ _ => decide (q = p)
  | Event.IndicatorModified q _ _ => decide (q = p)
  | _ => false

theorem deref_lt {st : State} {p : Ptr} {v : proxy_t} (h : deref st p = some v) :
    p < st.heap.length := by
  unfold deref at h
  by_contra hlt
  rw [List.getElem?_eq_none (Nat.le_of_not_lt hlt)] at h
  simp at h

theorem deref_store_same {st : State} {p : Ptr} (v : proxy_t) (h : p < st.heap.length) :
    deref (store st p v) p = some v := by
  simp [deref, store, h]

theorem deref_store_other {st : State} {p q : Ptr} (v : proxy_t) (h : p ≠ q) :
    deref (store st p v) q = deref st q := by
  simp [deref, store, List.getElem?_set_ne h]

theorem store_same {st : State} {p : Ptr} {v : proxy_t} (h : deref st p = some v) :
    store st p v = st := by
  have hlt := deref_lt h
  unfold deref at h
  rw [List.getElem?_eq_getElem hlt] at h
  simp at h
  cases st with
  | mk priv heap =>
    simp only [store, State.mk.injEq, true_and]
    apply List.ext_getElem
    · simp
    · intro n h1 h2
      by_cases hn : p = n
      · subst hn
        simp [h]
      · simp [List.getElem_set_ne hn]

theorem with_indicators_self (x : proxy_t) (t : IndicatorTable) (h : x.indicators = some t) :
    ({ x with indicators := some t } : proxy_t) = x := by
  cases x
  simp only at h
  subst h
  rfl

theorem store_priv (st : State) (p : Ptr) (v : proxy_t) : (store st p v).priv = st.priv := rfl

/-! ## The list search -/

theorem emitted_append (a b : List Effect) : emitted (a ++ b) = emitted a ++ emitted b := by
  induction a with
  | nil => rfl
  | cons e rest ih => cases e <;> simp [emitted, ih]

theorem g_strcmp0_eq_zero (a b : String) : g_strcmp0 a b = 0 ↔ a = b := by
  unfold g_strcmp0
  by_cases h : a = b
  · simp [h]
  · simp only [h, if_false, iff_false]
    split <;> decide

theorem proxy_t_equal_zero (a b : proxy_t) :
    proxy_t_equal a b = 0 ↔ a.connection = b.connection ∧ a.name = b.name := by
  unfold proxy_t_equal
  by_cases h : a.connection = b.connection
  · simp [h, g_strcmp0_eq_zero]
  · simp [h]

theorem find_some (st : State) (l : List Ptr) (item : proxy_t) (d : Ptr)
    (h : (g_list_find_custom st l item).1 = some d) :
    d ∈ l ∧ ∃ x, deref st d = some x ∧ x.connection = item.connection ∧ x.name = item.name := by
  induction l with
  | nil => simp [g_list_find_custom] at h
  | cons p rest ih =>
    rcases hd : deref st p with _ | a
    · simp only [g_list_find_custom, hd] at h
      exact ⟨List.mem_cons_of_mem _ (ih h).1, (ih h).2⟩
    · by_cases he : proxy_t_equal a item = 0
      · simp only [g_list_find_custom, hd, he, if_true] at h
        cases h
        exact ⟨List.mem_cons_self _ _, a, hd, (proxy_t_equal_zero a item).1 he⟩
      · simp only [g_list_find_custom, hd, he, if_false] at h
        exact ⟨List.mem_cons_of_mem _ (ih h).1, (ih h).2⟩

theorem find_none (st : State) (l : List Ptr) (item : proxy_t)
    (h : (g_list_find_custom st l item).1 = none) :
    ∀ p ∈ l, ∀ x, deref st p = some x →
      ¬ (x.connection = item.connection ∧ x.name = item.name) := by
  induction l with
  | nil => simp
  | cons p rest ih =>
    intro r hr x hx
    rcases hd : deref st p with _ | a
    · simp only [g_list_find_custom, hd] at h
      rcases List.mem_cons.1 hr with h1 | h1
      · subst h1
        rw [hd] at hx
        cases hx
      · exact ih h r h1 x hx
    · by_cases he : proxy_t_equal a item = 0
      · simp [g_list_find_custom, hd, he] at h
      · simp only [g_list_find_custom, hd, he, if_false] at h
        rcases List.mem_cons.1 hr with h1 | h1
        · subst h1
          rw [hd] at hx
          cases hx
          exact fun hc => he ((proxy_t_equal_zero x item).2 hc)
        · exact ih h r h1 x hx

theorem find_reads_emitted (st : State) (l : List Ptr) (item : proxy_t) :
    emitted (g_list_find_custom st l item).2 = [] := by
  induction l with
  | nil => rfl
  | cons p rest ih =>
    rcases hd : deref st p with _ | a
    · simp only [g_list_find_custom, hd, emitted]
      exact ih
    · by_cases he : proxy_t_equal a item = 0
      · simp [g_list_find_custom, hd, he, emitted]
      · simp only [g_list_find_custom, hd, he, if_false]
        exact ih

theorem find_reads_released (st : State) (l : List Ptr) (item : proxy_t) :
    ∀ e ∈ (g_list_find_custom st l item).2,
      ∃ p, e = Effect.use_after_free p ∧ p ∈ l ∧ deref st p = none := by
  induction l with
  | nil => simp [g_list_find_custom]
  | cons p rest ih =>
    intro e he
    rcases hd : deref st p with _ | a
    · simp only [g_list_find_custom, hd, List.mem_cons] at he
      rcases he with he | he
      · exact ⟨p, he, List.mem_cons_self _ _, hd⟩
      · obtain ⟨q, h1, h2, h3⟩ := ih e he
        exact ⟨q, h1, List.mem_cons_of_mem _ h2, h3⟩
    · by_cases heq : proxy_t_equal a item = 0
      · simp [g_list_find_custom, hd, heq] at he
      · simp only [g_list_find_custom, hd, heq, if_false] at he
        obtain ⟨q, h1, h2, h3⟩ := ih e he
        exact ⟨q, h1, List.mem_cons_of_mem _ h2, h3⟩

/-! ## Hash table lemmas -/

theorem lookup_insert_same (t : IndicatorTable) (k : String) (v : IdTable) :
    g_hash_table_lookup (g_hash_table_insert t k v) k = some v := by
  induction t with
  | nil => simp [g_hash_table_insert, g_hash_table_lookup]
  | cons e rest ih =>
    obtain ⟨k0, w⟩ := e
    by_cases h : k0 = k
    · simp [g_hash_table_insert, g_hash_table_lookup, h]
    · simp [g_hash_table_insert, g_hash_table_lookup, h, ih]

theorem lookup_insert_other (t : IndicatorTable) (k k1 : String) (v : IdTable) (h : k ≠ k1) :
    g_hash_table_lookup (g_hash_table_insert t k v) k1 = g_hash_table_lookup t k1 := by
  induction t with
  | nil => simp [g_hash_table_insert, g_hash_table_lookup, h]
  | cons e rest ih =>
    obtain ⟨k0, w⟩ := e
    by_cases h0 : k0 = k
    · subst h0
      simp [g_hash_table_insert, g_hash_table_lookup, h]
    · by_cases h1 : k0 = k1
      · subst h1
        simp [g_hash_table_insert, g_hash_table_lookup, h0]
      · simp [g_hash_table_insert, g_hash_table_lookup, h0, h1, ih]

theorem lookup_none_iff (t : IndicatorTable) (k : String) :
    g_hash_table_lookup t k = none ↔ k ∉ g_hash_table_get_keys t := by
  induction t with
  | nil => simp [g_hash_table_lookup, g_hash_table_get_keys]
  | cons e rest ih =>
    obtain ⟨k0, w⟩ := e
    by_cases h : k0 = k
    · simp [g_hash_table_lookup, g_hash_table_get_keys, h]
    · have h2 : ¬ k = k0 := fun hh => h hh.symm
      simp only [g_hash_table_get_keys] at ih
      simp [g_hash_table_lookup, g_hash_table_get_keys, h, h2, ih]

theorem lookup_mem (t : IndicatorTable) (k : String) (v : IdTable)
    (h : g_hash_table_lookup t k = some v) : (k, v) ∈ t := by
  induction t with
  | nil => simp [g_hash_table_lookup] at h
  | cons e rest ih =>
    obtain ⟨k0, w⟩ := e
    by_cases h0 : k0 = k
    · simp [g_hash_table_lookup, h0] at h
      simp [h0, h]
    · simp [g_hash_table_lookup, h0] at h
      exact List.mem_cons_of_mem _ (ih h)

theorem insert_mem (t : IndicatorTable) (k : String) (v : IdTable) (e : String × IdTable)
    (h : e ∈ g_hash_table_insert t k v) : e = (k, v) ∨ e ∈ t := by
  induction t with
  | nil =>
    simp [g_hash_table_insert] at h
    exact Or.inl h
  | cons e0 rest ih =>
    obtain ⟨k0, w⟩ := e0
    by_cases h0 : k0 = k
    · simp [g_hash_table_insert, h0] at h
      rcases h with h | h
      · exact Or.inl h
      · exact Or.inr (List.mem_cons_of_mem _ h)
    · simp [g_hash_table_insert, h0] at h
      rcases h with h | h
      · exact Or.inr (by simp [h])
      · rcases ih h with h1 | h1
        · exact Or.inl h1
        · exact Or.inr (List.mem_cons_of_mem _ h1)

theorem insert_keys_mem (t : IndicatorTable) (k k1 : String) (v : IdTable)
    (h : k1 ∈ g_hash_table_get_keys (g_hash_table_insert t k v)) :
    k1 = k ∨ k1 ∈ g_hash_table_get_keys t := by
  simp only [g_hash_table_get_keys, List.mem_map] at h ⊢
  obtain ⟨e, he, rfl⟩ := h
  rcases insert_mem t k v e he with h1 | h1
  · exact Or.inl (by simp [h1])
  · exact Or.inr ⟨e, h1, rfl⟩

theorem insert_keys_nodup (t : IndicatorTable) (k : String) (v : IdTable)
    (h : (g_hash_table_get_keys t).Nodup) :
    (g_hash_table_get_keys (g_hash_table_insert t k v)).Nodup := by
  induction t with
  | nil => simp [g_hash_table_insert, g_hash_table_get_keys]
  | cons e0 rest ih =>
    obtain ⟨k0, w⟩ := e0
    have h' : k0 ∉ g_hash_table_get_keys rest ∧ (g_hash_table_get_keys rest).Nodup := by
      simpa [g_hash_table_get_keys] using h
    by_cases h0 : k0 = k
    · simpa [g_hash_table_insert, h0, g_hash_table_get_keys] using h
    · have hn : k0 ∉ g_hash_table_get_keys (g_hash_table_insert rest k v) := by
        intro hm
        rcases insert_keys_mem rest k k0 v hm with h1 | h1
        · exact h0 h1
        · exact h'.1 h1
      have := ih h'.2
      simp only [g_hash_table_insert, h0, if_false, g_hash_table_get_keys, List.map_cons,
        List.nodup_cons]
      exact ⟨by simpa [g_hash_table_get_keys] using hn, by simpa [g_hash_table_get_keys] using this⟩

theorem insert_wf (t : IndicatorTable) (k : String) (v : IdTable) (h : table_wf t)
    (hv : v.Nodup) : table_wf (g_hash_table_insert t k v) := by
  refine ⟨insert_keys_nodup t k v h.1, ?_⟩
  intro e he
  rcases insert_mem t k v e he with h1 | h1
  · simpa [h1] using hv
  · exact h.2 e h1

theorem id_insert_nodup (ids : IdTable) (id : Nat) (h : ids.Nodup) : (id_insert ids id).Nodup := by
  unfold id_insert
  by_cases hc : id ∈ ids
  · simp [hc, h]
  · have hd : List.Disjoint ids [id] := by simpa using hc
    simpa [hc] using List.Nodup.append h (List.nodup_singleton id) hd

theorem id_remove_nodup (ids : IdTable) (id : Nat) (h : ids.Nodup) : (id_remove ids id).Nodup :=
  h.erase id

theorem id_lookup_insert (ids : IdTable) (id i : Nat) :
    id_lookup (id_insert ids id) i = (id_lookup ids i || decide (i = id)) := by
  unfold id_insert id_lookup
  by_cases hc : id ∈ ids
  · by_cases hi : i = id
    · subst hi
      simp [hc]
    · simp [hc, hi]
  · simp [hc]

theorem id_lookup_remove (ids : IdTable) (id i : Nat) (h : ids.Nodup) :
    id_lookup (id_remove ids id) i = (id_lookup ids i && !decide (i = id)) := by
  unfold id_remove id_lookup
  by_cases hi : i = id
  · subst hi
    simp [h.not_mem_erase]
  · have : i ∈ ids.erase id ↔ i ∈ ids := List.mem_erase_of_ne hi
    by_cases hm : i ∈ ids
    · simp [hm, hi, this]
    · simp [hm, hi, this]

/-! ## The add and remove paths on a confirmed peer -/

theorem tracked_insert (t : IndicatorTable) (k : String) (v : IdTable) (ty : String) (i : Nat) :
    tracked (g_hash_table_insert t k v) ty i =
      if ty = k then id_lookup v i else tracked t ty i := by
  by_cases h : ty = k
  · subst h
    simp [tracked, lookup_insert_same]
  · have h2 : k ≠ ty := fun hh => h hh.symm
    simp [tracked, lookup_insert_other t k ty v h2, h]

theorem added_confirmed (st : State) (p : Ptr) (proxyt : proxy_t) (table : IndicatorTable)
    (id : Nat) (type : String)
    (h : deref st p = some proxyt) (ht : proxyt.indicators = some table) :
    ∃ table1, (proxy_indicator_added id type p st).1
          = store st p { proxyt with indicators := some table1 }
      ∧ (proxy_indicator_added id type p st).2
          = (if tracked table type id then []
             else [Effect.g_signal_emit (Signal.INDICATOR_ADDED p id type)])
      ∧ (tracked table type id = true → table1 = table)
      ∧ (table_wf table → table_wf table1)
      ∧ (∀ ty i, tracked table1 ty i
          = (tracked table ty i || (decide (ty = type) && decide (i = id)))) := by
  rcases hl : g_hash_table_lookup table type with _ | ids
  · refine ⟨g_hash_table_insert (g_hash_table_insert table type []) type (id_insert [] id),
      ?_, ?_, ?_, ?_, ?_⟩
    · simp [proxy_indicator_added, h, ht, hl, lookup_insert_same, id_lookup]
    · simp [proxy_indicator_added, h, ht, hl, lookup_insert_same, id_lookup, tracked]
    · simp [tracked, hl]
    · intro hw
      exact insert_wf _ _ _ (insert_wf _ _ _ hw (by simp)) (id_insert_nodup _ _ (by simp))
    · intro ty i
      rw [tracked_insert, tracked_insert]
      by_cases hty : ty = type
      · subst hty
        simp [tracked, hl, id_lookup, id_insert]
      · simp [hty]
  · by_cases hm : id_lookup ids id = true
    · refine ⟨table, ?_, ?_, ?_, ?_, ?_⟩
      · simp [proxy_indicator_added, h, ht, hl, hm]
      · simp [proxy_indicator_added, h, ht, hl, hm, tracked]
      · intro _; rfl
      · exact fun hw => hw
      · intro ty i
        by_cases hty : ty = type
        · by_cases hi : i = id
          · subst hty; subst hi
            simp [tracked, hl, hm]
          · simp [hi]
        · simp [hty]
    · refine ⟨g_hash_table_insert table type (id_insert ids id), ?_, ?_, ?_, ?_, ?_⟩
      · simp [proxy_indicator_added, h, ht, hl, hm]
      · simp [proxy_indicator_added, h, ht, hl, hm, tracked]
      · intro hc
        simp [tracked, hl, hm] at hc
      · intro hw
        exact insert_wf _ _ _ hw (id_insert_nodup _ _ (hw.2 _ (lookup_mem _ _ _ hl)))
      · intro ty i
        rw [tracked_insert]
        by_cases hty : ty = type
        · subst hty
          simp [id_lookup_insert, tracked, hl]
        · simp [hty]

theorem removed_confirmed (st : State) (p : Ptr) (proxyt : proxy_t) (table : IndicatorTable)
    (id : Nat) (type : String)
    (h : deref st p = some proxyt) (ht : proxyt.indicators = some table) (hw : table_wf table) :
    ∃ table1, (proxy_indicator_removed id type p st).1
          = store st p { proxyt with indicators := some table1 }
      ∧ emitted (proxy_indicator_removed id type p st).2
          = (if tracked table type id then [Signal.INDICATOR_REMOVED p id type] else [])
      ∧ (tracked table type id = false → table1 = table)
      ∧ table_wf table1
      ∧ (∀ ty i, tracked table1 ty i
          = (tracked table ty i && !(decide (ty = type) && decide (i = id)))) := by
  have hself : store st p { proxyt with indicators := some table } = st := by
    rw [with_indicators_self proxyt table ht]; exact store_same h
  rcases hl : g_hash_table_lookup table type with _ | ids
  · refine ⟨table, ?_, ?_, ?_, hw, ?_⟩
    · simp [proxy_indicator_removed, h, ht, hl, hself]
    · simp [proxy_indicator_removed, h, ht, hl, tracked, emitted]
    · intro _; rfl
    · intro ty i
      by_cases hty : ty = type
      · subst hty
        simp [tracked, hl]
      · simp [hty]
  · by_cases hm : id_lookup ids id = true
    · refine ⟨g_hash_table_insert table type (id_remove ids id), ?_, ?_, ?_, ?_, ?_⟩
      · simp [proxy_indicator_removed, h, ht, hl, hm]
      · simp [proxy_indicator_removed, h, ht, hl, hm, tracked, emitted]
      · intro hc
        simp [tracked, hl, hm] at hc
      · exact insert_wf _ _ _ hw (id_remove_nodup _ _ (hw.2 _ (lookup_mem _ _ _ hl)))
      · intro ty i
        rw [tracked_insert]
        by_cases hty : ty = type
        · subst hty
          simp [id_lookup_remove _ _ _ (hw.2 _ (lookup_mem _ _ _ hl)), tracked, hl]
        · simp [hty]
    · refine ⟨table, ?_, ?_, ?_, hw, ?_⟩
      · simp [proxy_indicator_removed, h, ht, hl, hm, hself]
      · simp [proxy_indicator_removed, h, ht, hl, hm, tracked, emitted]
      · intro _; rfl
      · intro ty i
        by_cases hty : ty = type
        · by_cases hi : i = id
          · subst hty; subst hi
            simp [tracked, hl, hm]
          · simp [hi]
        · simp [hty]

/-! ## Teardown of a confirmed peer -/

theorem destroy_effects_eq (p : Ptr) (proxyt : proxy_t) (table : IndicatorTable)
    (ht : proxyt.indicators = some table) :
    destroy_effects p proxyt
      = (removal_signals p table).map Effect.g_signal_emit
        ++ [Effect.g_signal_emit (Signal.SERVER_REMOVED p proxyt.type)] := by
  simp [destroy_effects, ht, removal_signals, proxy_struct_destroy_indicators, List.map_flatMap,
    Function.comp_def]

theorem mem_lookup (t : IndicatorTable) (k : String) (v : IdTable)
    (hn : (g_hash_table_get_keys t).Nodup) (h : (k, v) ∈ t) :
    g_hash_table_lookup t k = some v := by
  induction t with
  | nil => simp at h
  | cons e rest ih =>
    obtain ⟨k0, w⟩ := e
    have h' : k0 ∉ g_hash_table_get_keys rest ∧ (g_hash_table_get_keys rest).Nodup := by
      simpa [g_hash_table_get_keys] using hn
    rcases List.mem_cons.1 h with h1 | h1
    · have hk : k0 = k := by simpa using (congrArg Prod.fst h1).symm
      have hv : v = w := by simpa using congrArg Prod.snd h1
      simp [g_hash_table_lookup, hk, hv]
    · have hne : k0 ≠ k := by
        intro hh
        apply h'.1
        rw [hh]
        exact List.mem_map.2 ⟨(k, v), h1, rfl⟩
      simp [g_hash_table_lookup, hne, ih h'.2 h1]

theorem mem_removal_signals (p : Ptr) (table : IndicatorTable) (hw : table_wf table)
    (s : Signal) :
    s ∈ removal_signals p table
      ↔ ∃ id type, tracked table type id = true ∧ s = Signal.INDICATOR_REMOVED p id type := by
  simp only [removal_signals, List.mem_flatMap, List.mem_map]
  constructor
  · rintro ⟨⟨k, ids⟩, he, id, hid, rfl⟩
    refine ⟨id, k, ?_, rfl⟩
    simp [tracked, mem_lookup table k ids hw.1 he, id_lookup, hid]
  · rintro ⟨id, type, ht, rfl⟩
    unfold tracked at ht
    rcases hl : g_hash_table_lookup table type with _ | ids
    · simp [hl] at ht
    · simp [hl, id_lookup] at ht
      exact ⟨(type, ids), lookup_mem _ _ _ hl, id, ht, rfl⟩

theorem removal_signals_nodup (p : Ptr) (table : IndicatorTable) (hw : table_wf table) :
    (removal_signals p table).Nodup := by
  induction table with
  | nil => simp [removal_signals]
  | cons e rest ih =>
    obtain ⟨k, ids⟩ := e
    have hk : k ∉ g_hash_table_get_keys rest ∧ (g_hash_table_get_keys rest).Nodup := by
      simpa [g_hash_table_get_keys] using hw.1
    have hrest : table_wf rest := ⟨hk.2, fun e he => hw.2 e (List.mem_cons_of_mem _ he)⟩
    have hids : ids.Nodup := hw.2 (k, ids) (List.mem_cons_self _ _)
    have hcons : removal_signals p ((k, ids) :: rest)
        = (ids.map fun id => Signal.INDICATOR_REMOVED p id k) ++ removal_signals p rest := by
      simp [removal_signals]
    rw [hcons]
    refine List.Nodup.append ?_ (ih hrest) ?_
    · refine List.Nodup.map ?_ hids
      intro a b hab
      simpa using hab
    · intro s hs1 hs2
      obtain ⟨id, _, rfl⟩ := List.mem_map.1 hs1
      simp only [removal_signals, List.mem_flatMap, List.mem_map] at hs2
      obtain ⟨⟨k1, ids1⟩, he, id1, _, heq⟩ := hs2
      have : k1 = k := by simpa using (Signal.INDICATOR_REMOVED.inj heq).2.2
      apply hk.1
      rw [← this]
      exact List.mem_map.2 ⟨(k1, ids1), he, rfl⟩

theorem removal_signals_length (p : Ptr) (table : IndicatorTable) :
    (removal_signals p table).length = (table.map fun e => e.2.length).sum := by
  induction table with
  | nil => simp [removal_signals]
  | cons e rest ih =>
    simp only [removal_signals] at ih
    simp [removal_signals, ih]

theorem run_add_remove (p : Ptr) (evs : List Event) :
    ∀ (st : State) (proxyt : proxy_t) (table : IndicatorTable),
      deref st p = some proxyt → proxyt.indicators = some table → table_wf table →
      (∀ e ∈ evs, is_add_or_remove p e = true) →
      ∃ table1, deref (run st evs).1 p = some { proxyt with indicators := some table1 }
        ∧ table_wf table1 := by
  induction evs with
  | nil =>
    intro st proxyt table h ht hw _
    refine ⟨table, ?_, hw⟩
    simpa [run, with_indicators_self proxyt table ht] using h
  | cons e rest ih =>
    intro st proxyt table h ht hw hev
    have he := hev e (List.mem_cons_self _ _)
    have hrest : ∀ e ∈ rest, is_add_or_remove p e = true :=
      fun e he => hev e (List.mem_cons_of_mem _ he)
    have key : ∃ table1, (step st e).1 = store st p { proxyt with indicators := some table1 }
        ∧ table_wf table1 := by
      cases e with
      | IndicatorAdded q id type =>
        have hq : q = p := by simpa [is_add_or_remove] using he
        subst hq
        obtain ⟨t1, h1, _, _, h4, _⟩ := added_confirmed st q proxyt table id type h ht
        exact ⟨t1, h1, h4 hw⟩
      | IndicatorRemoved q id type =>
        have hq : q = p := by simpa [is_add_or_remove] using he
        subst hq
        obtain ⟨t1, h1, _, _, h4, _⟩ := removed_confirmed st q proxyt table id type h ht hw
        exact ⟨t1, h1, h4⟩
      | _ => simp [is_add_or_remove] at he
    obtain ⟨t1, h1, hw1⟩ := key
    have hd : deref (step st e).1 p = some { proxyt with indicators := some t1 } := by
      rw [h1]; exact deref_store_same _ (deref_lt h)
    obtain ⟨t2, h2, hw2⟩ := ih (step st e).1 { proxyt with indicators := some t1 } t1 hd rfl hw1 hrest
    exact ⟨t2, by simpa [run] using h2, hw2⟩

/-- C1: a confirmed peer is brought from the empty index to any index by adds
and removes; its teardown then performs exactly these effects: one
`INDICATOR_REMOVED` for each tracked (id, type) pair, none twice and none for
an untracked pair, as many as the buckets hold ids, and after them one
`SERVER_REMOVED` with the peer and its declared type. -/
theorem teardown_emits_tracked (st : State) (p : Ptr) (proxyt : proxy_t) (evs : List Event)
    (h : deref st p = some proxyt) (h0 : proxyt.indicators = some [])
    (hev : ∀ e ∈ evs, is_add_or_remove p e = true) :
    ∃ (table : IndicatorTable) (removes : List Signal),
      deref (run st evs).1 p = some { proxyt with indicators := some table }
      ∧ (proxy_struct_destroy p (run st evs).1).2
          = removes.map Effect.g_signal_emit
            ++ [Effect.g_signal_emit (Signal.SERVER_REMOVED p proxyt.type)]
      ∧ removes.Nodup
      ∧ (∀ s, s ∈ removes
          ↔ ∃ id type, tracked table type id = true ∧ s = Signal.INDICATOR_REMOVED p id type)
      ∧ removes.length = (table.map fun e => e.2.length).sum := by
  have hw0 : table_wf [] := ⟨by simp [g_hash_table_get_keys], by simp⟩
  obtain ⟨table, hd, hw⟩ := run_add_remove p evs st proxyt [] h h0 hw0 hev
  refine ⟨table, removal_signals p table, hd, ?_, removal_signals_nodup p table hw,
    mem_removal_signals p table hw, removal_signals_length p table⟩
  simp only [proxy_struct_destroy, hd]
  exact destroy_effects_eq p _ table rfl

/-- Witness of C1: the sample peer after two adds, a duplicate add and a remove. -/
theorem teardown_emits_tracked_witness :
    deref (sample_confirmed []) 0 = some (sample_peer (some []))
    ∧ (sample_peer (some [])).indicators = some []
    ∧ ∃ (table : IndicatorTable) (removes : List Signal),
      deref (run (sample_confirmed [])
          [Event.IndicatorAdded 0 5 "message", Event.IndicatorAdded 0 7 "message",
           Event.IndicatorAdded 0 5 "message", Event.IndicatorAdded 0 5 "alert",
           Event.IndicatorRemoved 0 7 "message"]).1 0
        = some { sample_peer (some []) with indicators := some table }
      ∧ (proxy_struct_destroy 0 (run (sample_confirmed [])
          [Event.IndicatorAdded 0 5 "message", Event.IndicatorAdded 0 7 "message",
           Event.IndicatorAdded 0 5 "message", Event.IndicatorAdded 0 5 "alert",
           Event.IndicatorRemoved 0 7 "message"]).1).2
          = removes.map Effect.g_signal_emit
            ++ [Effect.g_signal_emit (Signal.SERVER_REMOVED 0 (sample_peer (some [])).type)]
      ∧ removes.Nodup
      ∧ (∀ s, s ∈ removes
          ↔ ∃ id type, tracked table type id = true ∧ s = Signal.INDICATOR_REMOVED 0 id type)
      ∧ removes.length = (table.map fun e => e.2.length).sum :=
  ⟨by decide, rfl,
    teardown_emits_tracked (sample_confirmed []) 0 (sample_peer (some [])) _ (by decide) rfl
      (by decide)⟩

/-! ## Duplicate suppression -/

theorem add_tracked_noop (st : State) (p : Ptr) (proxyt : proxy_t) (table : IndicatorTable)
    (id : Nat) (type : String)
    (h : deref st p = some proxyt) (ht : proxyt.indicators = some table)
    (htr : tracked table type id = true) :
    proxy_indicator_added id type p st = (st, []) := by
  obtain ⟨t1, h1, h2, h3, _, _⟩ := added_confirmed st p proxyt table id type h ht
  have ht1 := h3 htr
  subst ht1
  rw [with_indicators_self proxyt t1 ht, store_same h] at h1
  rw [htr] at h2
  exact Prod.ext h1 (by simpa using h2)

theorem run_add_tracked (p : Ptr) (id : Nat) (type : String) (n : Nat) (st : State)
    (proxyt : proxy_t) (table : IndicatorTable)
    (h : deref st p = some proxyt) (ht : proxyt.indicators = some table)
    (htr : tracked table type id = true) :
    run st (List.replicate n (Event.IndicatorAdded p id type)) = (st, []) := by
  induction n with
  | zero => rfl
  | succ k ih =>
    simp [List.replicate_succ, run, step, add_tracked_noop st p proxyt table id type h ht htr, ih]

/-- C2: on a confirmed peer, for every type string and every id (0 included),
an add event for a pair that is tracked has no effect at all and leaves the
state as it is; one or more consecutive add events for a pair that is not
tracked emit exactly one `INDICATOR_ADDED`, the one of the first delivery, and
leave the state the first delivery produced, in which the pair is tracked. -/
theorem add_duplicate_suppressed (st : State) (p : Ptr) (proxyt : proxy_t)
    (table : IndicatorTable) (id : Nat) (type : String) (n : Nat)
    (h : deref st p = some proxyt) (ht : proxyt.indicators = some table) :
    (tracked table type id = true → proxy_indicator_added id type p st = (st, []))
    ∧ (tracked table type id = false →
        (run st (List.replicate (n + 1) (Event.IndicatorAdded p id type))).2
          = [Effect.g_signal_emit (Signal.INDICATOR_ADDED p id type)]
        ∧ (run st (List.replicate (n + 1) (Event.IndicatorAdded p id type))).1
          = (proxy_indicator_added id type p st).1
        ∧ ∃ table1, deref (proxy_indicator_added id type p st).1 p
              = some { proxyt with indicators := some table1 }
            ∧ tracked table1 type id = true) := by
  refine ⟨add_tracked_noop st p proxyt table id type h ht, ?_⟩
  intro hu
  obtain ⟨t1, h1, h2, _, _, h5⟩ := added_confirmed st p proxyt table id type h ht
  have hd : deref (proxy_indicator_added id type p st).1 p
      = some { proxyt with indicators := some t1 } := by
    rw [h1]; exact deref_store_same _ (deref_lt h)
  have htr : tracked t1 type id = true := by simp [h5]
  have hrest := run_add_tracked p id type n (proxy_indicator_added id type p st).1 _ t1 hd rfl htr
  rw [hu] at h2
  refine ⟨?_, ?_, t1, hd, htr⟩
  · simp [List.replicate_succ, run, step, hrest]
    simpa using h2
  · simp [List.replicate_succ, run, step, hrest]

/-- Witness of C2: id 0 under "message" on the sample peer, delivered three
times. -/
theorem add_duplicate_suppressed_witness :
    deref (sample_confirmed [("message", [5])]) 0 = some (sample_peer (some [("message", [5])]))
    ∧ (run (sample_confirmed [("message", [5])])
        (List.replicate (2 + 1) (Event.IndicatorAdded 0 0 "message"))).2
        = [Effect.g_signal_emit (Signal.INDICATOR_ADDED 0 0 "message")] :=
  ⟨by decide,
    ((add_duplicate_suppressed (sample_confirmed [("message", [5])]) 0
      (sample_peer (some [("message", [5])])) [("message", [5])] 0 "message" 2
      (by decide) rfl).2 (by decide)).1⟩

/-! ## Orphan removes -/

/-- C3: a remove event for (id, type) on a peer. When the pair is not tracked
(the peer has no index, the type has no bucket, or the bucket does not hold the
id) the only effect is one diagnostic and the state is unchanged. When it is
tracked, the only effect is one `INDICATOR_REMOVED` with the peer, the id and
the type, and the index loses exactly that pair. -/
theorem remove_orphan_or_tracked (st : State) (p : Ptr) (proxyt : proxy_t) (id : Nat)
    (type : String) (h : deref st p = some proxyt) :
    ((∀ table, proxyt.indicators = some table → tracked table type id = false) →
        (proxy_indicator_removed id type p st).1 = st
        ∧ (∃ msg, (proxy_indicator_removed id type p st).2 = [Effect.g_warning msg])
        ∧ emitted (proxy_indicator_removed id type p st).2 = []
        ∧ (warnings (proxy_indicator_removed id type p st).2).length = 1)
    ∧ (∀ table, proxyt.indicators = some table → table_wf table →
        tracked table type id = true →
        ∃ table1, (proxy_indicator_removed id type p st).1
              = store st p { proxyt with indicators := some table1 }
          ∧ (proxy_indicator_removed id type p st).2
              = [Effect.g_signal_emit (Signal.INDICATOR_REMOVED p id type)]
          ∧ (∀ ty i, tracked table1 ty i
              = (tracked table ty i && !(decide (ty = type) && decide (i = id))))) := by
  constructor
  · intro hu
    rcases hi : proxyt.indicators with _ | table
    · simp [proxy_indicator_removed, h, hi, emitted, warnings]
    · have hu1 := hu table hi
      rcases hl : g_hash_table_lookup table type with _ | ids
      · simp [proxy_indicator_removed, h, hi, hl, emitted, warnings]
      · have hm : id_lookup ids id = false := by simpa [tracked, hl] using hu1
        simp [proxy_indicator_removed, h, hi, hl, hm, emitted, warnings]
  · intro table hi hw htr
    rcases hl : g_hash_table_lookup table type with _ | ids
    · simp [tracked, hl] at htr
    · have hm : id_lookup ids id = true := by simpa [tracked, hl] using htr
      refine ⟨g_hash_table_insert table type (id_remove ids id), ?_, ?_, ?_⟩
      · simp [proxy_indicator_removed, h, hi, hl, hm]
      · simp [proxy_indicator_removed, h, hi, hl, hm]
      · intro ty i
        rw [tracked_insert]
        by_cases hty : ty = type
        · subst hty
          simp [id_lookup_remove _ _ _ (hw.2 _ (lookup_mem _ _ _ hl)), tracked, hl]
        · simp [hty]

/-- Witness of C3: id 5 is tracked under "message" only; a remove of id 5
under "alert" is an orphan. -/
theorem remove_orphan_or_tracked_witness :
    deref (sample_confirmed [("message", [5])]) 0 = some (sample_peer (some [("message", [5])]))
    ∧ (proxy_indicator_removed 5 "alert" 0 (sample_confirmed [("message", [5])])).1
        = sample_confirmed [("message", [5])]
    ∧ (∃ msg, (proxy_indicator_removed 5 "alert" 0 (sample_confirmed [("message", [5])])).2
        = [Effect.g_warning msg]) :=
  ⟨by decide,
    ((remove_orphan_or_tracked (sample_confirmed [("message", [5])]) 0
      (sample_peer (some [("message", [5])])) 5 "alert" (by decide)).1
      (by intro table ht; cases ht; decide)).1,
    ((remove_orphan_or_tracked (sample_confirmed [("message", [5])]) 0
      (sample_peer (some [("message", [5])])) 5 "alert" (by decide)).1
      (by intro table ht; cases ht; decide)).2.1⟩

/-! ## Modify resolution -/

theorem modified_scan_some (table : IndicatorTable) (id : Nat) (keys : List String)
    (type : String) (h : modified_scan table id keys = some type) :
    type ∈ keys ∧ tracked table type id = true := by
  induction keys with
  | nil => simp [modified_scan] at h
  | cons k rest ih =>
    rcases hl : g_hash_table_lookup table k with _ | ids
    · simp only [modified_scan, hl] at h
      exact ⟨List.mem_cons_of_mem _ (ih h).1, (ih h).2⟩
    · by_cases hm : id_lookup ids id = true
      · simp [modified_scan, hl, hm] at h
        subst h
        exact ⟨List.mem_cons_self _ _, by simp [tracked, hl, hm]⟩
      · simp only [modified_scan, hl, hm] at h
        exact ⟨List.mem_cons_of_mem _ (ih h).1, (ih h).2⟩

theorem modified_scan_none (table : IndicatorTable) (id : Nat) (keys : List String)
    (h : modified_scan table id keys = none) :
    ∀ type ∈ keys, tracked table type id = false := by
  induction keys with
  | nil => simp
  | cons k rest ih =>
    rcases hl : g_hash_table_lookup table k with _ | ids
    · simp only [modified_scan, hl] at h
      intro type ht
      rcases List.mem_cons.1 ht with h1 | h1
      · subst h1
        simp [tracked, hl]
      · exact ih h type h1
    · by_cases hm : id_lookup ids id = true
      · simp [modified_scan, hl, hm] at h
      · simp only [modified_scan, hl, hm] at h
        intro type ht
        rcases List.mem_cons.1 ht with h1 | h1
        · subst h1
          simpa [tracked, hl] using hm
        · exact ih h type h1

/-- C4, what the code does: a modify event (id, property) on a confirmed peer
never changes the state. When some bucket holds the id, the only effect is one
`INDICATOR_MODIFIED` emission carrying the id, a type whose bucket holds the id
and the property, but its first argument is the server struct passed by value,
not the peer reference that the other emissions pass. When no bucket holds the
id, the only effect is one diagnostic. -/
theorem modified_resolution (st : State) (p : Ptr) (proxyt : proxy_t) (table : IndicatorTable)
    (id : Nat) (property : String)
    (h : deref st p = some proxyt) (ht : proxyt.indicators = some table) :
    (proxy_indicator_modified id property p st).1 = st
    ∧ ((∃ type, tracked table type id = true) →
        ∃ type, tracked table type id = true
          ∧ (proxy_indicator_modified id property p st).2
              = [Effect.g_signal_emit
                  (Signal.INDICATOR_MODIFIED proxyt.server id type property)])
    ∧ ((∀ type, tracked table type id = false) →
        ∃ msg, (proxy_indicator_modified id property p st).2 = [Effect.g_warning msg]) := by
  rcases hs : modified_scan table id (g_hash_table_get_keys table) with _ | type
  · have hnone := modified_scan_none table id _ hs
    refine ⟨by simp [proxy_indicator_modified, h, ht, hs], ?_, ?_⟩
    · rintro ⟨type, htr⟩
      exfalso
      by_cases hk : type ∈ g_hash_table_get_keys table
      · simp [hnone type hk] at htr
      · have := (lookup_none_iff table type).2 hk
        simp [tracked, this] at htr
    · intro _
      simp [proxy_indicator_modified, h, ht, hs]
  · have hsome := modified_scan_some table id _ type hs
    refine ⟨by simp [proxy_indicator_modified, h, ht, hs], ?_, ?_⟩
    · intro _
      exact ⟨type, hsome.2, by simp [proxy_indicator_modified, h, ht, hs]⟩
    · intro hall
      simp [hall type] at hsome

/-- Witness of C4: id 5 tracked under "message", property "body". -/
theorem modified_resolution_witness :
    deref (sample_confirmed [("message", [5])]) 0 = some (sample_peer (some [("message", [5])]))
    ∧ (proxy_indicator_modified 5 "body" 0 (sample_confirmed [("message", [5])])).1
        = sample_confirmed [("message", [5])]
    ∧ (proxy_indicator_modified 5 "body" 0 (sample_confirmed [("message", [5])])).2
        = [Effect.g_signal_emit (Signal.INDICATOR_MODIFIED
            (sample_peer (some [("message", [5])])).server 5 "message" "body")] :=
  ⟨by decide,
    (modified_resolution (sample_confirmed [("message", [5])]) 0
      (sample_peer (some [("message", [5])])) [("message", [5])] 5 "body" (by decide) rfl).1,
    by decide⟩

/-! ## Interest flags -/

theorem get_set_same (f : InterestFlags) (i : IndicateInterests) (v : Bool) :
    (f.set i v).get i = v := by
  cases i <;> rfl

theorem get_set_other (f : InterestFlags) (i j : IndicateInterests) (v : Bool) (h : i ≠ j) :
    (f.set i v).get j = f.get j := by
  cases i <;> cases j <;> first | rfl | exact absurd rfl h

theorem set_ne_self (f : InterestFlags) (i : IndicateInterests) (v : Bool) (h : f.get i ≠ v) :
    f.set i v ≠ f := by
  intro hc
  have := get_set_same f i v
  rw [hc] at this
  exact h this

/-- C8: when the flag of a kind is false, two successive calls of
`indicate_listener_server_show_interest` begin exactly one remote call, the
ShowInterest of the first call; `indicate_listener_server_check_interest` is
true right after the first call, and stays true whatever the reply handler
`interest_cb` is given. -/
theorem show_interest_twice (server : IndicateListenerServer) (interest : IndicateInterests)
    (h : indicate_listener_server_check_interest server interest = false) :
    (indicate_listener_server_show_interest server interest).2
        ++ (indicate_listener_server_show_interest
              (indicate_listener_server_show_interest server interest).1 interest).2
      = [Effect.begin_call server.proxy (RemoteCall.ShowInterest (interest_to_string interest))]
    ∧ indicate_listener_server_check_interest
        (indicate_listener_server_show_interest server interest).1 interest = true
    ∧ (indicate_listener_server_show_interest
        (indicate_listener_server_show_interest server interest).1 interest).1
      = (indicate_listener_server_show_interest server interest).1
    ∧ ∀ error, indicate_listener_server_check_interest
        (interest_cb error (indicate_listener_server_show_interest server interest).1).1
        interest = true := by
  simp only [indicate_listener_server_check_interest] at h
  simp [indicate_listener_server_show_interest, indicate_listener_server_check_interest, h,
    get_set_same, interest_cb]

/-- Witness of C8: the server-display interest of the sample peer. -/
theorem show_interest_twice_witness :
    indicate_listener_server_check_interest (sample_peer none).server
        IndicateInterests.INDICATE_INTEREST_SERVER_DISPLAY = false
    ∧ (indicate_listener_server_show_interest (sample_peer none).server
          IndicateInterests.INDICATE_INTEREST_SERVER_DISPLAY).2
        ++ (indicate_listener_server_show_interest
              (indicate_listener_server_show_interest (sample_peer none).server
                IndicateInterests.INDICATE_INTEREST_SERVER_DISPLAY).1
              IndicateInterests.INDICATE_INTEREST_SERVER_DISPLAY).2
      = [Effect.begin_call (sample_peer none).server.proxy
          (RemoteCall.ShowInterest
            (interest_to_string IndicateInterests.INDICATE_INTEREST_SERVER_DISPLAY))] :=
  ⟨rfl, (show_interest_twice (sample_peer none).server
      IndicateInterests.INDICATE_INTEREST_SERVER_DISPLAY rfl).1⟩

theorem exec_get (server : IndicateListenerServer) (c : InterestCall) (k : IndicateInterests) :
    (c.exec server).1.interests.get k
      = if c.kind = k then c.value else server.interests.get k := by
  cases c with
  | show_interest i =>
    by_cases hk : i = k
    · subst hk
      by_cases hv : server.interests.get i = true
      · simp [InterestCall.exec, InterestCall.kind, InterestCall.value,
          indicate_listener_server_show_interest, hv]
      · simp [InterestCall.exec, InterestCall.kind, InterestCall.value,
          indicate_listener_server_show_interest, hv, get_set_same]
    · by_cases hv : server.interests.get i = true
      · simp [InterestCall.exec, InterestCall.kind,
          indicate_listener_server_show_interest, hv, hk]
      · simp [InterestCall.exec, InterestCall.kind,
          indicate_listener_server_show_interest, hv, hk, get_set_other _ _ _ _ hk]
  | remove_interest i =>
    by_cases hk : i = k
    · subst hk
      by_cases hv : server.interests.get i = true
      · simp [InterestCall.exec, InterestCall.kind, InterestCall.value,
          indicate_listener_server_remove_interest, hv, get_set_same]
      · simp [InterestCall.exec, InterestCall.kind, InterestCall.value,
          indicate_listener_server_remove_interest, hv]
    · by_cases hv : server.interests.get i = true
      · simp [InterestCall.exec, InterestCall.kind,
          indicate_listener_server_remove_interest, hv, hk, get_set_other _ _ _ _ hk]
      · simp [InterestCall.exec, InterestCall.kind,
          indicate_listener_server_remove_interest, hv, hk]

theorem exec_effects (server : IndicateListenerServer) (c : InterestCall) :
    ((c.exec server).2.filter is_interest_call).length
        = (if (c.exec server).1.interests = server.interests then 0 else 1)
    ∧ (c.exec server).2.length = ((c.exec server).2.filter is_interest_call).length := by
  cases c with
  | show_interest i =>
    by_cases hv : server.interests.get i = true
    · simp [InterestCall.exec, indicate_listener_server_show_interest, hv]
    · have hne := set_ne_self server.interests i true hv
      simp [InterestCall.exec, indicate_listener_server_show_interest, hv, hne, is_interest_call]
  | remove_interest i =>
    by_cases hv : server.interests.get i = true
    · have hne := set_ne_self server.interests i false (by simp [hv])
      simp [InterestCall.exec, indicate_listener_server_remove_interest, hv, hne,
        is_interest_call]
    · simp [InterestCall.exec, indicate_listener_server_remove_interest, hv]

theorem exec_calls_get (calls : List InterestCall) (k : IndicateInterests) :
    ∀ server : IndicateListenerServer,
      (exec_calls server calls).1.interests.get k
        = requested k (server.interests.get k) calls := by
  induction calls with
  | nil => intro server; rfl
  | cons c rest ih =>
    intro server
    simp only [exec_calls, requested]
    rw [ih, exec_get]

theorem exec_calls_effects (calls : List InterestCall) :
    ∀ server : IndicateListenerServer,
      ((exec_calls server calls).2.filter is_interest_call).length = flag_changes server calls
      ∧ (exec_calls server calls).2.length = flag_changes server calls := by
  induction calls with
  | nil => intro server; simp [exec_calls, flag_changes]
  | cons c rest ih =>
    intro server
    have h1 := exec_effects server c
    have h2 := ih (c.exec server).1
    simp only [exec_calls, flag_changes, List.filter_append, List.length_append]
    omega

/-- C9: the drain step creates a peer with all interest flags false; from such
a server struct, after any sequence of show and remove calls,
`indicate_listener_server_check_interest` for a kind is the value requested by
the most recent call for that kind (false when there was none); a single call
leaves the flags of the other kinds as they were; and the remote calls begun
are ShowInterest or RemoveInterest calls, as many as there were calls that
changed the value of a flag. -/
theorem interest_flags_track_requests :
    (∀ (st : State) (created : Bool) (todo : proxy_todo_t),
        st.priv.proxy_todo.getLast? = some todo →
        ∃ x, deref (todo_idle created st).2.1 st.heap.length = some x
          ∧ x.name = todo.name ∧ x.server.interests = InterestFlags.zero)
    ∧ (∀ (server : IndicateListenerServer), server.interests = InterestFlags.zero →
        ∀ (calls : List InterestCall),
          (∀ k, indicate_listener_server_check_interest (exec_calls server calls).1 k
              = requested k false calls)
          ∧ ((exec_calls server calls).2.filter is_interest_call).length
              = flag_changes server calls
          ∧ (exec_calls server calls).2.length = flag_changes server calls)
    ∧ (∀ (server : IndicateListenerServer) (c : InterestCall) (j : IndicateInterests),
        c.kind ≠ j →
        indicate_listener_server_check_interest (c.exec server).1 j
          = indicate_listener_server_check_interest server j) := by
  refine ⟨?_, ?_, ?_⟩
  · intro st created todo hq
    cases created with
    | false =>
      simp [todo_idle, hq, g_new, deref]
    | true =>
      simp [todo_idle, hq, g_new, deref, indicate_listener_server_get_type,
        get_server_property, g_list_find_custom, proxy_t_equal, searchitem, g_strcmp0, store]
  · intro server hz calls
    refine ⟨?_, (exec_calls_effects calls server).1, (exec_calls_effects calls server).2⟩
    intro k
    have := exec_calls_get calls k server
    rw [hz] at this
    simp only [indicate_listener_server_check_interest]
    rw [this]
    cases k <;> rfl
  · intro server c j hj
    simp only [indicate_listener_server_check_interest]
    rw [exec_get]
    simp [hj]

/-- Witness of C9: show, show again, remove, and a show of another kind on the
sample peer: three calls change a flag, three remote calls are begun. -/
theorem interest_flags_track_requests_witness :
    (sample_peer none).server.interests = InterestFlags.zero
    ∧ indicate_listener_server_check_interest
        (exec_calls (sample_peer none).server
          [InterestCall.show_interest IndicateInterests.INDICATE_INTEREST_SERVER_DISPLAY,
           InterestCall.show_interest IndicateInterests.INDICATE_INTEREST_SERVER_DISPLAY,
           InterestCall.remove_interest IndicateInterests.INDICATE_INTEREST_SERVER_DISPLAY,
           InterestCall.show_interest IndicateInterests.INDICATE_INTEREST_INDICATOR_SIGNAL]).1
        IndicateInterests.INDICATE_INTEREST_SERVER_DISPLAY
      = requested IndicateInterests.INDICATE_INTEREST_SERVER_DISPLAY false
          [InterestCall.show_interest IndicateInterests.INDICATE_INTEREST_SERVER_DISPLAY,
           InterestCall.show_interest IndicateInterests.INDICATE_INTEREST_SERVER_DISPLAY,
           InterestCall.remove_interest IndicateInterests.INDICATE_INTEREST_SERVER_DISPLAY,
           InterestCall.show_interest IndicateInterests.INDICATE_INTEREST_INDICATOR_SIGNAL]
    ∧ (exec_calls (sample_peer none).server
          [InterestCall.show_interest IndicateInterests.INDICATE_INTEREST_SERVER_DISPLAY,
           InterestCall.show_interest IndicateInterests.INDICATE_INTEREST_SERVER_DISPLAY,
           InterestCall.remove_interest IndicateInterests.INDICATE_INTEREST_SERVER_DISPLAY,
           InterestCall.show_interest IndicateInterests.INDICATE_INTEREST_INDICATOR_SIGNAL]).2.length
      = 3 :=
  ⟨rfl,
    ((interest_flags_track_requests.2.1 (sample_peer none).server rfl _).1
      IndicateInterests.INDICATE_INTEREST_SERVER_DISPLAY),
    ((interest_flags_track_requests.2.1 (sample_peer none).server rfl _).2.2).trans
      (by decide)⟩

/-! ## Promotion -/

theorem deref_heap_congr {st st1 : State} (h : st1.heap = st.heap) (p : Ptr) :
    deref st1 p = deref st p := by
  simp [deref, h]

theorem server_added_candidate (st : State) (p : Ptr) (proxyt : proxy_t) (type : Option String)
    (h : deref st p = some proxyt) (h0 : proxyt.indicators = none) :
    ∃ (v : proxy_t) (ty : Option String),
      deref (proxy_server_added type p st).1 p = some v
      ∧ v.indicators = some []
      ∧ (proxy_server_added type p st).1.heap = st.heap.set p (some v)
      ∧ emitted (proxy_server_added type p st).2 = [Signal.SERVER_ADDED p ty] := by
  have hlt := deref_lt h
  refine ⟨{ proxyt with indicators := some [],
                        type := match type with
                          | some t => some t
                          | none => proxyt.type },
    (match type with
      | some t => some t
      | none => proxyt.type), ?_, rfl, ?_, ?_⟩
  · simp only [proxy_server_added, h, h0]
    exact deref_store_same _ (by simpa using hlt)
  · simp [proxy_server_added, h, h0, store]
  · simp [proxy_server_added, h, h0, emitted, emitted_append, find_reads_emitted]

theorem server_added_confirmed (st : State) (p : Ptr) (proxyt : proxy_t) (table : IndicatorTable)
    (type : Option String) (h : deref st p = some proxyt) (ht : proxyt.indicators = some table) :
    proxy_server_added type p st = (st, []) := by
  simp [proxy_server_added, h, ht]

theorem indicator_added_candidate (st : State) (p : Ptr) (proxyt : proxy_t) (id : Nat)
    (type : String) (h : deref st p = some proxyt) (h0 : proxyt.indicators = none) :
    proxy_indicator_added id type p st
      = ((proxy_indicator_added id type p (proxy_server_added none p st).1).1,
         (proxy_server_added none p st).2
           ++ (proxy_indicator_added id type p (proxy_server_added none p st).1).2) := by
  obtain ⟨v, ty, hv, hvi, _, _⟩ := server_added_candidate st p proxyt none h h0
  conv_lhs => unfold proxy_indicator_added
  conv_rhs => unfold proxy_indicator_added
  simp only [h, h0, hv, hvi, Option.isNone_none, Option.isNone_some, if_true]
  simp only [Bool.false_eq_true, if_false, hv, hvi]
  split <;> simp

theorem promoting_confirmed (st : State) (p : Ptr) (proxyt : proxy_t) (table : IndicatorTable)
    (e : Event) (h : deref st p = some proxyt) (ht : proxyt.indicators = some table)
    (he : is_promoting p e = true) :
    ∃ (v : proxy_t) (t : IndicatorTable), deref (step st e).1 p = some v ∧ v.indicators = some t
      ∧ (emitted (step st e).2).filter is_server_added = [] := by
  have hadd : ∀ id type, ∃ (v : proxy_t) (t : IndicatorTable),
      deref (proxy_indicator_added id type p st).1 p = some v ∧ v.indicators = some t
      ∧ (emitted (proxy_indicator_added id type p st).2).filter is_server_added = [] := by
    intro id type
    obtain ⟨t1, h1, h2, _, _, _⟩ := added_confirmed st p proxyt table id type h ht
    refine ⟨{ proxyt with indicators := some t1 }, t1, ?_, rfl, ?_⟩
    · rw [h1]; exact deref_store_same _ (deref_lt h)
    · rw [h2]; split <;> simp [emitted, is_server_added]
  cases e with
  | type_reply q reply =>
    cases reply with
    | string propstr =>
      have hq : q = p := by simpa [is_promoting] using he
      subst hq
      refine ⟨proxyt, table, ?_, ht, ?_⟩
      · simp [step, property_cb, get_type_cb, h, server_added_confirmed st q proxyt table _ h ht]
      · simp [step, property_cb, get_type_cb, h, server_added_confirmed st q proxyt table _ h ht,
          emitted]
    | error => simp [is_promoting] at he
    | not_a_string => simp [is_promoting] at he
  | ServerShow q type =>
    have hq : q = p := by simpa [is_promoting] using he
    subst hq
    refine ⟨proxyt, table, ?_, ht, ?_⟩
    · simp [step, server_added_confirmed st q proxyt table _ h ht, h]
    · simp [step, server_added_confirmed st q proxyt table _ h ht, emitted]
  | IndicatorAdded q id type =>
    have hq : q = p := by simpa [is_promoting] using he
    subst hq
    exact hadd id type
  | indicator_type_reply q id type error =>
    cases error with
    | true => simp [is_promoting] at he
    | false =>
      have hq : q = p := by simpa [is_promoting] using he
      subst hq
      simpa [step, proxy_get_indicator_type] using hadd id type
  | _ => simp [is_promoting] at he

theorem promoting_candidate (st : State) (p : Ptr) (proxyt : proxy_t) (e : Event)
    (h : deref st p = some proxyt) (h0 : proxyt.indicators = none)
    (he : is_promoting p e = true) :
    ∃ (v : proxy_t) (t : IndicatorTable) (ty : Option String),
      deref (step st e).1 p = some v ∧ v.indicators = some t
      ∧ (emitted (step st e).2).filter is_server_added = [Signal.SERVER_ADDED p ty] := by
  have hadd : ∀ id type, ∃ (v : proxy_t) (t : IndicatorTable) (ty : Option String),
      deref (proxy_indicator_added id type p st).1 p = some v ∧ v.indicators = some t
      ∧ (emitted (proxy_indicator_added id type p st).2).filter is_server_added
          = [Signal.SERVER_ADDED p ty] := by
    intro id type
    obtain ⟨v, ty, hv, hvi, _, hem⟩ := server_added_candidate st p proxyt none h h0
    obtain ⟨t1, h1, h2, _, _, _⟩ :=
      added_confirmed (proxy_server_added none p st).1 p v [] id type hv hvi
    rw [indicator_added_candidate st p proxyt id type h h0]
    refine ⟨{ v with indicators := some t1 }, t1, ty, ?_, rfl, ?_⟩
    · simp only []
      rw [h1]; exact deref_store_same _ (deref_lt hv)
    · simp only [emitted_append, hem, h2]
      split <;> simp [emitted, is_server_added]
  cases e with
  | type_reply q reply =>
    cases reply with
    | string propstr =>
      have hq : q = p := by simpa [is_promoting] using he
      subst hq
      obtain ⟨v, ty, hv, hvi, _, hem⟩ :=
        server_added_candidate st q proxyt (some propstr) h h0
      refine ⟨v, [], ty, ?_, hvi, ?_⟩
      · simpa [step, property_cb, get_type_cb, h] using hv
      · simp [step, property_cb, get_type_cb, h, emitted_append, hem, emitted, is_server_added]
    | error => simp [is_promoting] at he
    | not_a_string => simp [is_promoting] at he
  | ServerShow q type =>
    have hq : q = p := by simpa [is_promoting] using he
    subst hq
    obtain ⟨v, ty, hv, hvi, _, hem⟩ := server_added_candidate st q proxyt (some type) h h0
    refine ⟨v, [], ty, ?_, hvi, ?_⟩
    · simpa [step] using hv
    · simp [step, hem, is_server_added]
  | IndicatorAdded q id type =>
    have hq : q = p := by simpa [is_promoting] using he
    subst hq
    exact hadd id type
  | indicator_type_reply q id type error =>
    cases error with
    | true => simp [is_promoting] at he
    | false =>
      have hq : q = p := by simpa [is_promoting] using he
      subst hq
      simpa [step, proxy_get_indicator_type] using hadd id type
  | _ => simp [is_promoting] at he

theorem run_promoting_confirmed (p : Ptr) (evs : List Event) :
    ∀ (st : State) (proxyt : proxy_t) (table : IndicatorTable),
      deref st p = some proxyt → proxyt.indicators = some table →
      (∀ e ∈ evs, is_promoting p e = true) →
      (emitted (run st evs).2).filter is_server_added = [] := by
  induction evs with
  | nil => intro st proxyt table _ _ _; simp [run, emitted]
  | cons e rest ih =>
    intro st proxyt table h ht hev
    obtain ⟨v, t, hv, hvt, hem⟩ :=
      promoting_confirmed st p proxyt table e h ht (hev e (List.mem_cons_self _ _))
    have := ih (step st e).1 v t hv hvt (fun e he => hev e (List.mem_cons_of_mem _ he))
    simp [run, emitted_append, hem, this]

/-- C5: a candidate peer (its index is still NULL) receives any non-empty
sequence of successful classification results, ServerShow signals, indicator
adds and successful per-id type fetches, in any order (an indicator add may
come before the classification result): exactly one `SERVER_ADDED` is emitted
in total, and it is for this peer. -/
theorem promoted_exactly_once (st : State) (p : Ptr) (proxyt : proxy_t) (evs : List Event)
    (h : deref st p = some proxyt) (h0 : proxyt.indicators = none) (hne : evs ≠ [])
    (hev : ∀ e ∈ evs, is_promoting p e = true) :
    ∃ type, (emitted (run st evs).2).filter is_server_added = [Signal.SERVER_ADDED p type] := by
  cases evs with
  | nil => exact absurd rfl hne
  | cons e rest =>
    obtain ⟨v, t, ty, hv, hvt, hem⟩ :=
      promoting_candidate st p proxyt e h h0 (hev e (List.mem_cons_self _ _))
    have := run_promoting_confirmed p rest (step st e).1 v t hv hvt
      (fun e he => hev e (List.mem_cons_of_mem _ he))
    exact ⟨ty, by simp [run, emitted_append, hem, this]⟩

/-- Witness of C5: the sample candidate gets an indicator add, then the
classification result, a ServerShow signal and a second add. -/
theorem promoted_exactly_once_witness :
    deref sample_candidate 0 = some (sample_peer none)
    ∧ ∃ type, (emitted (run sample_candidate
        [Event.IndicatorAdded 0 5 "message", Event.type_reply 0 (PropertyReply.string "im"),
         Event.ServerShow 0 "im", Event.IndicatorAdded 0 7 "message"]).2).filter is_server_added
        = [Signal.SERVER_ADDED 0 type] :=
  ⟨by decide,
    promoted_exactly_once sample_candidate 0 (sample_peer none) _ (by decide) rfl (by simp)
      (by decide)⟩

/-! ## End-to-end scenario -/

theorem colon_name_ne_empty (P1 : String) (h : P1.data.head? = some ':') : ¬ P1 = "" := by
  intro hc
  rw [hc] at h
  simp at h

/-- C6: from the state left by `indicate_listener_init`, for a peer name `P1`
that begins with ':' on either bus. The events of the scenario (name acquired,
one drain step, classification "im", indicator list 5 and 7, both type fetches
"message", name lost) form a causal run: the drain step runs while the idle
source is installed and every reply answers a call that the listener began
before it and that was not answered yet. The join part produces exactly these
effects in this order: the subscription to `ServerShow`, the "type" property
read, the three indicator subscriptions, `SERVER_ADDED` (P1, "im"), the call
`GetIndicatorList`, the per-id type fetches for 5 and 7, `INDICATOR_ADDED`
(P1, 5, "message"), `INDICATOR_ADDED` (P1, 7, "message"); so the emitted
signals are exactly those three, where the peer reference is address 0, the
cell holding name `P1` on the notifying bus, and that cell is the only confirmed
entry. The name-lost notification that follows produces exactly the two
`INDICATOR_REMOVED` signals of ids 5 and 7 (in the order of the table) and then
`SERVER_REMOVED` (P1, "im"), and leaves both peer lists empty and the cell
released. -/
theorem end_to_end_scenario (proxy : DaemonProxy) (P1 : String)
    (h : P1.data.head? = some ':') :
    causal_run indicate_listener_init [] (scenario_join proxy P1 ++ [scenario_leave proxy P1])
      = true
    ∧ (run indicate_listener_init (scenario_join proxy P1)).2
      = [Effect.connect_signal (some (scenario_handle proxy P1)) "ServerShow",
         Effect.begin_call (some (scenario_properties proxy P1))
           (RemoteCall.Get "org.freedesktop.indicator" "type"),
         Effect.connect_signal (some (scenario_handle proxy P1)) "IndicatorAdded",
         Effect.connect_signal (some (scenario_handle proxy P1)) "IndicatorRemoved",
         Effect.connect_signal (some (scenario_handle proxy P1)) "IndicatorModified",
         Effect.g_signal_emit (Signal.SERVER_ADDED 0 (some "im")),
         Effect.begin_call (some (scenario_handle proxy P1)) RemoteCall.GetIndicatorList,
         Effect.begin_call (some (scenario_handle proxy P1))
           (RemoteCall.GetIndicatorProperty 5 "type"),
         Effect.begin_call (some (scenario_handle proxy P1))
           (RemoteCall.GetIndicatorProperty 7 "type"),
         Effect.g_signal_emit (Signal.INDICATOR_ADDED 0 5 "message"),
         Effect.g_signal_emit (Signal.INDICATOR_ADDED 0 7 "message")]
    ∧ emitted (run indicate_listener_init (scenario_join proxy P1)).2
      = [Signal.SERVER_ADDED 0 (some "im"), Signal.INDICATOR_ADDED 0 5 "message",
         Signal.INDICATOR_ADDED 0 7 "message"]
    ∧ (∃ x, deref (run indicate_listener_init (scenario_join proxy P1)).1 0 = some x
        ∧ x.name = P1 ∧ x.connection = bus_of proxy ∧ x.server.name = P1
        ∧ x.type = some "im")
    ∧ (run indicate_listener_init (scenario_join proxy P1)).1.priv.proxies_working = [0]
    ∧ (run indicate_listener_init (scenario_join proxy P1)).1.priv.proxies_possible = []
    ∧ (step (run indicate_listener_init (scenario_join proxy P1)).1
          (scenario_leave proxy P1)).2
        = [Effect.g_signal_emit (Signal.INDICATOR_REMOVED 0 5 "message"),
           Effect.g_signal_emit (Signal.INDICATOR_REMOVED 0 7 "message"),
           Effect.g_signal_emit (Signal.SERVER_REMOVED 0 (some "im"))]
    ∧ (∃ removes,
        emitted (step (run indicate_listener_init (scenario_join proxy P1)).1
            (scenario_leave proxy P1)).2
          = removes ++ [Signal.SERVER_REMOVED 0 (some "im")]
        ∧ removes.Perm [Signal.INDICATOR_REMOVED 0 5 "message",
                        Signal.INDICATOR_REMOVED 0 7 "message"])
    ∧ (step (run indicate_listener_init (scenario_join proxy P1)).1
          (scenario_leave proxy P1)).1.priv.proxies_working = []
    ∧ (step (run indicate_listener_init (scenario_join proxy P1)).1
          (scenario_leave proxy P1)).1.priv.proxies_possible = []
    ∧ deref (step (run indicate_listener_init (scenario_join proxy P1)).1
          (scenario_leave proxy P1)).1 0 = none := by
  have hne := colon_name_ne_empty P1 h
  have heff : (run indicate_listener_init (scenario_join proxy P1)).2
      = [Effect.connect_signal (some (scenario_handle proxy P1)) "ServerShow",
         Effect.begin_call (some (scenario_properties proxy P1))
           (RemoteCall.Get "org.freedesktop.indicator" "type"),
         Effect.connect_signal (some (scenario_handle proxy P1)) "IndicatorAdded",
         Effect.connect_signal (some (scenario_handle proxy P1)) "IndicatorRemoved",
         Effect.connect_signal (some (scenario_handle proxy P1)) "IndicatorModified",
         Effect.g_signal_emit (Signal.SERVER_ADDED 0 (some "im")),
         Effect.begin_call (some (scenario_handle proxy P1)) RemoteCall.GetIndicatorList,
         Effect.begin_call (some (scenario_handle proxy P1))
           (RemoteCall.GetIndicatorProperty 5 "type"),
         Effect.begin_call (some (scenario_handle proxy P1))
           (RemoteCall.GetIndicatorProperty 7 "type"),
         Effect.g_signal_emit (Signal.INDICATOR_ADDED 0 5 "message"),
         Effect.g_signal_emit (Signal.INDICATOR_ADDED 0 7 "message")] := by
    simp [scenario_join, run, step, indicate_listener_init, dbus_owner_change, todo_list_add,
      h, hne, g_idle_add, todo_idle, g_new, indicate_listener_server_get_type,
      get_server_property, g_list_find_custom, deref, store, proxy_t_equal, searchitem,
      g_strcmp0, property_cb, get_type_cb, proxy_server_added, g_list_remove,
      proxy_get_indicator_list, proxy_get_indicator_type, proxy_indicator_added,
      g_hash_table_lookup, g_hash_table_insert, id_lookup, id_insert, scenario_handle,
      scenario_properties]
  have hjoin : run indicate_listener_init (scenario_join proxy P1)
      = ({ priv := { proxies_working := [0], proxies_possible := [], proxy_todo := [],
                     todo_idle := 1 },
           heap := [some
             { proxy := some (scenario_handle proxy P1),
               property_proxy := some (scenario_properties proxy P1),
               connection := bus_of proxy, name := P1, type := some "im",
               indicators := some [("message", [5, 7])],
               server := { name := P1, proxy := some (scenario_handle proxy P1),
                           connection := bus_of proxy, interests := InterestFlags.zero } }] },
         (run indicate_listener_init (scenario_join proxy P1)).2) := by
    apply Prod.ext
    · simp [scenario_join, run, step, indicate_listener_init, dbus_owner_change, todo_list_add,
        h, hne, g_idle_add, todo_idle, g_new, indicate_listener_server_get_type,
        get_server_property, g_list_find_custom, deref, store, proxy_t_equal, searchitem,
        g_strcmp0, property_cb, get_type_cb, proxy_server_added, g_list_remove,
        proxy_get_indicator_list, proxy_get_indicator_type, proxy_indicator_added,
        g_hash_table_lookup, g_hash_table_insert, id_lookup, id_insert, scenario_handle,
        scenario_properties]
    · rfl
  have hleave : step (run indicate_listener_init (scenario_join proxy P1)).1
        (scenario_leave proxy P1)
      = ({ priv := { proxies_working := [], proxies_possible := [], proxy_todo := [],
                     todo_idle := 1 },
           heap := [none] },
         [Effect.g_signal_emit (Signal.INDICATOR_REMOVED 0 5 "message"),
          Effect.g_signal_emit (Signal.INDICATOR_REMOVED 0 7 "message"),
          Effect.g_signal_emit (Signal.SERVER_REMOVED 0 (some "im"))]) := by
    rw [hjoin]
    simp [scenario_leave, step, dbus_owner_change, owner_lost_working, owner_lost_possible,
      hne, g_list_find_custom, deref, proxy_t_equal, searchitem, g_strcmp0,
      proxy_struct_destroy, destroy_effects, proxy_struct_destroy_indicators, g_free,
      g_list_remove]
  have hcausal : causal_run indicate_listener_init []
      (scenario_join proxy P1 ++ [scenario_leave proxy P1]) = true := by
    simp [causal_run, Event.is_reply, Event.answers, scenario_leave,
      scenario_join, run, step, indicate_listener_init, dbus_owner_change, todo_list_add,
      h, hne, g_idle_add, todo_idle, g_new, indicate_listener_server_get_type,
      get_server_property, g_list_find_custom, deref, store, proxy_t_equal, searchitem,
      g_strcmp0, property_cb, get_type_cb, proxy_server_added, g_list_remove,
      proxy_get_indicator_list, proxy_get_indicator_type, proxy_indicator_added,
      g_hash_table_lookup, g_hash_table_insert, id_lookup, id_insert]
  refine ⟨hcausal, heff, ?_, ?_, ?_, ?_, ?_, ?_, ?_, ?_, ?_⟩
  · rw [heff]
    simp [emitted]
  · rw [hjoin]
    simp [deref]
  · rw [hjoin]
  · rw [hjoin]
  · rw [hleave]
  · refine ⟨[Signal.INDICATOR_REMOVED 0 5 "message", Signal.INDICATOR_REMOVED 0 7 "message"],
      ?_, List.Perm.refl _⟩
    rw [hleave]
    simp [emitted]
  · rw [hleave]
  · rw [hleave]
  · rw [hleave]
    simp [deref]

/-- Witness of C6: the peer ":1.7" on the session bus. -/
theorem end_to_end_scenario_witness :
    (":1.7" : String).data.head? = some ':'
    ∧ causal_run indicate_listener_init []
        (scenario_join DaemonProxy.dbus_proxy_session ":1.7"
          ++ [scenario_leave DaemonProxy.dbus_proxy_session ":1.7"]) = true
    ∧ emitted (run indicate_listener_init
        (scenario_join DaemonProxy.dbus_proxy_session ":1.7")).2
      = [Signal.SERVER_ADDED 0 (some "im"), Signal.INDICATOR_ADDED 0 5 "message",
         Signal.INDICATOR_ADDED 0 7 "message"]
    ∧ (step (run indicate_listener_init
          (scenario_join DaemonProxy.dbus_proxy_session ":1.7")).1
          (scenario_leave DaemonProxy.dbus_proxy_session ":1.7")).2
      = [Effect.g_signal_emit (Signal.INDICATOR_REMOVED 0 5 "message"),
         Effect.g_signal_emit (Signal.INDICATOR_REMOVED 0 7 "message"),
         Effect.g_signal_emit (Signal.SERVER_REMOVED 0 (some "im"))] :=
  ⟨by decide, (end_to_end_scenario DaemonProxy.dbus_proxy_session ":1.7" (by decide)).1,
    (end_to_end_scenario DaemonProxy.dbus_proxy_session ":1.7" (by decide)).2.2.1,
    (end_to_end_scenario DaemonProxy.dbus_proxy_session ":1.7" (by decide)).2.2.2.2.2.2.1⟩

/-! ## A failed probe is silent -/

theorem quiet_congr {p : Ptr} {st st1 : State} (h : st1.heap = st.heap) (hq : quiet p st) :
    quiet p st1 := by
  unfold quiet at *
  rw [deref_heap_congr h, h]
  exact hq

theorem quiet_store {p q : Ptr} {st : State} (v : proxy_t) (hq : quiet p st) (hne : q ≠ p) :
    quiet p (store st q v) := by
  refine ⟨by simpa [store] using hq.1, ?_⟩
  intro x hx
  rw [deref_store_other v hne] at hx
  exact hq.2 x hx

theorem quiet_store_self {p : Ptr} {st : State} (v : proxy_t) (hq : quiet p st)
    (hv : v.indicators = none) : quiet p (store st p v) := by
  refine ⟨by simpa [store] using hq.1, ?_⟩
  intro x hx
  rw [deref_store_same v hq.1] at hx
  cases hx
  exact hv

theorem quiet_free {p : Ptr} {st : State} (d : Ptr) (hq : quiet p st) : quiet p (g_free st d) := by
  refine ⟨by simpa [g_free] using hq.1, ?_⟩
  intro x hx
  by_cases hd : d = p
  · subst hd
    simp [deref, g_free, hq.1] at hx
  · have : deref (g_free st d) p = deref st p := by
      simp [deref, g_free, List.getElem?_set_ne hd]
    rw [this] at hx
    exact hq.2 x hx

theorem quiet_new {p : Ptr} {st : State} (v : proxy_t) (hq : quiet p st) :
    quiet p (g_new st v).2 := by
  have hlen : (g_new st v).2.heap.length = st.heap.length + 1 := by
    simp [g_new]
  refine ⟨by rw [hlen]; exact Nat.lt_succ_of_lt hq.1, ?_⟩
  intro x hx
  have : deref (g_new st v).2 p = deref st p := by
    simp [deref, g_new, List.getElem?_append_left hq.1]
  rw [this] at hx
  exact hq.2 x hx

theorem server_added_quiet (p q : Ptr) (type : Option String) (st : State) (hq : quiet p st)
    (hne : q ≠ p) :
    quiet p (proxy_server_added type q st).1
    ∧ ∀ s ∈ emitted (proxy_server_added type q st).2, s.server_ref = some q := by
  rcases hd : deref st q with _ | x
  · simp [proxy_server_added, hd, emitted, hq]
  · rcases hi : x.indicators with _ | t
    · simp only [proxy_server_added, hd, hi]
      refine ⟨quiet_store _ (quiet_congr rfl hq) hne, ?_⟩
      simp [emitted, emitted_append, find_reads_emitted, Signal.server_ref]
    · simp [proxy_server_added, hd, hi, emitted, hq]

theorem indicator_added_quiet (p q : Ptr) (id : Nat) (type : String) (st : State)
    (hq : quiet p st) (hne : q ≠ p) :
    quiet p (proxy_indicator_added id type q st).1
    ∧ ∀ s ∈ emitted (proxy_indicator_added id type q st).2, s.server_ref = some q := by
  have confirmed : ∀ (st : State) (x : proxy_t) (t : IndicatorTable), quiet p st →
      deref st q = some x → x.indicators = some t →
      quiet p (proxy_indicator_added id type q st).1
      ∧ ∀ s ∈ emitted (proxy_indicator_added id type q st).2, s.server_ref = some q := by
    intro st x t hq hd hi
    obtain ⟨t1, h1, h2, _, _, _⟩ := added_confirmed st q x t id type hd hi
    rw [h1, h2]
    refine ⟨quiet_store _ hq hne, ?_⟩
    split <;> simp [emitted, Signal.server_ref]
  rcases hd : deref st q with _ | x
  · simp [proxy_indicator_added, hd, emitted, hq]
  · rcases hi : x.indicators with _ | t
    · obtain ⟨v, ty, hv, hvi, _, _⟩ := server_added_candidate st q x none hd hi
      have h1 := server_added_quiet p q none st hq hne
      have h2 := confirmed (proxy_server_added none q st).1 v [] h1.1 hv hvi
      rw [indicator_added_candidate st q x id type hd hi]
      refine ⟨h2.1, ?_⟩
      intro s hs
      rw [emitted_append] at hs
      rcases List.mem_append.1 hs with hs | hs
      · exact h1.2 s hs
      · exact h2.2 s hs
    · exact confirmed st x t hq hd hi

theorem indicator_removed_quiet (p q : Ptr) (id : Nat) (type : String) (st : State)
    (hq : quiet p st) (hne : q ≠ p) :
    quiet p (proxy_indicator_removed id type q st).1
    ∧ ∀ s ∈ emitted (proxy_indicator_removed id type q st).2, s.server_ref = some q := by
  rcases hd : deref st q with _ | x
  · simp [proxy_indicator_removed, hd, emitted, hq]
  · rcases hi : x.indicators with _ | t
    · simp [proxy_indicator_removed, hd, hi, emitted, hq]
    · rcases hl : g_hash_table_lookup t type with _ | ids
      · simp [proxy_indicator_removed, hd, hi, hl, emitted, hq]
      · by_cases hm : id_lookup ids id = true
        · simp only [proxy_indicator_removed, hd, hi, hl, hm]
          refine ⟨quiet_store _ hq hne, ?_⟩
          simp [emitted, Signal.server_ref]
        · simp [proxy_indicator_removed, hd, hi, hl, hm, emitted, hq]

theorem indicator_modified_quiet (q : Ptr) (id : Nat) (property : String) (st : State) :
    (proxy_indicator_modified id property q st).1 = st
    ∧ ∀ s ∈ emitted (proxy_indicator_modified id property q st).2,
        ∃ srv ty, s = Signal.INDICATOR_MODIFIED srv id ty property := by
  rcases hd : deref st q with _ | x
  · simp [proxy_indicator_modified, hd, emitted]
  · rcases hi : x.indicators with _ | t
    · simp [proxy_indicator_modified, hd, hi, emitted]
    · rcases hs : modified_scan t id (g_hash_table_get_keys t) with _ | ty
      · simp [proxy_indicator_modified, hd, hi, hs, emitted]
      · simp [proxy_indicator_modified, hd, hi, hs, emitted]

theorem get_server_property_quiet (p server : Ptr) (property_name : String) (st : State)
    (hq : quiet p st) :
    quiet p (get_server_property server property_name st).1
    ∧ emitted (get_server_property server property_name st).2 = [] := by
  unfold get_server_property
  rcases hd : deref st server with _ | owner
  · simp [emitted, hq]
  · simp only []
    have ha := find_reads_emitted st st.priv.proxies_possible
      (searchitem owner.server.connection owner.server.name)
    have hb := find_reads_emitted st st.priv.proxies_working
      (searchitem owner.server.connection owner.server.name)
    generalize g_list_find_custom st st.priv.proxies_possible _ = a at ha ⊢
    generalize g_list_find_custom st st.priv.proxies_working _ = b at hb ⊢
    obtain ⟨a1, a2⟩ := a
    obtain ⟨b1, b2⟩ := b
    simp only at ha hb
    have key : ∀ (q : Ptr) (x : proxy_t) (v : proxy_t), deref st q = some x →
        v.indicators = x.indicators → quiet p (store st q v) := by
      intro q x v hdq hv
      by_cases hqp : q = p
      · subst hqp
        exact quiet_store_self _ hq (by rw [hv]; exact hq.2 x hdq)
      · exact quiet_store _ hq hqp
    rcases a1 with _ | q
    · rcases b1 with _ | q
      · simp [emitted_append, emitted, ha, hb, hq]
      · simp only []
        rcases hdq : deref st q with _ | x
        · simp [emitted_append, emitted, ha, hb, hq]
        · simp only [emitted_append, emitted, ha, hb, List.append_nil, and_true]
          exact key q x _ hdq rfl
    · simp only []
      rcases hdq : deref st q with _ | x
      · simp [emitted_append, emitted, ha, hq]
      · simp only [emitted_append, emitted, ha, List.append_nil, and_true]
        exact key q x _ hdq rfl

theorem todo_list_add_heap (name : Option String) (proxy : DaemonProxy) (startup : Bool)
    (st : State) : (todo_list_add name proxy startup st).heap = st.heap := by
  unfold todo_list_add
  split
  · rfl
  · split <;> rfl

theorem build_todo_list_heap (proxy : DaemonProxy) (names : List String) :
    ∀ st : State,
      (names.foldl (fun acc n => todo_list_add (some n) proxy true acc) st).heap = st.heap := by
  induction names with
  | nil => intro st; rfl
  | cons n rest ih =>
    intro st
    simp only [List.foldl_cons]
    rw [ih, todo_list_add_heap]

theorem destroy_quiet (p d : Ptr) (st : State) (hq : quiet p st) :
    quiet p (proxy_struct_destroy d st).1
    ∧ ∀ s ∈ emitted (proxy_struct_destroy d st).2, s.server_ref ≠ some p := by
  rcases hd : deref st d with _ | x
  · simp [proxy_struct_destroy, hd, emitted, hq]
  · simp only [proxy_struct_destroy, hd]
    refine ⟨quiet_free d hq, ?_⟩
    by_cases hdp : d = p
    · subst hdp
      simp [destroy_effects, hq.2 x hd, emitted]
    · rcases hi : x.indicators with _ | t
      · simp [destroy_effects, hi, emitted]
      · rw [destroy_effects_eq d x t hi, emitted_append]
        intro s hs
        have hem : ∀ l : List Signal, emitted (l.map Effect.g_signal_emit) = l := by
          intro l
          induction l with
          | nil => rfl
          | cons a rest ih => simp [emitted, ih]
        rw [hem] at hs
        rcases List.mem_append.1 hs with hs | hs
        · simp only [removal_signals, List.mem_flatMap, List.mem_map] at hs
          obtain ⟨e, _, i, _, rfl⟩ := hs
          simpa [Signal.server_ref] using hdp
        · simp [emitted] at hs
          subst hs
          simpa [Signal.server_ref] using hdp

theorem owner_lost_working_quiet (p : Ptr) (item : proxy_t) (st : State) (hq : quiet p st) :
    quiet p (owner_lost_working item st).1
    ∧ ∀ s ∈ emitted (owner_lost_working item st).2, s.server_ref ≠ some p := by
  unfold owner_lost_working
  split
  · rename_i d _
    have := destroy_quiet p d st hq
    refine ⟨quiet_congr rfl this.1, ?_⟩
    rw [emitted_append, find_reads_emitted, List.nil_append]
    exact this.2
  · simp [find_reads_emitted, hq]

theorem owner_lost_possible_quiet (p : Ptr) (item : proxy_t) (st : State) (hq : quiet p st) :
    quiet p (owner_lost_possible item st).1
    ∧ ∀ s ∈ emitted (owner_lost_possible item st).2, s.server_ref ≠ some p := by
  unfold owner_lost_possible
  split
  · rename_i d _
    have := destroy_quiet p d st hq
    refine ⟨quiet_congr rfl this.1, ?_⟩
    rw [emitted_append, find_reads_emitted, List.nil_append]
    exact this.2
  · simp [find_reads_emitted, hq]

theorem owner_change_quiet (p : Ptr) (proxy : DaemonProxy) (name : String)
    (prev new : Option String) (st : State) (hq : quiet p st) :
    quiet p (dbus_owner_change proxy name prev new st).1
    ∧ ∀ s ∈ emitted (dbus_owner_change proxy name prev new st).2, s.server_ref ≠ some p := by
  have h1 : quiet p (if prev = some "" then todo_list_add (some name) proxy false st else st) := by
    split
    · exact quiet_congr (todo_list_add_heap _ _ _ _) hq
    · exact hq
  unfold dbus_owner_change
  simp only []
  split
  · have r1 := owner_lost_working_quiet p (searchitem (bus_of proxy) name) _ h1
    have r2 := owner_lost_possible_quiet p (searchitem (bus_of proxy) name) _ r1.1
    refine ⟨r2.1, ?_⟩
    intro s hs
    rw [emitted_append] at hs
    rcases List.mem_append.1 hs with hs | hs
    · exact r1.2 s hs
    · exact r2.2 s hs
  · simp [emitted, h1]

theorem todo_idle_quiet (p : Ptr) (created : Bool) (st : State) (hq : quiet p st) :
    quiet p (todo_idle created st).2.1 ∧ emitted (todo_idle created st).2.2 = [] := by
  unfold todo_idle
  split
  · exact ⟨quiet_congr rfl hq, rfl⟩
  · rename_i todo _
    cases created with
    | false =>
      simp only [Bool.false_eq_true, if_false]
      exact ⟨quiet_congr rfl (quiet_new _ hq), by simp [emitted]⟩
    | true =>
      simp only [if_true, indicate_listener_server_get_type]
      refine ⟨(get_server_property_quiet p _ _ _ ?_).1, ?_⟩
      · exact quiet_congr rfl (quiet_new _ hq)
      · simp only [emitted]
        refine (get_server_property_quiet p _ _ _ ?_).2
        exact quiet_congr rfl (quiet_new _ hq)

theorem destroy_no_modified (d : Ptr) (st : State) :
    ∀ s ∈ emitted (proxy_struct_destroy d st).2, s.server_ref = some d := by
  rcases hd : deref st d with _ | x
  · simp [proxy_struct_destroy, hd, emitted]
  · simp only [proxy_struct_destroy, hd]
    rcases hi : x.indicators with _ | t
    · simp [destroy_effects, hi, emitted]
    · rw [destroy_effects_eq d x t hi, emitted_append]
      intro s hs
      have hem : ∀ l : List Signal, emitted (l.map Effect.g_signal_emit) = l := by
        intro l
        induction l with
        | nil => rfl
        | cons a rest ih => simp [emitted, ih]
      rw [hem] at hs
      rcases List.mem_append.1 hs with hs | hs
      · simp only [removal_signals, List.mem_flatMap, List.mem_map] at hs
        obtain ⟨e, _, i, _, rfl⟩ := hs
        rfl
      · simp [emitted] at hs
        subst hs
        rfl

theorem owner_change_refs (proxy : DaemonProxy) (name : String) (prev new : Option String)
    (st : State) :
    ∀ s ∈ emitted (dbus_owner_change proxy name prev new st).2, s.server_ref ≠ none := by
  have hw : ∀ (item : proxy_t) (st : State),
      ∀ s ∈ emitted (owner_lost_working item st).2, s.server_ref ≠ none := by
    intro item st s hs
    unfold owner_lost_working at hs
    split at hs
    · rename_i d _
      rw [emitted_append, find_reads_emitted, List.nil_append] at hs
      rw [destroy_no_modified d st s hs]
      simp
    · simp [find_reads_emitted] at hs
  have hp : ∀ (item : proxy_t) (st : State),
      ∀ s ∈ emitted (owner_lost_possible item st).2, s.server_ref ≠ none := by
    intro item st s hs
    unfold owner_lost_possible at hs
    split at hs
    · rename_i d _
      rw [emitted_append, find_reads_emitted, List.nil_append] at hs
      rw [destroy_no_modified d st s hs]
      simp
    · simp [find_reads_emitted] at hs
  intro s hs
  unfold dbus_owner_change at hs
  simp only [] at hs
  split at hs
  · rw [emitted_append] at hs
    rcases List.mem_append.1 hs with hs | hs
    · exact hw _ _ s hs
    · exact hp _ _ s hs
  · simp [emitted] at hs

theorem step_quiet (p : Ptr) (st : State) (e : Event) (hq : quiet p st)
    (he : e.target ≠ some p) :
    quiet p (step st e).1
    ∧ (∀ s ∈ emitted (step st e).2, s.server_ref ≠ some p)
    ∧ (∀ srv id ty property,
        Signal.INDICATOR_MODIFIED srv id ty property ∈ emitted (step st e).2 →
        ∃ q, q ≠ p ∧ e = Event.IndicatorModified q id property) := by
  have of_ref : ∀ (q : Ptr) (effs : List Effect), q ≠ p →
      (∀ s ∈ emitted effs, s.server_ref = some q) →
      (∀ s ∈ emitted effs, s.server_ref ≠ some p)
      ∧ (∀ srv id ty property,
          Signal.INDICATOR_MODIFIED srv id ty property ∈ emitted effs →
          ∃ q, q ≠ p ∧ e = Event.IndicatorModified q id property) := by
    intro q effs hne hall
    refine ⟨?_, ?_⟩
    · intro s hs hc
      rw [hall s hs] at hc
      exact hne (Option.some.inj hc)
    · intro srv id ty property hs
      have := hall _ hs
      simp [Signal.server_ref] at this
  have of_nil : ∀ (effs : List Effect), emitted effs = [] →
      (∀ s ∈ emitted effs, s.server_ref ≠ some p)
      ∧ (∀ srv id ty property,
          Signal.INDICATOR_MODIFIED srv id ty property ∈ emitted effs →
          ∃ q, q ≠ p ∧ e = Event.IndicatorModified q id property) := by
    intro effs hnil
    rw [hnil]
    simp
  cases e with
  | NameOwnerChanged proxy name prev new =>
    have := owner_change_quiet p proxy name prev new st hq
    refine ⟨this.1, this.2, ?_⟩
    intro srv id ty property hs
    exact absurd rfl (owner_change_refs proxy name prev new st _ hs)
  | ListNames_reply proxy names error =>
    cases error with
    | true => exact ⟨hq, of_nil _ (by simp [step, build_todo_list_cb, emitted])⟩
    | false =>
      refine ⟨?_, of_nil _ (by simp [step, build_todo_list_cb, emitted])⟩
      simp only [step, build_todo_list_cb, Bool.false_eq_true, if_false]
      exact quiet_congr (build_todo_list_heap proxy names st) hq
  | idle created =>
    by_cases hz : st.priv.todo_idle = 0
    · simp only [step, hz, if_true]
      exact ⟨hq, of_nil _ rfl⟩
    · simp only [step, hz, if_false]
      have := todo_idle_quiet p created st hq
      exact ⟨this.1, of_nil _ this.2⟩
  | type_reply q reply =>
    have hne : q ≠ p := fun hc => he (by simp [Event.target, hc])
    cases reply with
    | error => exact ⟨hq, of_nil _ (by simp [step, property_cb, emitted])⟩
    | not_a_string => exact ⟨hq, of_nil _ (by simp [step, property_cb, emitted])⟩
    | string propstr =>
      simp only [step, property_cb, get_type_cb]
      rcases hd : deref st q with _ | x
      · exact ⟨hq, of_nil _ (by simp [emitted])⟩
      · have := server_added_quiet p q (some propstr) st hq hne
        refine ⟨this.1, of_ref q _ hne ?_⟩
        intro s hs
        rw [emitted_append] at hs
        simp only [emitted, List.append_nil] at hs
        exact this.2 s hs
  | ServerShow q type =>
    have hne : q ≠ p := fun hc => he (by simp [Event.target, hc])
    have := server_added_quiet p q (some type) st hq hne
    exact ⟨this.1, of_ref q _ hne this.2⟩
  | GetIndicatorList_reply q indicators error =>
    have hnil : ∀ (l : List Nat) (h : Option DBusGProxy), emitted
        (l.map fun id => Effect.begin_call h (RemoteCall.GetIndicatorProperty id "type")) = [] := by
      intro l h
      induction l with
      | nil => rfl
      | cons a rest ih => simp [emitted, ih]
    cases error with
    | true => exact ⟨hq, of_nil _ (by simp [step, proxy_get_indicator_list, emitted])⟩
    | false =>
      simp only [step, proxy_get_indicator_list, Bool.false_eq_true, if_false]
      rcases hd : deref st q with _ | x
      · exact ⟨hq, of_nil _ (by simp [emitted])⟩
      · exact ⟨hq, of_nil _ (hnil _ _)⟩
  | indicator_type_reply q id type error =>
    have hne : q ≠ p := fun hc => he (by simp [Event.target, hc])
    cases error with
    | true => exact ⟨hq, of_nil _ (by simp [step, proxy_get_indicator_type, emitted])⟩
    | false =>
      have := indicator_added_quiet p q id type st hq hne
      simpa [step, proxy_get_indicator_type] using
        (show _ ∧ _ from ⟨this.1, of_ref q _ hne this.2⟩)
  | IndicatorAdded q id type =>
    have hne : q ≠ p := fun hc => he (by simp [Event.target, hc])
    have := indicator_added_quiet p q id type st hq hne
    exact ⟨this.1, of_ref q _ hne this.2⟩
  | IndicatorRemoved q id type =>
    have hne : q ≠ p := fun hc => he (by simp [Event.target, hc])
    have := indicator_removed_quiet p q id type st hq hne
    exact ⟨this.1, of_ref q _ hne this.2⟩
  | IndicatorModified q id property =>
    have hne : q ≠ p := fun hc => he (by simp [Event.target, hc])
    have := indicator_modified_quiet q id property st
    refine ⟨?_, ?_, ?_⟩
    · simp only [step]
      rw [this.1]
      exact hq
    · intro s hs
      obtain ⟨srv, ty, rfl⟩ := this.2 s hs
      simp [Signal.server_ref]
    · intro srv id1 ty property1 hs
      obtain ⟨srv2, ty2, heq⟩ := this.2 _ hs
      have h1 : id1 = id := (Signal.INDICATOR_MODIFIED.inj heq).2.1
      have h2 : property1 = property := (Signal.INDICATOR_MODIFIED.inj heq).2.2.2
      exact ⟨q, hne, by rw [h1, h2]⟩

theorem run_quiet (p : Ptr) (evs : List Event) :
    ∀ (st : State), quiet p st → (∀ e ∈ evs, e.target ≠ some p) →
      (∀ s ∈ emitted (run st evs).2, s.server_ref ≠ some p)
      ∧ (∀ srv id ty property,
          Signal.INDICATOR_MODIFIED srv id ty property ∈ emitted (run st evs).2 →
          ∃ q, q ≠ p ∧ Event.IndicatorModified q id property ∈ evs) := by
  induction evs with
  | nil => intro st _ _; simp [run, emitted]
  | cons e rest ih =>
    intro st hq hev
    have h1 := step_quiet p st e hq (hev e (List.mem_cons_self _ _))
    have h2 := ih (step st e).1 h1.1 (fun e he => hev e (List.mem_cons_of_mem _ he))
    simp only [run, emitted_append]
    refine ⟨?_, ?_⟩
    · intro s hs
      rcases List.mem_append.1 hs with hs | hs
      · exact h1.2.1 s hs
      · exact h2.1 s hs
    · intro srv id ty property hs
      rcases List.mem_append.1 hs with hs | hs
      · obtain ⟨q, hq1, hq2⟩ := h1.2.2 srv id ty property hs
        exact ⟨q, hq1, by rw [hq2]; exact List.mem_cons_self _ _⟩
      · obtain ⟨q, hq1, hq2⟩ := h2.2 srv id ty property hs
        exact ⟨q, hq1, List.mem_cons_of_mem _ hq2⟩

/-- C7: a candidate peer (index NULL) whose "type" probe fails, by a remote
error, a value that is not a string, or a null type handed to `get_type_cb`:
the failure handler changes nothing and emits nothing. Afterwards, over any
sequence of events of which none is a callback of this peer (name-lost
notifications, also for its own name, included), no signal that carries a peer
reference carries this peer, and every `INDICATOR_MODIFIED` emitted answers an
IndicatorModified event of another peer. -/
theorem failed_probe_silent (st : State) (p : Ptr) (proxyt : proxy_t) (reply : PropertyReply)
    (evs : List Event)
    (h : deref st p = some proxyt) (h0 : proxyt.indicators = none)
    (hr : reply = PropertyReply.error ∨ reply = PropertyReply.not_a_string)
    (hev : ∀ e ∈ evs, e.target ≠ some p) :
    (step st (Event.type_reply p reply)).1 = st
    ∧ emitted (step st (Event.type_reply p reply)).2 = []
    ∧ get_type_cb none p st = (st, [])
    ∧ (∀ s ∈ emitted (run st evs).2, s.server_ref ≠ some p)
    ∧ (∀ srv id ty property,
        Signal.INDICATOR_MODIFIED srv id ty property ∈ emitted (run st evs).2 →
        ∃ q, q ≠ p ∧ Event.IndicatorModified q id property ∈ evs) := by
  have hq : quiet p st := by
    refine ⟨deref_lt h, ?_⟩
    intro x hx
    rw [h] at hx
    cases hx
    exact h0
  have hrun := run_quiet p evs st hq hev
  refine ⟨?_, ?_, rfl, hrun.1, hrun.2⟩
  · rcases hr with hr | hr <;> subst hr <;> rfl
  · rcases hr with hr | hr <;> subst hr <;> rfl

/-- Witness of C7: the probe of the sample candidate fails, another peer is
probed, then the candidate leaves the bus: nothing is emitted. -/
theorem failed_probe_silent_witness :
    deref sample_candidate 0 = some (sample_peer none)
    ∧ emitted (run sample_candidate
        [Event.NameOwnerChanged DaemonProxy.dbus_proxy_session ":1.9" (some "") (some ":1.9"),
         Event.idle true,
         Event.NameOwnerChanged DaemonProxy.dbus_proxy_session ":1.7" (some ":1.7")
           (some "")]).2 = []
    ∧ ∀ s ∈ emitted (run sample_candidate
        [Event.NameOwnerChanged DaemonProxy.dbus_proxy_session ":1.9" (some "") (some ":1.9"),
         Event.idle true,
         Event.NameOwnerChanged DaemonProxy.dbus_proxy_session ":1.7" (some ":1.7")
           (some "")]).2, s.server_ref ≠ some 0 :=
  ⟨by decide, by decide,
    (failed_probe_silent sample_candidate 0 (sample_peer none) PropertyReply.error _
      (by decide) rfl (Or.inl rfl) (by decide)).2.2.2.1⟩

/-! ## The directory invariant -/

/-- C10 as stated fails: after a name-acquired notification and an enumeration
reply for the same name and two drain steps, the candidate set holds two
entries for (session, ":1.7"). -/
theorem directory_invariant_fails :
    (run indicate_listener_init duplicate_probe_trace).1.priv.proxies_possible = [1, 0]
    ∧ peer_key (run indicate_listener_init duplicate_probe_trace).1 0
        = some (DBusGConnection.session_bus, ":1.7")
    ∧ peer_key (run indicate_listener_init duplicate_probe_trace).1 1
        = some (DBusGConnection.session_bus, ":1.7")
    ∧ ¬ directory_invariant (run indicate_listener_init duplicate_probe_trace).1 := by
  refine ⟨by decide, by decide, by decide, ?_⟩
  unfold directory_invariant
  decide

theorem filterMap_inj {α β : Type} (f : α → Option β) (l : List α)
    (h : (l.filterMap f).Nodup) (a b : α) (ha : a ∈ l) (hb : b ∈ l) (k : β)
    (hfa : f a = some k) (hfb : f b = some k) : a = b := by
  induction l with
  | nil => simp at ha
  | cons c rest ih =>
    have hmem : ∀ x ∈ rest, f x = some k → k ∈ rest.filterMap f :=
      fun x hx hfx => List.mem_filterMap.2 ⟨x, hx, hfx⟩
    rcases List.mem_cons.1 ha with h1 | h1 <;> rcases List.mem_cons.1 hb with h2 | h2
    · rw [h1, h2]
    · subst h1
      rw [List.filterMap_cons_some hfa] at h
      exact absurd (hmem b h2 hfb) (List.nodup_cons.1 h).1
    · subst h2
      rw [List.filterMap_cons_some hfb] at h
      exact absurd (hmem a h1 hfa) (List.nodup_cons.1 h).1
    · refine ih ?_ h1 h2
      rcases hc : f c with _ | kc
      · rwa [List.filterMap_cons_none hc] at h
      · rw [List.filterMap_cons_some hc] at h
        exact (List.nodup_cons.1 h).2

theorem nodup_of_filterMap {α β : Type} (f : α → Option β) (l : List α)
    (h : (l.filterMap f).Nodup) (hs : ∀ a ∈ l, ∃ k, f a = some k) : l.Nodup := by
  induction l with
  | nil => simp
  | cons c rest ih =>
    obtain ⟨k, hk⟩ := hs c (List.mem_cons_self _ _)
    rw [List.filterMap_cons_some hk] at h
    refine List.nodup_cons.2 ⟨?_, ih (List.nodup_cons.1 h).2
      (fun a ha => hs a (List.mem_cons_of_mem _ ha))⟩
    intro hc
    exact (List.nodup_cons.1 h).1 (List.mem_filterMap.2 ⟨c, hc, hk⟩)

theorem peer_key_congr {st st1 : State} (h : st1.heap = st.heap) (r : Ptr) :
    peer_key st1 r = peer_key st r := by
  simp [peer_key, deref_heap_congr h]

theorem peer_key_store (st : State) (q : Ptr) (x v : proxy_t) (hd : deref st q = some x)
    (hc : v.connection = x.connection) (hn : v.name = x.name) (r : Ptr) :
    peer_key (store st q v) r = peer_key st r := by
  by_cases hr : q = r
  · subst hr
    simp [peer_key, deref_store_same v (deref_lt hd), hd, hc, hn]
  · simp [peer_key, deref_store_other v hr]

theorem wf_live (st : State) (hw : directory_wf st) :
    ∀ p ∈ st.priv.proxies_possible ++ st.priv.proxies_working, ∃ k, peer_key st p = some k := by
  intro p hp
  rcases List.mem_append.1 hp with h | h
  · obtain ⟨x, hx, _⟩ := hw.2.1 p h
    exact ⟨(x.connection, x.name), by simp [peer_key, hx]⟩
  · obtain ⟨x, t, hx, _⟩ := hw.2.2 p h
    exact ⟨(x.connection, x.name), by simp [peer_key, hx]⟩

theorem wf_directory_nodup (st : State) (hw : directory_wf st) :
    (directory_keys st).Nodup := by
  have := hw.1
  unfold known_keys at this
  exact (List.nodup_append.1 this).2.1

theorem wf_ptr_nodup (st : State) (hw : directory_wf st) :
    (st.priv.proxies_possible ++ st.priv.proxies_working).Nodup :=
  nodup_of_filterMap (peer_key st) _ (wf_directory_nodup st hw) (wf_live st hw)

theorem directory_wf_store (st : State) (q : Ptr) (x v : proxy_t) (hw : directory_wf st)
    (hd : deref st q = some x) (hc : v.connection = x.connection) (hn : v.name = x.name)
    (hi : v.indicators.isSome = x.indicators.isSome) : directory_wf (store st q v) := by
  have hkeys : known_keys (store st q v) = known_keys st := by
    simp only [known_keys, directory_keys, todo_keys, store_priv]
    congr 1
    exact List.filterMap_congr (fun r _ => peer_key_store st q x v hd hc hn r)
  refine ⟨by rw [hkeys]; exact hw.1, ?_, ?_⟩
  · intro p hp
    obtain ⟨y, hy, hyi⟩ := hw.2.1 p hp
    by_cases hpq : q = p
    · subst hpq
      rw [hd] at hy
      cases hy
      refine ⟨v, deref_store_same v (deref_lt hd), ?_⟩
      rw [hyi] at hi
      cases hv : v.indicators with
      | none => rfl
      | some t => simp [hv] at hi
    · exact ⟨y, by rw [deref_store_other v hpq]; exact hy, hyi⟩
  · intro p hp
    obtain ⟨y, t, hy, hyi⟩ := hw.2.2 p hp
    by_cases hpq : q = p
    · subst hpq
      rw [hd] at hy
      cases hy
      rw [hyi] at hi
      cases hv : v.indicators with
      | none => simp [hv] at hi
      | some t1 => exact ⟨v, t1, deref_store_same v (deref_lt hd), hv⟩
    · exact ⟨y, t, by rw [deref_store_other v hpq]; exact hy, hyi⟩

theorem server_added_wf (st : State) (p : Ptr) (type : Option String) (hw : directory_wf st)
    (hp : p ∈ st.priv.proxies_possible ++ st.priv.proxies_working) :
    directory_wf (proxy_server_added type p st).1 := by
  rcases hd : deref st p with _ | x
  · simpa [proxy_server_added, hd] using hw
  · rcases hi : x.indicators with _ | t
    · have hnw : p ∉ st.priv.proxies_working := by
        intro hc
        obtain ⟨y, t, hy, hyi⟩ := hw.2.2 p hc
        rw [hd] at hy
        cases hy
        rw [hi] at hyi
        cases hyi
      have hpp : p ∈ st.priv.proxies_possible := by
        rcases List.mem_append.1 hp with h | h
        · exact h
        · exact absurd h hnw
      have hfind : (g_list_find_custom st st.priv.proxies_possible x).1 = some p := by
        rcases hf : (g_list_find_custom st st.priv.proxies_possible x).1 with _ | q
        · exact absurd ⟨rfl, rfl⟩ (find_none st _ x hf p hpp x hd)
        · obtain ⟨hq, y, hy, hyc, hyn⟩ := find_some st _ x q hf
          have : q = p := by
            refine filterMap_inj (peer_key st) _ (wf_directory_nodup st hw) q p
              (List.mem_append_left _ hq) hp (x.connection, x.name) ?_ ?_
            · simp [peer_key, hy, hyc, hyn]
            · simp [peer_key, hd]
          rw [this]
      have hnd := wf_ptr_nodup st hw
      have hndp : st.priv.proxies_possible.Nodup := (List.nodup_append.1 hnd).1
      simp only [proxy_server_added, hd, hi, hfind, g_list_remove]
      have hkey : ∀ (st1 : State) (v : proxy_t), st1.heap = st.heap →
          v.connection = x.connection → v.name = x.name →
          ∀ r, peer_key (store st1 p v) r = peer_key st r := by
        intro st1 v hh hc hn r
        rw [peer_key_store st1 p x v (by rw [deref_heap_congr hh]; exact hd) hc hn]
        exact peer_key_congr hh r
      refine ⟨?_, ?_, ?_⟩
      · simp only [known_keys, directory_keys, todo_keys, store_priv]
        have hperm : (st.priv.proxies_possible.erase p ++ p :: st.priv.proxies_working).Perm
            (st.priv.proxies_possible ++ st.priv.proxies_working) := by
          refine List.Perm.trans List.perm_middle ?_
          rw [← List.cons_append]
          exact List.Perm.append_right _ (List.perm_cons_erase hpp).symm
        have := hw.1
        simp only [known_keys, directory_keys, todo_keys] at this
        refine (List.Perm.nodup_iff (List.Perm.append_left _ ?_)).2 this
        refine List.Perm.trans (List.Perm.of_eq (List.filterMap_congr ?_)) (hperm.filterMap _)
        intro r _
        apply hkey <;> rfl
      · intro r hr
        simp only [store_priv] at hr
        have hr1 : r ∈ st.priv.proxies_possible := List.mem_of_mem_erase hr
        have hne : p ≠ r := by
          intro hc
          subst hc
          exact (List.Nodup.mem_erase_iff hndp).1 hr |>.1 rfl
        obtain ⟨y, hy, hyi⟩ := hw.2.1 r hr1
        refine ⟨y, ?_, hyi⟩
        rw [deref_store_other _ hne, deref_heap_congr rfl]
        exact hy
      · intro r hr
        simp only [store_priv] at hr
        rcases List.mem_cons.1 hr with h1 | h1
        · subst h1
          exact ⟨_, [], deref_store_same _ (by simpa using deref_lt hd), rfl⟩
        · have hne : p ≠ r := by
            intro hc
            subst hc
            exact hnw h1
          obtain ⟨y, t, hy, hyi⟩ := hw.2.2 r h1
          refine ⟨y, t, ?_, hyi⟩
          rw [deref_store_other _ hne, deref_heap_congr rfl]
          exact hy
    · simpa [proxy_server_added, hd, hi] using hw

theorem indicator_added_wf (st : State) (p : Ptr) (id : Nat) (type : String)
    (hw : directory_wf st)
    (hp : p ∈ st.priv.proxies_possible ++ st.priv.proxies_working) :
    directory_wf (proxy_indicator_added id type p st).1 := by
  have confirmed : ∀ (st : State) (x : proxy_t) (t : IndicatorTable), directory_wf st →
      deref st p = some x → x.indicators = some t →
      directory_wf (proxy_indicator_added id type p st).1 := by
    intro st x t hw hd hi
    obtain ⟨t1, h1, _, _, _, _⟩ := added_confirmed st p x t id type hd hi
    rw [h1]
    exact directory_wf_store st p x _ hw hd rfl rfl (by simp [hi])
  rcases hd : deref st p with _ | x
  · simpa [proxy_indicator_added, hd] using hw
  · rcases hi : x.indicators with _ | t
    · obtain ⟨v, ty, hv, hvi, _, _⟩ := server_added_candidate st p x none hd hi
      rw [indicator_added_candidate st p x id type hd hi]
      exact confirmed _ v [] (server_added_wf st p none hw hp) hv hvi
    · exact confirmed st x t hw hd hi

theorem indicator_removed_wf (st : State) (p : Ptr) (id : Nat) (type : String)
    (hw : directory_wf st) : directory_wf (proxy_indicator_removed id type p st).1 := by
  rcases hd : deref st p with _ | x
  · simpa [proxy_indicator_removed, hd] using hw
  · rcases hi : x.indicators with _ | t
    · simpa [proxy_indicator_removed, hd, hi] using hw
    · rcases hl : g_hash_table_lookup t type with _ | ids
      · simpa [proxy_indicator_removed, hd, hi, hl] using hw
      · by_cases hm : id_lookup ids id = true
        · simp only [proxy_indicator_removed, hd, hi, hl, hm]
          exact directory_wf_store st p x _ hw hd rfl rfl (by simp [hi])
        · simpa [proxy_indicator_removed, hd, hi, hl, hm] using hw

theorem todo_list_add_eq (st : State) (name : String) (proxy : DaemonProxy) (startup : Bool) :
    todo_list_add (some name) proxy startup st
      = if is_peer_name name = true then
          { st with priv := { st.priv with
              proxy_todo := st.priv.proxy_todo
                ++ [{ bus := bus_of proxy, name := name, startup := startup }],
              todo_idle := if st.priv.todo_idle = 0 then g_idle_add else st.priv.todo_idle } }
        else st := by
  unfold todo_list_add is_peer_name
  by_cases h : name.data.head? = some ':'
  · by_cases hz : st.priv.todo_idle = 0
    · simp [h, hz]
    · simp [h, hz]
  · simp [h]

theorem todo_list_add_keys (st : State) (name : String) (proxy : DaemonProxy) (startup : Bool)
    (k : DBusGConnection × String) :
    k ∈ known_keys (todo_list_add (some name) proxy startup st)
      ↔ k ∈ known_keys st ∨ (is_peer_name name = true ∧ k = (bus_of proxy, name)) := by
  rw [todo_list_add_eq]
  by_cases h : is_peer_name name = true
  · simp only [h, if_true, known_keys, todo_keys, directory_keys, peer_key, deref]
    simp only [List.map_append, List.mem_append, List.map_cons, List.map_nil,
      List.mem_singleton, true_and]
    tauto
  · simp [h]

theorem todo_list_add_wf (st : State) (name : String) (proxy : DaemonProxy) (startup : Bool)
    (hw : directory_wf st)
    (hf : is_peer_name name = true → (bus_of proxy, name) ∉ known_keys st) :
    directory_wf (todo_list_add (some name) proxy startup st) := by
  rw [todo_list_add_eq]
  by_cases h : is_peer_name name = true
  · simp only [h, if_true]
    refine ⟨?_, hw.2.1, hw.2.2⟩
    have hn := hw.1
    have hfresh := hf h
    simp only [known_keys, todo_keys, directory_keys, peer_key, deref] at hn hfresh ⊢
    simp only [List.map_append, List.map_cons, List.map_nil]
    have hperm : (List.map (fun t : proxy_todo_t => (t.bus, t.name)) st.priv.proxy_todo
          ++ [(bus_of proxy, name)]
          ++ List.filterMap (fun p => Option.map (fun x : proxy_t => (x.connection, x.name))
                st.heap[p]?.join) (st.priv.proxies_possible ++ st.priv.proxies_working)).Perm
        ((bus_of proxy, name)
          :: (List.map (fun t : proxy_todo_t => (t.bus, t.name)) st.priv.proxy_todo
          ++ List.filterMap (fun p => Option.map (fun x : proxy_t => (x.connection, x.name))
                st.heap[p]?.join) (st.priv.proxies_possible ++ st.priv.proxies_working))) := by
      rw [List.append_assoc]
      exact List.perm_middle
    exact (hperm.nodup_iff).2 (List.nodup_cons.2 ⟨hfresh, hn⟩)
  · simpa [h] using hw

theorem build_todo_list_wf (proxy : DaemonProxy) (names : List String) :
    ∀ st : State, directory_wf st → (names.filter is_peer_name).Nodup →
      (∀ n ∈ names, is_peer_name n = true → (bus_of proxy, n) ∉ known_keys st) →
      directory_wf (names.foldl (fun acc n => todo_list_add (some n) proxy true acc) st) := by
  induction names with
  | nil => intro st hw _ _; exact hw
  | cons n rest ih =>
    intro st hw hnd hf
    simp only [List.foldl_cons]
    have hw1 := todo_list_add_wf st n proxy true hw (hf n (List.mem_cons_self _ _))
    refine ih _ hw1 ?_ ?_
    · by_cases hn : is_peer_name n = true
      · rw [List.filter_cons_of_pos hn] at hnd
        exact (List.nodup_cons.1 hnd).2
      · rw [List.filter_cons_of_neg hn] at hnd
        exact hnd
    · intro m hm hpm hc
      rcases (todo_list_add_keys st n proxy true _).1 hc with h1 | ⟨hn, h2⟩
      · exact hf m (List.mem_cons_of_mem _ hm) hpm h1
      · have hmn : m = n := by simpa using congrArg Prod.snd h2
        subst hmn
        rw [List.filter_cons_of_pos hn] at hnd
        exact (List.nodup_cons.1 hnd).1 (List.mem_filter.2 ⟨hm, hpm⟩)

theorem deref_append (heap l : List (Option proxy_t)) (priv priv1 : IndicateListenerPrivate)
    (p : Ptr) (h : p < heap.length) :
    deref { priv := priv1, heap := heap ++ l } p = deref { priv := priv, heap := heap } p := by
  simp [deref, List.getElem?_append_left h]

theorem wf_lt (st : State) (hw : directory_wf st) :
    ∀ p ∈ st.priv.proxies_possible ++ st.priv.proxies_working, p < st.heap.length := by
  intro p hp
  rcases List.mem_append.1 hp with h | h
  · obtain ⟨x, hx, _⟩ := hw.2.1 p h
    exact deref_lt hx
  · obtain ⟨x, t, hx, _⟩ := hw.2.2 p h
    exact deref_lt hx

theorem free_wf (st : State) (d : Ptr) (P W : List Ptr) (hw : directory_wf st)
    (hP : P.Sublist st.priv.proxies_possible) (hW : W.Sublist st.priv.proxies_working)
    (hdP : d ∉ P) (hdW : d ∉ W) :
    directory_wf { priv := { st.priv with proxies_possible := P, proxies_working := W },
                   heap := st.heap.set d none } := by
  have hderef : ∀ p, p ≠ d →
      deref { priv := { st.priv with proxies_possible := P, proxies_working := W },
              heap := st.heap.set d none } p = deref st p := by
    intro p hp
    simp [deref, List.getElem?_set_ne (Ne.symm hp)]
  refine ⟨?_, ?_, ?_⟩
  · have hn := hw.1
    simp only [known_keys, todo_keys, directory_keys] at hn ⊢
    refine List.Nodup.sublist ?_ hn
    refine List.Sublist.append (List.Sublist.refl _) ?_
    have hcongr : List.filterMap (peer_key
          { priv := { st.priv with proxies_possible := P, proxies_working := W },
            heap := st.heap.set d none }) (P ++ W)
        = List.filterMap (peer_key st) (P ++ W) := by
      apply List.filterMap_congr
      intro r hr
      have hne : r ≠ d := by
        intro hc
        subst hc
        rcases List.mem_append.1 hr with h | h
        · exact hdP h
        · exact hdW h
      simp only [peer_key]
      rw [hderef r hne]
    rw [hcongr]
    exact (List.Sublist.append hP hW).filterMap _
  · intro p hp
    have hne : p ≠ d := fun hc => hdP (hc ▸ hp)
    obtain ⟨x, hx, hxi⟩ := hw.2.1 p (hP.subset hp)
    exact ⟨x, by rw [hderef p hne]; exact hx, hxi⟩
  · intro p hp
    have hne : p ≠ d := fun hc => hdW (hc ▸ hp)
    obtain ⟨x, t, hx, hxi⟩ := hw.2.2 p (hW.subset hp)
    exact ⟨x, t, by rw [hderef p hne]; exact hx, hxi⟩

theorem owner_lost_working_wf (item : proxy_t) (st : State) (hw : directory_wf st) :
    directory_wf (owner_lost_working item st).1 := by
  unfold owner_lost_working
  rcases hf : (g_list_find_custom st st.priv.proxies_working item).1 with _ | d
  · exact hw
  · obtain ⟨hd, x, hx, _, _⟩ := find_some st _ item d hf
    have hnd := wf_ptr_nodup st hw
    simp only [proxy_struct_destroy, hx, g_free, g_list_remove]
    refine free_wf st d _ _ hw (List.Sublist.refl _) (List.erase_sublist _ _) ?_ ?_
    · intro hc
      exact (List.nodup_append.1 hnd).2.2 hc hd
    · intro hc
      exact ((List.Nodup.mem_erase_iff (List.nodup_append.1 hnd).2.1).1 hc).1 rfl

theorem owner_lost_possible_wf (item : proxy_t) (st : State) (hw : directory_wf st) :
    directory_wf (owner_lost_possible item st).1 := by
  unfold owner_lost_possible
  rcases hf : (g_list_find_custom st st.priv.proxies_possible item).1 with _ | d
  · exact hw
  · obtain ⟨hd, x, hx, _, _⟩ := find_some st _ item d hf
    have hnd := wf_ptr_nodup st hw
    simp only [proxy_struct_destroy, hx, g_free, g_list_remove]
    refine free_wf st d _ _ hw (List.erase_sublist _ _) (List.Sublist.refl _) ?_ ?_
    · intro hc
      exact ((List.Nodup.mem_erase_iff (List.nodup_append.1 hnd).1).1 hc).1 rfl
    · intro hc
      exact (List.nodup_append.1 hnd).2.2 hd hc

theorem owner_change_wf (proxy : DaemonProxy) (name : String) (prev new : Option String)
    (st : State) (hw : directory_wf st)
    (ha : admissible st (Event.NameOwnerChanged proxy name prev new) = true) :
    directory_wf (dbus_owner_change proxy name prev new st).1 := by
  have h1 : directory_wf
      (if prev = some "" then todo_list_add (some name) proxy false st else st) := by
    split
    · rename_i hprev
      refine todo_list_add_wf st name proxy false hw ?_
      intro hpn
      simpa [admissible, hprev, hpn] using ha
    · exact hw
  unfold dbus_owner_change
  simp only []
  split
  · exact owner_lost_possible_wf _ _ (owner_lost_working_wf _ _ h1)
  · exact h1

theorem get_server_property_wf (server : Ptr) (property_name : String) (st : State)
    (hw : directory_wf st) : directory_wf (get_server_property server property_name st).1 := by
  unfold get_server_property
  rcases hd : deref st server with _ | owner
  · exact hw
  · simp only []
    split
    · exact hw
    · rename_i q _
      rcases hdq : deref st q with _ | x
      · exact hw
      · exact directory_wf_store st q x _ hw hdq rfl rfl rfl

theorem todo_idle_wf (created : Bool) (st : State) (hw : directory_wf st) :
    directory_wf (todo_idle created st).2.1 := by
  rcases hq : st.priv.proxy_todo.getLast? with _ | todo
  · simp only [todo_idle, hq]
    exact hw
  · have hsplit : st.priv.proxy_todo.dropLast ++ [todo] = st.priv.proxy_todo :=
      List.dropLast_append_getLast? todo (by simp [hq])
    have hlt := wf_lt st hw
    have hn := hw.1
    simp only [known_keys, todo_keys, directory_keys] at hn
    rw [← hsplit, List.map_append] at hn
    have hcongr : ∀ (priv1 : IndicateListenerPrivate) (v : proxy_t),
        List.filterMap (peer_key { priv := priv1, heap := st.heap ++ [some v] })
            (st.priv.proxies_possible ++ st.priv.proxies_working)
          = List.filterMap (peer_key st)
            (st.priv.proxies_possible ++ st.priv.proxies_working) := by
      intro priv1 v
      apply List.filterMap_congr
      intro r hr
      simp only [peer_key]
      rw [deref_append st.heap [some v] st.priv priv1 r (hlt r hr)]
    have hlive : ∀ (priv1 : IndicateListenerPrivate) (v : proxy_t),
        (∀ p ∈ st.priv.proxies_possible, ∃ x,
            deref { priv := priv1, heap := st.heap ++ [some v] } p = some x
            ∧ x.indicators = none)
        ∧ (∀ p ∈ st.priv.proxies_working, ∃ x t,
            deref { priv := priv1, heap := st.heap ++ [some v] } p = some x
            ∧ x.indicators = some t) := by
      intro priv1 v
      refine ⟨?_, ?_⟩
      · intro p hp
        obtain ⟨x, hx, hxi⟩ := hw.2.1 p hp
        refine ⟨x, ?_, hxi⟩
        rw [deref_append st.heap [some v] st.priv priv1 p (hlt p (List.mem_append_left _ hp))]
        exact hx
      · intro p hp
        obtain ⟨x, t, hx, hxi⟩ := hw.2.2 p hp
        refine ⟨x, t, ?_, hxi⟩
        rw [deref_append st.heap [some v] st.priv priv1 p (hlt p (List.mem_append_right _ hp))]
        exact hx
    cases created with
    | false =>
      simp only [todo_idle, hq, g_new, Bool.false_eq_true, if_false]
      refine ⟨?_, (hlive _ _).1, (hlive _ _).2⟩
      simp only [known_keys, todo_keys, directory_keys]
      rw [hcongr]
      refine List.Nodup.sublist ?_ hn
      exact List.Sublist.append (List.sublist_append_left _ _) (List.Sublist.refl _)
    | true =>
      simp only [todo_idle, hq, g_new, if_true, indicate_listener_server_get_type]
      apply get_server_property_wf
      have hda : ∀ (priv1 : IndicateListenerPrivate) (v : proxy_t),
          deref { priv := priv1, heap := st.heap ++ [some v] } st.heap.length = some v := by
        intro priv1 v
        simp [deref]
      refine ⟨?_, ?_, (hlive _ _).2⟩
      · simp only [known_keys, todo_keys, directory_keys, List.cons_append]
        rw [List.filterMap_cons_some (by simp only [peer_key, hda]; rfl), hcongr]
        simpa [List.append_assoc] using hn
      · intro p hp
        rcases List.mem_cons.1 hp with h1 | h1
        · subst h1
          exact ⟨_, hda _ _, rfl⟩
        · exact (hlive _ _).1 p h1

theorem step_wf (st : State) (e : Event) (hw : directory_wf st)
    (ha : admissible st e = true) : directory_wf (step st e).1 := by
  cases e with
  | NameOwnerChanged proxy name prev new => exact owner_change_wf proxy name prev new st hw ha
  | ListNames_reply proxy names error =>
    cases error with
    | true => exact hw
    | false =>
      simp only [admissible, Bool.false_or, Bool.and_eq_true, decide_eq_true_eq,
        List.all_eq_true, Bool.or_eq_true, Bool.not_eq_true'] at ha
      simp only [step, build_todo_list_cb, Bool.false_eq_true, if_false]
      refine build_todo_list_wf proxy names st hw ha.1 ?_
      intro n hn hpn
      rcases ha.2 n hn with h | h
      · rw [hpn] at h
        cases h
      · exact h
  | idle created =>
    by_cases hz : st.priv.todo_idle = 0
    · simpa [step, hz] using hw
    · simp only [step, hz, if_false]
      exact todo_idle_wf created st hw
  | type_reply q reply =>
    have hq : q ∈ st.priv.proxies_possible ++ st.priv.proxies_working := by
      simpa [admissible] using ha
    cases reply with
    | error => exact hw
    | not_a_string => exact hw
    | string propstr =>
      simp only [step, property_cb, get_type_cb]
      rcases hd : deref st q with _ | x
      · exact hw
      · exact server_added_wf st q (some propstr) hw hq
  | ServerShow q type =>
    have hq : q ∈ st.priv.proxies_possible ++ st.priv.proxies_working := by
      simpa [admissible] using ha
    exact server_added_wf st q (some type) hw hq
  | GetIndicatorList_reply q indicators error =>
    cases error with
    | true => exact hw
    | false =>
      simp only [step, proxy_get_indicator_list, Bool.false_eq_true, if_false]
      rcases hd : deref st q with _ | x
      · exact hw
      · exact hw
  | indicator_type_reply q id type error =>
    have hq : q ∈ st.priv.proxies_possible ++ st.priv.proxies_working := by
      simpa [admissible] using ha
    cases error with
    | true => exact hw
    | false =>
      simp only [step, proxy_get_indicator_type, Bool.false_eq_true, if_false]
      exact indicator_added_wf st q id type hw hq
  | IndicatorAdded q id type =>
    have hq : q ∈ st.priv.proxies_possible ++ st.priv.proxies_working := by
      simpa [admissible] using ha
    exact indicator_added_wf st q id type hw hq
  | IndicatorRemoved q id type => exact indicator_removed_wf st q id type hw
  | IndicatorModified q id property =>
    simp only [step]
    rw [(indicator_modified_quiet q id property st).1]
    exact hw

theorem run_wf (evs : List Event) :
    ∀ st : State, directory_wf st → admissible_run st evs = true →
      directory_wf (run st evs).1 := by
  induction evs with
  | nil => intro st hw _; exact hw
  | cons e rest ih =>
    intro st hw ha
    simp only [admissible_run, Bool.and_eq_true] at ha
    exact ih _ (step_wf st e hw ha.1) ha.2

/-- C10, amended: in every state reached from the initial state by deliveries
without a duplicate submission (each name-acquired notification or
enumeration entry that passes the name filter names a (scope, name) that is
neither queued for probing nor tracked, and peer callbacks reach only entries
of the two peer sets), every (scope, name) has at most one entry in the union
of `proxies_possible` and `proxies_working`; no entry appears twice in or
across the two lists, candidate entries are live cells without index and
confirmed entries are live cells with an index. -/
theorem directory_invariant_of_admissible (evs : List Event)
    (h : admissible_run indicate_listener_init evs = true) :
    directory_invariant (run indicate_listener_init evs).1
    ∧ ((run indicate_listener_init evs).1.priv.proxies_possible
        ++ (run indicate_listener_init evs).1.priv.proxies_working).Nodup
    ∧ directory_wf (run indicate_listener_init evs).1 := by
  have hw0 : directory_wf indicate_listener_init := by
    refine ⟨?_, ?_, ?_⟩
    · simp [known_keys, todo_keys, directory_keys, indicate_listener_init]
    · intro p hp
      simp [indicate_listener_init] at hp
    · intro p hp
      simp [indicate_listener_init] at hp
  have hw := run_wf evs indicate_listener_init hw0 h
  exact ⟨wf_directory_nodup _ hw, wf_ptr_nodup _ hw, hw⟩

/-- Witness of C10 amended: two peers join and are probed, one is confirmed and
gets an indicator, then leaves and joins again. -/
theorem directory_invariant_of_admissible_witness :
    admissible_run indicate_listener_init
        [Event.ListNames_reply DaemonProxy.dbus_proxy_session
           ["org.freedesktop.DBus", ":1.7"] false,
         Event.NameOwnerChanged DaemonProxy.dbus_proxy_session ":1.9" (some "") (some ":1.9"),
         Event.idle true, Event.idle true,
         Event.type_reply 1 (PropertyReply.string "im"),
         Event.IndicatorAdded 1 5 "message",
         Event.NameOwnerChanged DaemonProxy.dbus_proxy_session ":1.7" (some ":1.7") (some ""),
         Event.NameOwnerChanged DaemonProxy.dbus_proxy_session ":1.7" (some "") (some ":1.7"),
         Event.idle true] = true
    ∧ directory_invariant (run indicate_listener_init
        [Event.ListNames_reply DaemonProxy.dbus_proxy_session
           ["org.freedesktop.DBus", ":1.7"] false,
         Event.NameOwnerChanged DaemonProxy.dbus_proxy_session ":1.9" (some "") (some ":1.9"),
         Event.idle true, Event.idle true,
         Event.type_reply 1 (PropertyReply.string "im"),
         Event.IndicatorAdded 1 5 "message",
         Event.NameOwnerChanged DaemonProxy.dbus_proxy_session ":1.7" (some ":1.7") (some ""),
         Event.NameOwnerChanged DaemonProxy.dbus_proxy_session ":1.7" (some "") (some ":1.7"),
         Event.idle true]).1 :=
  ⟨by decide, (directory_invariant_of_admissible _ (by decide)).1⟩

/-! ## The probe queue -/

theorem get_server_property_priv (server : Ptr) (property_name : String) (st : State) :
    (get_server_property server property_name st).1.priv = st.priv := by
  unfold get_server_property
  rcases hd : deref st server with _ | owner
  · rfl
  · simp only []
    split
    · rfl
    · rename_i q _
      rcases hdq : deref st q with _ | x
      · rfl
      · rfl

theorem todo_idle_pop (created : Bool) (st : State) (rest : List proxy_todo_t)
    (todo : proxy_todo_t) (h : st.priv.proxy_todo = rest ++ [todo]) :
    (todo_idle created st).1 = true
    ∧ (todo_idle created st).2.1.priv.proxy_todo = rest
    ∧ (todo_idle created st).2.1.priv.todo_idle = st.priv.todo_idle
    ∧ (todo_idle created st).2.1.priv.proxies_working = st.priv.proxies_working
    ∧ (todo_idle created st).2.1.priv.proxies_possible
        = (if created then st.heap.length :: st.priv.proxies_possible
           else st.priv.proxies_possible) := by
  have hq : st.priv.proxy_todo.getLast? = some todo := by simp [h]
  have hdrop : st.priv.proxy_todo.dropLast = rest := by simp [h]
  cases created with
  | false => simp [todo_idle, hq, g_new, hdrop]
  | true =>
    simp only [todo_idle, hq, g_new, if_true, indicate_listener_server_get_type,
      get_server_property_priv, hdrop]
    simp

theorem todo_idle_empty (created : Bool) (st : State) (h : st.priv.proxy_todo = []) :
    todo_idle created st = (false, { st with priv := { st.priv with todo_idle := 0 } }, []) := by
  simp [todo_idle, h]

/-- C15: `todo_list_add` returns the state as it is (probe queue, idle source
id, both peer lists, heap) for a null name, for the empty name and for every
name whose first character is not ':'. For a name that begins with ':' it
appends exactly one task with that name, the bus of the notifying daemon proxy
and the startup flag at the end of the queue, installs the idle source when
none was installed and keeps the installed one otherwise, and touches nothing
else. A name-acquired notification submits the name with startup false, an
enumeration entry with startup true. -/
theorem name_filter (st : State) (proxy : DaemonProxy) (startup : Bool) :
    todo_list_add none proxy startup st = st
    ∧ todo_list_add (some "") proxy startup st = st
    ∧ (∀ name : String, name.data.head? ≠ some ':' →
        todo_list_add (some name) proxy startup st = st)
    ∧ (∀ name : String, name.data.head? = some ':' →
        (todo_list_add (some name) proxy startup st).priv.proxy_todo
            = st.priv.proxy_todo ++ [{ bus := bus_of proxy, name := name, startup := startup }]
        ∧ (todo_list_add (some name) proxy startup st).priv.todo_idle ≠ 0
        ∧ (st.priv.todo_idle = 0 →
            (todo_list_add (some name) proxy startup st).priv.todo_idle = g_idle_add)
        ∧ (st.priv.todo_idle ≠ 0 →
            (todo_list_add (some name) proxy startup st).priv.todo_idle = st.priv.todo_idle)
        ∧ (todo_list_add (some name) proxy startup st).priv.proxies_possible
            = st.priv.proxies_possible
        ∧ (todo_list_add (some name) proxy startup st).priv.proxies_working
            = st.priv.proxies_working
        ∧ (todo_list_add (some name) proxy startup st).heap = st.heap)
    ∧ (∀ name owner : String, owner ≠ "" →
        dbus_owner_change proxy name (some "") (some owner) st
          = (todo_list_add (some name) proxy false st, []))
    ∧ (∀ name : String,
        build_todo_list_cb proxy [name] false st
          = (todo_list_add (some name) proxy true st, [])) := by
  refine ⟨rfl, ?_, ?_, ?_, ?_, ?_⟩
  · simp [todo_list_add]
  · intro name hn
    simp [todo_list_add, hn]
  · intro name hn
    by_cases hz : st.priv.todo_idle = 0
    · simp [todo_list_add, hn, hz, g_idle_add]
    · simp [todo_list_add, hn, hz]
  · intro name owner ho
    simp [dbus_owner_change, ho]
  · intro name
    simp [build_todo_list_cb]

/-- Witness of C15: ":1.7" is queued from the initial state, the well-known
name "org.freedesktop.DBus" is ignored. -/
theorem name_filter_witness :
    (":1.7" : String).data.head? = some ':'
    ∧ (todo_list_add (some ":1.7") DaemonProxy.dbus_proxy_system true
          indicate_listener_init).priv.proxy_todo
        = [{ bus := DBusGConnection.system_bus, name := ":1.7", startup := true }]
    ∧ todo_list_add (some "org.freedesktop.DBus") DaemonProxy.dbus_proxy_system true
          indicate_listener_init = indicate_listener_init :=
  ⟨by decide,
    ((name_filter indicate_listener_init DaemonProxy.dbus_proxy_system true).2.2.2.1
      ":1.7" (by decide)).1,
    (name_filter indicate_listener_init DaemonProxy.dbus_proxy_system true).2.2.1
      "org.freedesktop.DBus" (by decide)⟩

/-- C17: one call of `todo_idle`. On a queue that ends with the task `todo` it
returns `true` (the source stays installed), removes that last task and leaves
the tasks before it in their order, leaves the idle source id alone, and
creates one peer record for the task at the next address. When the remote
handle was created the record joins the candidate list and the effects are
the ServerShow connection and exactly one remote call, the "type" property
read of that peer; when it was not, the only effect is a diagnostic and no
call is made. On an empty queue it returns `false` and changes nothing but
the idle source id, which becomes 0. -/
theorem drain_step (created : Bool) (st : State) :
    (∀ (rest : List proxy_todo_t) (todo : proxy_todo_t),
        st.priv.proxy_todo = rest ++ [todo] →
        (todo_idle created st).1 = true
        ∧ (todo_idle created st).2.1.priv.proxy_todo = rest
        ∧ (todo_idle created st).2.1.priv.todo_idle = st.priv.todo_idle
        ∧ (todo_idle created st).2.1.priv.proxies_working = st.priv.proxies_working
        ∧ (todo_idle created st).2.1.priv.proxies_possible
            = (if created then st.heap.length :: st.priv.proxies_possible
               else st.priv.proxies_possible)
        ∧ (∃ x, deref (todo_idle created st).2.1 st.heap.length = some x
            ∧ x.name = todo.name ∧ x.connection = todo.bus ∧ x.indicators = none)
        ∧ (todo_idle created st).2.2
            = (if created then
                [Effect.connect_signal
                   (some { connection := todo.bus, name := todo.name,
                           path := "/org/freedesktop/indicate",
                           iface := "org.freedesktop.indicator" }) "ServerShow",
                 Effect.begin_call
                   (some { connection := todo.bus, name := todo.name,
                           path := "/org/freedesktop/indicate",
                           iface := "org.freedesktop.DBus.Properties" })
                   (RemoteCall.Get "org.freedesktop.indicator" "type")]
               else [Effect.g_warning "Unable to create proxy for %s"]))
    ∧ (st.priv.proxy_todo = [] →
        todo_idle created st
          = (false, { st with priv := { st.priv with todo_idle := 0 } }, [])) := by
  refine ⟨?_, todo_idle_empty created st⟩
  intro rest todo h
  have hp := todo_idle_pop created st rest todo h
  refine ⟨hp.1, hp.2.1, hp.2.2.1, hp.2.2.2.1, hp.2.2.2.2, ?_, ?_⟩
  · have hq : st.priv.proxy_todo.getLast? = some todo := by simp [h]
    cases created with
    | false => simp [todo_idle, hq, g_new, deref]
    | true =>
      simp [todo_idle, hq, g_new, deref, indicate_listener_server_get_type,
        get_server_property, g_list_find_custom, proxy_t_equal, searchitem, g_strcmp0, store]
  · have hq : st.priv.proxy_todo.getLast? = some todo := by simp [h]
    cases created with
    | false => simp [todo_idle, hq, g_new]
    | true =>
      simp [todo_idle, hq, g_new, deref, indicate_listener_server_get_type,
        get_server_property, g_list_find_custom, proxy_t_equal, searchitem, g_strcmp0, store]

/-- Witness of C17: a queue of two tasks; the step takes the last one. -/
theorem drain_step_witness :
    (todo_list_add (some ":1.9") DaemonProxy.dbus_proxy_session false
        (todo_list_add (some ":1.7") DaemonProxy.dbus_proxy_session true
          indicate_listener_init)).priv.proxy_todo
      = [{ bus := DBusGConnection.session_bus, name := ":1.7", startup := true }]
        ++ [{ bus := DBusGConnection.session_bus, name := ":1.9", startup := false }]
    ∧ (todo_idle true (todo_list_add (some ":1.9") DaemonProxy.dbus_proxy_session false
        (todo_list_add (some ":1.7") DaemonProxy.dbus_proxy_session true
          indicate_listener_init))).2.1.priv.proxy_todo
      = [{ bus := DBusGConnection.session_bus, name := ":1.7", startup := true }] :=
  ⟨by decide,
    ((drain_step true (todo_list_add (some ":1.9") DaemonProxy.dbus_proxy_session false
        (todo_list_add (some ":1.7") DaemonProxy.dbus_proxy_session true
          indicate_listener_init))).1
      [{ bus := DBusGConnection.session_bus, name := ":1.7", startup := true }]
      { bus := DBusGConnection.session_bus, name := ":1.9", startup := false }
      (by decide)).2.1⟩

theorem drain_spec (n : Nat) :
    ∀ (st : State) (created : Nat → Bool) (fuel : Nat),
      st.priv.proxy_todo.length = n →
      (n + 1 ≤ fuel →
        ∃ st1, drain fuel created st = some (n + 1, st1)
          ∧ st1.priv.proxy_todo = [] ∧ st1.priv.todo_idle = 0)
      ∧ (fuel ≤ n → drain fuel created st = none) := by
  induction n with
  | zero =>
    intro st created fuel hlen
    have hnil : st.priv.proxy_todo = [] := List.length_eq_zero.1 hlen
    refine ⟨?_, ?_⟩
    · intro hf
      obtain ⟨k, rfl⟩ : ∃ k, fuel = k + 1 := ⟨fuel - 1, by omega⟩
      refine ⟨{ st with priv := { st.priv with todo_idle := 0 } }, ?_, hnil, rfl⟩
      simp [drain, todo_idle_empty _ st hnil]
    · intro hf
      have : fuel = 0 := by omega
      subst this
      rfl
  | succ m ih =>
    intro st created fuel hlen
    have hne : st.priv.proxy_todo ≠ [] := by
      intro hc
      rw [hc] at hlen
      simp at hlen
    obtain ⟨rest, todo, hsplit⟩ : ∃ rest todo, st.priv.proxy_todo = rest ++ [todo] := by
      rcases List.eq_nil_or_concat st.priv.proxy_todo with h | ⟨L, b, h⟩
      · exact absurd h hne
      · exact ⟨L, b, by simpa using h⟩
    have hrest : rest.length = m := by
      rw [hsplit] at hlen
      simpa using hlen
    refine ⟨?_, ?_⟩
    · intro hf
      obtain ⟨k, rfl⟩ : ∃ k, fuel = k + 1 := ⟨fuel - 1, by omega⟩
      have hp := todo_idle_pop (created 0) st rest todo hsplit
      obtain ⟨st1, h1, h2, h3⟩ :=
        (ih (todo_idle (created 0) st).2.1 (fun k => created (k + 1)) k
          (by rw [hp.2.1]; exact hrest)).1 (by omega)
      exact ⟨st1, by simp [drain, hp.1, h1], h2, h3⟩
    · intro hf
      cases fuel with
      | zero => rfl
      | succ k =>
        have hp := todo_idle_pop (created 0) st rest todo hsplit
        have := (ih (todo_idle (created 0) st).2.1 (fun k => created (k + 1)) k
          (by rw [hp.2.1]; exact hrest)).2 (by omega)
        simp [drain, hp.1, this]

/-- C20: on a probe queue of n tasks to which nothing is added, the idle
source runs `todo_idle` exactly n + 1 times (n calls that take a task, one
call that finds the queue empty and returns `false`): any fuel of at least
n + 1 calls gives this result and no smaller fuel gives one. The queue is then
empty and the idle source id is 0, so that the next `todo_list_add` of a name
beginning with ':' installs the idle source again. -/
theorem drain_terminates (st : State) (created : Nat → Bool) (fuel : Nat)
    (proxy : DaemonProxy) (name : String) (startup : Bool)
    (hf : st.priv.proxy_todo.length + 1 ≤ fuel) (hn : name.data.head? = some ':') :
    (∃ st1, drain fuel created st = some (st.priv.proxy_todo.length + 1, st1)
      ∧ st1.priv.proxy_todo = [] ∧ st1.priv.todo_idle = 0
      ∧ (todo_list_add (some name) proxy startup st1).priv.todo_idle = g_idle_add
      ∧ (todo_list_add (some name) proxy startup st1).priv.todo_idle ≠ 0)
    ∧ (∀ less, less ≤ st.priv.proxy_todo.length → drain less created st = none) := by
  obtain ⟨st1, h1, h2, h3⟩ := (drain_spec _ st created fuel rfl).1 hf
  refine ⟨⟨st1, h1, h2, h3, ?_, ?_⟩, fun less hl => (drain_spec _ st created less rfl).2 hl⟩
  · simp [todo_list_add, hn, h3]
  · simp [todo_list_add, hn, h3, g_idle_add]

/-- Witness of C20: two queued tasks are drained in three calls. -/
theorem drain_terminates_witness :
    (todo_list_add (some ":1.9") DaemonProxy.dbus_proxy_session false
        (todo_list_add (some ":1.7") DaemonProxy.dbus_proxy_session true
          indicate_listener_init)).priv.proxy_todo.length + 1 ≤ 5
    ∧ (":1.8" : String).data.head? = some ':'
    ∧ ∃ st1, drain 5 (fun _ => true)
        (todo_list_add (some ":1.9") DaemonProxy.dbus_proxy_session false
          (todo_list_add (some ":1.7") DaemonProxy.dbus_proxy_session true
            indicate_listener_init))
        = some (3, st1)
      ∧ st1.priv.proxy_todo = [] ∧ st1.priv.todo_idle = 0 :=
  ⟨by decide, by decide,
    (drain_terminates (todo_list_add (some ":1.9") DaemonProxy.dbus_proxy_session false
        (todo_list_add (some ":1.7") DaemonProxy.dbus_proxy_session true
          indicate_listener_init)) (fun _ => true) 5 DaemonProxy.dbus_proxy_session ":1.8"
        false (by decide) (by decide)).1.imp
      (fun st1 h => ⟨h.1, h.2.1, h.2.2.1⟩)⟩

/-! ## Promotion of a confirmed peer -/

/-- C12 as stated fails: the sample peer is confirmed with declared type "im";
the promotion path with the type "chat" leaves the declared type "im". -/
theorem promotion_keeps_old_type :
    deref (sample_confirmed []) 0 = some (sample_peer (some []))
    ∧ (sample_peer (some [])).type = some "im"
    ∧ deref (proxy_server_added (some "chat") 0 (sample_confirmed [])).1 0
        = some (sample_peer (some []))
    ∧ ¬ ∃ x, deref (proxy_server_added (some "chat") 0 (sample_confirmed [])).1 0 = some x
          ∧ x.type = some "chat" := by
  refine ⟨by decide, rfl, by decide, ?_⟩
  rintro ⟨x, hx, ht⟩
  have h : deref (proxy_server_added (some "chat") 0 (sample_confirmed [])).1 0
      = some (sample_peer (some [])) := by decide
  rw [h] at hx
  cases hx
  simp [sample_peer] at ht

/-- C12, amended: on a peer that is already confirmed (its index exists) the
promotion path does nothing at all, whatever the type argument, null or not:
no effect is performed, so no `SERVER_ADDED` is emitted, and the state comes
back as it was, with the declared type, the candidate list, the confirmed list
and the index unchanged. -/
theorem promotion_idempotent (st : State) (p : Ptr) (proxyt : proxy_t)
    (table : IndicatorTable) (type : Option String)
    (h : deref st p = some proxyt) (ht : proxyt.indicators = some table) :
    proxy_server_added type p st = (st, [])
    ∧ deref (proxy_server_added type p st).1 p = some proxyt
    ∧ (∀ T, step st (Event.ServerShow p T) = (st, [])) := by
  have key := server_added_confirmed st p proxyt table
  refine ⟨key type h ht, by rw [key type h ht]; exact h, ?_⟩
  intro T
  simp [step, key (some T) h ht]

/-- Witness of C12 amended: the sample peer and the type "chat". -/
theorem promotion_idempotent_witness :
    deref (sample_confirmed []) 0 = some (sample_peer (some []))
    ∧ proxy_server_added (some "chat") 0 (sample_confirmed []) = (sample_confirmed [], []) :=
  ⟨by decide,
    (promotion_idempotent (sample_confirmed []) 0 (sample_peer (some [])) [] (some "chat")
      (by decide) rfl).1⟩

/-! ## Failed classification results -/

/-- C18 as stated fails: after the failed probe of the sample candidate, with a
remote error as with a null type, the peer is still in the candidate list. -/
theorem failed_probe_not_discarded :
    0 ∈ (step sample_candidate (Event.type_reply 0 PropertyReply.error)).1.priv.proxies_possible
    ∧ 0 ∈ (get_type_cb none 0 sample_candidate).1.priv.proxies_possible := by
  decide

/-- C18, amended: a failed "type" probe of a candidate, by a remote error or by
a null type handed to `get_type_cb`, performs no effect at all (no application
event, no diagnostic) and returns the state as it was: the peer stays in the
candidate list and is not put into the confirmed list. A reply that is not a
string gives one diagnostic and the same state. -/
theorem failed_probe_keeps_candidate (st : State) (p : Ptr)
    (hp : p ∈ st.priv.proxies_possible) :
    step st (Event.type_reply p PropertyReply.error) = (st, [])
    ∧ get_type_cb none p st = (st, [])
    ∧ p ∈ (step st (Event.type_reply p PropertyReply.error)).1.priv.proxies_possible
    ∧ (step st (Event.type_reply p PropertyReply.error)).1.priv.proxies_working
        = st.priv.proxies_working
    ∧ (∃ msg, step st (Event.type_reply p PropertyReply.not_a_string)
        = (st, [Effect.g_warning msg])) :=
  ⟨rfl, rfl, hp, rfl, ⟨_, rfl⟩⟩

/-- Witness of C18 amended: the sample candidate. -/
theorem failed_probe_keeps_candidate_witness :
    0 ∈ sample_candidate.priv.proxies_possible
    ∧ step sample_candidate (Event.type_reply 0 PropertyReply.error) = (sample_candidate, []) :=
  ⟨by decide, (failed_probe_keeps_candidate sample_candidate 0 (by decide)).1⟩

/-! ## Duplicate probe tasks -/

theorem replay_append (a b : List Signal) :
    ∀ s : List (String × Nat), replay s (a ++ b) = replay (replay s a) b := by
  induction a with
  | nil => intro s; rfl
  | cons e rest ih => intro s; simp [replay, ih]

theorem replay_legal_append (a b : List Signal) :
    ∀ s : List (String × Nat),
      replay_legal s (a ++ b) = (replay_legal s a && replay_legal (replay s a) b) := by
  induction a with
  | nil => intro s; simp [replay_legal, replay]
  | cons e rest ih => intro s; simp [replay_legal, replay, ih, Bool.and_assoc]

theorem modified_confirmed (st : State) (p : Ptr) (proxyt : proxy_t) (table : IndicatorTable)
    (id : Nat) (property : String)
    (h : deref st p = some proxyt) (ht : proxyt.indicators = some table) :
    (proxy_indicator_modified id property p st).1 = st
    ∧ (emitted (proxy_indicator_modified id property p st).2 = []
        ∨ ∃ ty, tracked table ty id = true
            ∧ emitted (proxy_indicator_modified id property p st).2
                = [Signal.INDICATOR_MODIFIED proxyt.server id ty property]) := by
  rcases hs : modified_scan table id (g_hash_table_get_keys table) with _ | ty
  · simp [proxy_indicator_modified, h, ht, hs, emitted]
  · refine ⟨by simp [proxy_indicator_modified, h, ht, hs], Or.inr ⟨ty, ?_, ?_⟩⟩
    · exact (modified_scan_some table id _ ty hs).2
    · simp [proxy_indicator_modified, h, ht, hs, emitted]

theorem index_step (st : State) (p : Ptr) (proxyt : proxy_t) (table : IndicatorTable)
    (s : List (String × Nat)) (e : Event)
    (h : deref st p = some proxyt) (ht : proxyt.indicators = some table)
    (hw : table_wf table) (hs : ∀ ty i, tracked table ty i = true ↔ (ty, i) ∈ s)
    (he : is_index_event p e = true) :
    ∃ table1, deref (step st e).1 p = some { proxyt with indicators := some table1 }
      ∧ table_wf table1
      ∧ (∀ ty i, tracked table1 ty i = true ↔ (ty, i) ∈ replay s (emitted (step st e).2))
      ∧ replay_legal s (emitted (step st e).2) = true := by
  cases e with
  | IndicatorAdded q id type =>
    have hq : q = p := by simpa [is_index_event] using he
    subst hq
    obtain ⟨t1, h1, h2, h3, h4, h5⟩ := added_confirmed st q proxyt table id type h ht
    refine ⟨t1, ?_, h4 hw, ?_, ?_⟩
    · simp only [step]
      rw [h1]
      exact deref_store_same _ (deref_lt h)
    · intro ty i
      simp only [step]
      rw [h2, h5]
      by_cases htr : tracked table type id = true
      · have hin : (type, id) ∈ s := (hs type id).1 htr
        simp only [htr, if_true, emitted, replay]
        rw [← hs]
        by_cases hty : ty = type
        · by_cases hi : i = id
          · subst hty; subst hi
            simp [htr]
          · simp [hi]
        · simp [hty]
      · have hnin : (type, id) ∉ s := fun hc => htr ((hs type id).2 hc)
        simp only [htr, if_false, emitted, replay, replay_signal, hnin, List.mem_cons,
          Prod.mk.injEq]
        rw [← hs]
        simp only [Bool.or_eq_true, Bool.and_eq_true, decide_eq_true_eq]
        tauto
    · simp only [step]
      rw [h2]
      by_cases htr : tracked table type id = true
      · simp [htr, emitted, replay_legal]
      · have hnin : (type, id) ∉ s := fun hc => htr ((hs type id).2 hc)
        simp [htr, emitted, replay_legal, signal_legal, hnin]
  | IndicatorRemoved q id type =>
    have hq : q = p := by simpa [is_index_event] using he
    subst hq
    obtain ⟨t1, h1, h2, h3, h4, h5⟩ := removed_confirmed st q proxyt table id type h ht hw
    refine ⟨t1, ?_, h4, ?_, ?_⟩
    · simp only [step]
      rw [h1]
      exact deref_store_same _ (deref_lt h)
    · intro ty i
      simp only [step]
      rw [h2, h5]
      by_cases htr : tracked table type id = true
      · simp only [htr, if_true, replay, replay_signal, List.mem_filter, decide_eq_true_eq]
        rw [← hs]
        simp only [Bool.and_eq_true, Bool.not_eq_true', Bool.and_eq_false_imp,
          decide_eq_true_eq, decide_eq_false_iff_not, ne_eq, Prod.mk.injEq, not_and]
      · have hnin : (type, id) ∉ s := fun hc => htr ((hs type id).2 hc)
        simp only [htr, if_false, replay, Bool.false_eq_true]
        rw [← hs]
        by_cases hty : ty = type
        · by_cases hi : i = id
          · subst hty; subst hi
            simp [htr]
          · simp [hi]
        · simp [hty]
    · simp only [step]
      rw [h2]
      by_cases htr : tracked table type id = true
      · have hin : (type, id) ∈ s := (hs type id).1 htr
        simp [htr, replay_legal, signal_legal, hin]
      · simp [htr, replay_legal]
  | IndicatorModified q id property =>
    have hq : q = p := by simpa [is_index_event] using he
    subst hq
    obtain ⟨h1, h2⟩ := modified_confirmed st q proxyt table id property h ht
    refine ⟨table, ?_, hw, ?_, ?_⟩
    · simp only [step]
      rw [h1, with_indicators_self proxyt table ht]
      exact h
    · intro ty i
      simp only [step]
      rcases h2 with h2 | ⟨ty1, _, h2⟩
      · rw [h2]
        exact hs ty i
      · rw [h2]
        exact hs ty i
    · simp only [step]
      rcases h2 with h2 | ⟨ty1, htr, h2⟩
      · rw [h2]
        rfl
      · rw [h2]
        have hin : (ty1, id) ∈ s := (hs ty1 id).1 htr
        simp [replay_legal, signal_legal, hin]
  | _ => simp [is_index_event] at he

theorem index_run (p : Ptr) (evs : List Event) :
    ∀ (st : State) (proxyt : proxy_t) (table : IndicatorTable) (s : List (String × Nat)),
      deref st p = some proxyt → proxyt.indicators = some table → table_wf table →
      (∀ ty i, tracked table ty i = true ↔ (ty, i) ∈ s) →
      (∀ e ∈ evs, is_index_event p e = true) →
      ∃ table1, deref (run st evs).1 p = some { proxyt with indicators := some table1 }
        ∧ (∀ ty i, tracked table1 ty i = true ↔ (ty, i) ∈ replay s (emitted (run st evs).2))
        ∧ replay_legal s (emitted (run st evs).2) = true := by
  induction evs with
  | nil =>
    intro st proxyt table s h ht _ hs _
    refine ⟨table, ?_, ?_, rfl⟩
    · simpa [run, with_indicators_self proxyt table ht] using h
    · simpa [run, emitted, replay] using hs
  | cons e rest ih =>
    intro st proxyt table s h ht hw hs hev
    obtain ⟨t1, h1, hw1, hs1, hl1⟩ :=
      index_step st p proxyt table s e h ht hw hs (hev e (List.mem_cons_self _ _))
    obtain ⟨t2, h2, hs2, hl2⟩ :=
      ih (step st e).1 { proxyt with indicators := some t1 } t1 _ h1 rfl hw1 hs1
        (fun e he => hev e (List.mem_cons_of_mem _ he))
    refine ⟨t2, by simpa [run] using h2, ?_, ?_⟩
    · intro ty i
      simp only [run, emitted_append, replay_append]
      exact hs2 ty i
    · simp only [run, emitted_append, replay_legal_append, hl1, Bool.true_and]
      exact hl2

/-- C11: a confirmed peer with an empty index receives any finite sequence of
add, remove and modify events. Afterwards a (type, id) pair is in the index
exactly when it is in the set obtained by replaying the emitted signals from
the empty set (insert on `INDICATOR_ADDED`, delete on `INDICATOR_REMOVED`); and
every emitted signal is consistent with the set replayed up to it: no
`INDICATOR_ADDED` for a pair already tracked, no `INDICATOR_REMOVED` and no
`INDICATOR_MODIFIED` for a pair that is not tracked. -/
theorem index_matches_events (st : State) (p : Ptr) (proxyt : proxy_t) (evs : List Event)
    (h : deref st p = some proxyt) (h0 : proxyt.indicators = some [])
    (hev : ∀ e ∈ evs, is_index_event p e = true) :
    ∃ table, deref (run st evs).1 p = some { proxyt with indicators := some table }
      ∧ (∀ ty i, tracked table ty i = true ↔ (ty, i) ∈ replay [] (emitted (run st evs).2))
      ∧ replay_legal [] (emitted (run st evs).2) = true := by
  have hw0 : table_wf [] := ⟨by simp [g_hash_table_get_keys], by simp⟩
  refine index_run p evs st proxyt [] [] h h0 hw0 ?_ hev
  intro ty i
  simp [tracked, g_hash_table_lookup]

/-- Witness of C11: adds, a duplicate add, a modify, removes and an orphan
remove on the sample peer; the pair ("alert", 5) is what is left. -/
theorem index_matches_events_witness :
    deref (sample_confirmed []) 0 = some (sample_peer (some []))
    ∧ replay [] (emitted (run (sample_confirmed [])
        [Event.IndicatorAdded 0 5 "message", Event.IndicatorAdded 0 5 "message",
         Event.IndicatorAdded 0 5 "alert", Event.IndicatorModified 0 5 "body",
         Event.IndicatorRemoved 0 5 "message", Event.IndicatorRemoved 0 7 "message",
         Event.IndicatorModified 0 9 "body"]).2) = [("alert", 5)]
    ∧ ∃ table, deref (run (sample_confirmed [])
        [Event.IndicatorAdded 0 5 "message", Event.IndicatorAdded 0 5 "message",
         Event.IndicatorAdded 0 5 "alert", Event.IndicatorModified 0 5 "body",
         Event.IndicatorRemoved 0 5 "message", Event.IndicatorRemoved 0 7 "message",
         Event.IndicatorModified 0 9 "body"]).1 0
          = some { sample_peer (some []) with indicators := some table }
      ∧ (∀ ty i, tracked table ty i = true ↔ (ty, i) ∈ replay [] (emitted (run
          (sample_confirmed [])
          [Event.IndicatorAdded 0 5 "message", Event.IndicatorAdded 0 5 "message",
           Event.IndicatorAdded 0 5 "alert", Event.IndicatorModified 0 5 "body",
           Event.IndicatorRemoved 0 5 "message", Event.IndicatorRemoved 0 7 "message",
           Event.IndicatorModified 0 9 "body"]).2))
      ∧ replay_legal [] (emitted (run (sample_confirmed [])
          [Event.IndicatorAdded 0 5 "message", Event.IndicatorAdded 0 5 "message",
           Event.IndicatorAdded 0 5 "alert", Event.IndicatorModified 0 5 "body",
           Event.IndicatorRemoved 0 5 "message", Event.IndicatorRemoved 0 7 "message",
           Event.IndicatorModified 0 9 "body"]).2) = true :=
  ⟨by decide, by decide,
    index_matches_events (sample_confirmed []) 0 (sample_peer (some [])) _ (by decide) rfl
      (by decide)⟩

/-! ## Name-lost notifications -/

end Indicate
